import Mathlib

/-! ColladaSerializer: relative placement of a scene hierarchy

A shallow embedding of `ColladaSerializer::ColladaExporter` (file
`src/ifcconvert/ColladaSerializer.cpp`): the scene writer's parent stack
(`ColladaScene::addParent`, `ColladaScene::closeParent`, `ColladaScene::add`)
and the loop of `endDocument` that reconciles the stack with the parent list of
each deferred object.

Conventions of the embedding.

* `double` is embedded as `ℚ`: every statement below is about exact arithmetic.
* A `std::stack` is a `List` whose head is the bottom of the stack, so the list
  reads outermost parent first; `push` appends at the end, `top` is the last
  entry and `pop` drops it.
* Operations whose behaviour C++ leaves undefined (`top`/`pop` of an empty
  stack) or that throw (`vector::at` out of range) stop the run with a `Fault`.
-/

namespace ColladaSerializer

/-- A `double[4][4]` array or a 4x4 `matrix<double>`, in exact arithmetic. -/
abbrev Mat4 := Matrix (Fin 4) (Fin 4) ℚ

/-- The 12 values of `transformation().matrix().data()`. -/
abbrev Buffer := Fin 12 → ℚ

/-- The initialiser of `matrix_array` and of `m` in `add` and `addParent`: the flat
buffer is laid out column by column and the last row is `0 0 0 1`. -/
def expand (p : Buffer) : Mat4 :=
  !![p 0, p 3, p 6, p 9;
     p 1, p 4, p 7, p 10;
     p 2, p 5, p 8, p 11;
     0, 0, 0, 1]

/-- The triple loop `relative[i][j] += matrix_array[i][k] * matrixStack.top()(k, j)`,
with `relative` starting at zero and `k` running from 0 to 3. -/
def multiply (a b : Mat4) : Mat4 :=
  Matrix.of fun i j => 0 + a i 0 * b 0 j + a i 1 * b 1 j + a i 2 * b 2 j + a i 3 * b 3 j

/-- The expression assigned to `det` in `addParent`. -/
def det (m : Mat4) : ℚ :=
  m 0 3 * m 1 2 * m 2 1 * m 3 0 - m 0 2 * m 1 3 * m 2 1 * m 3 0 - m 0 3 * m 1 1 * m 2 2 * m 3 0 + m 0 1 * m 1 3 * m 2 2 * m 3 0 +
  m 0 2 * m 1 1 * m 2 3 * m 3 0 - m 0 1 * m 1 2 * m 2 3 * m 3 0 - m 0 3 * m 1 2 * m 2 0 * m 3 1 + m 0 2 * m 1 3 * m 2 0 * m 3 1 +
  m 0 3 * m 1 0 * m 2 2 * m 3 1 - m 0 0 * m 1 3 * m 2 2 * m 3 1 - m 0 2 * m 1 0 * m 2 3 * m 3 1 + m 0 0 * m 1 2 * m 2 3 * m 3 1 +
  m 0 3 * m 1 1 * m 2 0 * m 3 2 - m 0 1 * m 1 3 * m 2 0 * m 3 2 - m 0 3 * m 1 0 * m 2 1 * m 3 2 + m 0 0 * m 1 3 * m 2 1 * m 3 2 +
  m 0 1 * m 1 0 * m 2 3 * m 3 2 - m 0 0 * m 1 1 * m 2 3 * m 3 2 - m 0 2 * m 1 1 * m 2 0 * m 3 3 + m 0 1 * m 1 2 * m 2 0 * m 3 3 +
  m 0 2 * m 1 0 * m 2 1 * m 3 3 - m 0 0 * m 1 2 * m 2 1 * m 3 3 - m 0 1 * m 1 0 * m 2 2 * m 3 3 + m 0 0 * m 1 1 * m 2 2 * m 3 3

/-- The sixteen expressions assigned to `inverse[i][j]` in `addParent`, before the
division by `det`. -/
def cofactors (m : Mat4) : Mat4 :=
  !![m 1 2 * m 2 3 * m 3 1 - m 1 3 * m 2 2 * m 3 1 + m 1 3 * m 2 1 * m 3 2 - m 1 1 * m 2 3 * m 3 2 - m 1 2 * m 2 1 * m 3 3 + m 1 1 * m 2 2 * m 3 3,
     m 0 3 * m 2 2 * m 3 1 - m 0 2 * m 2 3 * m 3 1 - m 0 3 * m 2 1 * m 3 2 + m 0 1 * m 2 3 * m 3 2 + m 0 2 * m 2 1 * m 3 3 - m 0 1 * m 2 2 * m 3 3,
     m 0 2 * m 1 3 * m 3 1 - m 0 3 * m 1 2 * m 3 1 + m 0 3 * m 1 1 * m 3 2 - m 0 1 * m 1 3 * m 3 2 - m 0 2 * m 1 1 * m 3 3 + m 0 1 * m 1 2 * m 3 3,
     m 0 3 * m 1 2 * m 2 1 - m 0 2 * m 1 3 * m 2 1 - m 0 3 * m 1 1 * m 2 2 + m 0 1 * m 1 3 * m 2 2 + m 0 2 * m 1 1 * m 2 3 - m 0 1 * m 1 2 * m 2 3;
     m 1 3 * m 2 2 * m 3 0 - m 1 2 * m 2 3 * m 3 0 - m 1 3 * m 2 0 * m 3 2 + m 1 0 * m 2 3 * m 3 2 + m 1 2 * m 2 0 * m 3 3 - m 1 0 * m 2 2 * m 3 3,
     m 0 2 * m 2 3 * m 3 0 - m 0 3 * m 2 2 * m 3 0 + m 0 3 * m 2 0 * m 3 2 - m 0 0 * m 2 3 * m 3 2 - m 0 2 * m 2 0 * m 3 3 + m 0 0 * m 2 2 * m 3 3,
     m 0 3 * m 1 2 * m 3 0 - m 0 2 * m 1 3 * m 3 0 - m 0 3 * m 1 0 * m 3 2 + m 0 0 * m 1 3 * m 3 2 + m 0 2 * m 1 0 * m 3 3 - m 0 0 * m 1 2 * m 3 3,
     m 0 2 * m 1 3 * m 2 0 - m 0 3 * m 1 2 * m 2 0 + m 0 3 * m 1 0 * m 2 2 - m 0 0 * m 1 3 * m 2 2 - m 0 2 * m 1 0 * m 2 3 + m 0 0 * m 1 2 * m 2 3;
     m 1 1 * m 2 3 * m 3 0 - m 1 3 * m 2 1 * m 3 0 + m 1 3 * m 2 0 * m 3 1 - m 1 0 * m 2 3 * m 3 1 - m 1 1 * m 2 0 * m 3 3 + m 1 0 * m 2 1 * m 3 3,
     m 0 3 * m 2 1 * m 3 0 - m 0 1 * m 2 3 * m 3 0 - m 0 3 * m 2 0 * m 3 1 + m 0 0 * m 2 3 * m 3 1 + m 0 1 * m 2 0 * m 3 3 - m 0 0 * m 2 1 * m 3 3,
     m 0 1 * m 1 3 * m 3 0 - m 0 3 * m 1 1 * m 3 0 + m 0 3 * m 1 0 * m 3 1 - m 0 0 * m 1 3 * m 3 1 - m 0 1 * m 1 0 * m 3 3 + m 0 0 * m 1 1 * m 3 3,
     m 0 3 * m 1 1 * m 2 0 - m 0 1 * m 1 3 * m 2 0 - m 0 3 * m 1 0 * m 2 1 + m 0 0 * m 1 3 * m 2 1 + m 0 1 * m 1 0 * m 2 3 - m 0 0 * m 1 1 * m 2 3;
     m 1 2 * m 2 1 * m 3 0 - m 1 1 * m 2 2 * m 3 0 - m 1 2 * m 2 0 * m 3 1 + m 1 0 * m 2 2 * m 3 1 + m 1 1 * m 2 0 * m 3 2 - m 1 0 * m 2 1 * m 3 2,
     m 0 1 * m 2 2 * m 3 0 - m 0 2 * m 2 1 * m 3 0 + m 0 2 * m 2 0 * m 3 1 - m 0 0 * m 2 2 * m 3 1 - m 0 1 * m 2 0 * m 3 2 + m 0 0 * m 2 1 * m 3 2,
     m 0 2 * m 1 1 * m 3 0 - m 0 1 * m 1 2 * m 3 0 - m 0 2 * m 1 0 * m 3 1 + m 0 0 * m 1 2 * m 3 1 + m 0 1 * m 1 0 * m 3 2 - m 0 0 * m 1 1 * m 3 2,
     m 0 1 * m 1 2 * m 2 0 - m 0 2 * m 1 1 * m 2 0 + m 0 2 * m 1 0 * m 2 1 - m 0 0 * m 1 2 * m 2 1 - m 0 1 * m 1 0 * m 2 2 + m 0 0 * m 1 1 * m 2 2]

/-- The matrix `save` that `addParent` pushes on `matrixStack`: every cofactor
expression divided by `det` (the loop `inverse[i][j] /= det`). -/
def inverse (m : Mat4) : Mat4 :=
  Matrix.of fun i j => cofactors m i j / det m

/-- What the serializer reads of an `IfcGeom::Element<real_t>`: `id()`, `name()`,
`type()` and `transformation().matrix().data()`. -/
structure Element where
  id : Int
  name : String
  type : String
  matrix : Buffer

/-- A `COLLADASW::Node` as `addParent` and `add` fill it in: `setNodeId`,
`setNodeName` and `addMatrix`. -/
structure Node where
  nodeId : String
  nodeName : String
  matrix : Mat4
  deriving DecidableEq

/-- What the scene writer sends to the COLLADA stream, in document order. -/
inductive Event where
  /-- `openVisualScene(scene_id)`. -/
  | openVisualScene
  /-- `current_node->start()` followed by `addMatrix` in `addParent`. -/
  | nodeStart (node : Node)
  /-- `current_node->end()` in `closeParent`. -/
  | nodeEnd (node : Node)
  /-- The node of `add`: started, given its matrix and an instance geometry with
  the url `"#" + geom_name`, and ended at once. The instance materials are left
  out. -/
  | geometry (node : Node) (url : String)
  /-- `closeVisualScene()`, `closeLibrary()` and `scene.add()` in `ColladaScene::write`. -/
  | closeVisualScene
  deriving DecidableEq

/-- The mutable state of `ColladaScene` together with `serializer->parentStackId`,
the stream written so far and what was printed on `std::cout`. The three stacks
list their bottom entry first. -/
structure Scene where
  scene_opened : Bool
  parentNodes : List Node
  matrixStack : List Mat4
  parentStackId : List Int
  written : List Event
  cout : List String
  deriving DecidableEq

/-- The ways in which a run leaves defined behaviour. -/
inductive Fault where
  /-- `parentNodes.top()` on an empty stack. -/
  | emptyParentNodes
  /-- `matrixStack.top()` or `matrixStack.pop()` on an empty stack. -/
  | emptyMatrixStack
  /-- `parentStackId.top()` or `parentStackId.pop()` on an empty stack. -/
  | emptyParentStackId
  /-- `parents.at(i)` with `i` outside the vector: `std::out_of_range` is thrown. -/
  | outOfRange
  deriving DecidableEq

/-- How a run ended. -/
inductive Status where
  /-- The operation returned. -/
  | ok
  /-- The run stopped at the given fault. -/
  | fault (f : Fault)
  /-- The iteration budget given to a `while` loop was used up. -/
  | outOfFuel
  deriving DecidableEq

/-- The result of running an operation: how it ended and the state reached, which
for a fault is the state just before the faulting step. -/
structure Outcome where
  status : Status
  scene : Scene
  deriving DecidableEq

/-- Sequencing: the next operation runs only if the previous one returned. -/
def Outcome.andThen (o : Outcome) (f : Scene → Outcome) : Outcome :=
  match o.status with
  | .ok => f o.scene
  | _ => o

/-- The state of a freshly constructed exporter: nothing opened, nothing written. -/
def Scene.initial : Scene :=
  { scene_opened := false, parentNodes := [], matrixStack := [], parentStackId := [],
    written := [], cout := [] }

/-- The first statement of `add` and `addParent`: the visual scene tag is opened
if it is not yet. -/
def openScene (s : Scene) : Scene :=
  if s.scene_opened then s
  else { s with written := s.written ++ [Event.openVisualScene], scene_opened := true }

/-- The separator line printed before each relative placement. -/
def separator : String :=
  String.mk (List.replicate 133 '-') ++ "\n"

/-- The block `if (parentNodes.size() > 0)` shared by `add` and `addParent`: with
no open parent the matrix is kept, otherwise two lines are printed and the matrix
is multiplied on the right by `matrixStack.top()`. -/
def relativePlacement (s : Scene) (label : String) (matrix_array : Mat4) : Outcome × Mat4 :=
  match s.parentNodes.getLast? with
  | none => (⟨Status.ok, s⟩, matrix_array)
  | some top =>
    let s1 := { s with cout := s.cout ++
      [separator, label ++ " placement, using " ++ top.nodeName ++ " ...\n"] }
    match s.matrixStack.getLast? with
    | none => (⟨Status.fault Fault.emptyMatrixStack, s1⟩, matrix_array)
    | some inv => (⟨Status.ok, s1⟩, multiply matrix_array inv)

/-- The node that `addParent` creates for `parent` with the placement `matrix_array`. -/
def parentNode (parent : Element) (matrix_array : Mat4) : Node :=
  { nodeId := "representation-" ++ toString parent.id,
    nodeName := parent.type ++ " " ++ parent.name,
    matrix := matrix_array }

/-- The diagnostic of `addParent` for a matrix without inverse. -/
def noInverseMessage : String := "couldn't inverse the position matrix \n"

/-- The part of `addParent` after the relative placement: the node is started and
given its matrix, the inverse of the absolute matrix is pushed on `matrixStack`
when `det != 0` (a message is printed otherwise), and the node and the id are
pushed. -/
def pushParent (s : Scene) (parent : Element) (matrix_array : Mat4) : Scene :=
  let current_node := parentNode parent matrix_array
  let m := expand parent.matrix
  { s with
    written := s.written ++ [Event.nodeStart current_node]
    matrixStack := if det m ≠ 0 then s.matrixStack ++ [inverse m] else s.matrixStack
    cout := if det m ≠ 0 then s.cout else s.cout ++ [noInverseMessage]
    parentNodes := s.parentNodes ++ [current_node]
    parentStackId := s.parentStackId ++ [parent.id] }

/-- `ColladaScene::addParent`. -/
def addParent (s : Scene) (parent : Element) : Outcome :=
  let r := relativePlacement (openScene s)
    ("PARENT         : " ++ parent.name ++ "_" ++ parent.type) (expand parent.matrix)
  r.1.andThen fun s1 => ⟨Status.ok, pushParent s1 parent r.2⟩

/-- `ColladaScene::closeParent`: the top node is ended and the three stacks are
popped, in the order `parentNodes`, `matrixStack`, `parentStackId`. -/
def closeParent (s : Scene) : Outcome :=
  match s.parentNodes.getLast? with
  | none => ⟨Status.fault Fault.emptyParentNodes, s⟩
  | some current_node =>
    let s1 := { s with written := s.written ++ [Event.nodeEnd current_node]
                       parentNodes := s.parentNodes.dropLast }
    if s.matrixStack = [] then ⟨Status.fault Fault.emptyMatrixStack, s1⟩
    else
      let s2 := { s1 with matrixStack := s.matrixStack.dropLast }
      if s.parentStackId = [] then ⟨Status.fault Fault.emptyParentStackId, s2⟩
      else ⟨Status.ok, { s2 with parentStackId := s.parentStackId.dropLast }⟩

/-- The three statements `matrix_array[i][3] += serializer->settings().offset[i]`. -/
def addOffset (offset : Fin 3 → ℚ) (m : Mat4) : Mat4 :=
  Matrix.of fun i j =>
    if j = 3 then
      if i = 0 then m i j + offset 0
      else if i = 1 then m i j + offset 1
      else if i = 2 then m i j + offset 2
      else m i j
    else m i j

/-- `ColladaScene::add`, with `offset` standing for `serializer->settings().offset`. -/
def add (offset : Fin 3 → ℚ) (s : Scene) (node_id node_name geom_name : String)
    (posmatrix : Buffer) : Outcome :=
  let r := relativePlacement (openScene s) ("REPRESENTATION : " ++ node_name) (expand posmatrix)
  r.1.andThen fun s1 =>
    let node : Node := { nodeId := node_id, nodeName := node_name, matrix := addOffset offset r.2 }
    ⟨Status.ok, { s1 with written := s1.written ++ [Event.geometry node ("#" ++ geom_name)] }⟩

/-- The record `DeferredObject` as far as the scene pass of `endDocument` reads it. -/
structure DeferredObject where
  unique_id : String
  representation_id : String
  matrix : Buffer
  parents : List Element

/-- The loop `while (serializer->parentStackId.size() > parentsNumber) { scene.closeParent(); }`,
run for at most `fuel` iterations. -/
def closeWhileAbove (parentsNumber : Nat) : Nat → Scene → Outcome
  | 0, s => ⟨if s.parentStackId.length > parentsNumber then Status.outOfFuel else Status.ok, s⟩
  | fuel + 1, s =>
    if s.parentStackId.length > parentsNumber then
      (closeParent s).andThen (closeWhileAbove parentsNumber fuel)
    else ⟨Status.ok, s⟩

/-- The loop `for (unsigned i = ...; i < parentsNumber; i++) { scene.addParent(*(it->parents.at(i))); }`
over the indices `is`. -/
def addParentsAt (parents : List Element) : List Nat → Scene → Outcome
  | [], s => ⟨Status.ok, s⟩
  | i :: is, s =>
    match parents[i]? with
    | none => ⟨Status.fault Fault.outOfRange, s⟩
    | some p => (addParent s p).andThen (addParentsAt parents is)

/-- The loop `while (!finished)` of `endDocument`, which brings the parent stack in
line with the parents of the object about to be written; `fuel` bounds the
iterations of each `while` loop. Sizes are natural numbers: `unsigned` arithmetic
is exact for fewer than `2^32` parents. -/
def reconcile (parents : List Element) : Nat → Scene → Outcome
  | 0, s => ⟨Status.outOfFuel, s⟩
  | fuel + 1, s =>
    let parentsNumber := parents.length
    -- If we need to add a parent
    if s.parentStackId.length ≤ parentsNumber then
      match s.parentStackId.getLast? with
      | none =>
        match parents[0]? with
        | none => ⟨Status.fault Fault.outOfRange, s⟩
        | some p => (addParent s p).andThen (reconcile parents fuel)
      | some top =>
        let diff := parentsNumber - s.parentStackId.length
        match parents[parentsNumber - diff - 1]? with
        | none => ⟨Status.fault Fault.outOfRange, s⟩
        | some p =>
          -- If we have the wrong parent in the list
          if top ≠ p.id then (closeParent s).andThen (reconcile parents fuel)
          -- So far we have the right parents, we just need to add the missing ones
          else
            (addParentsAt parents (List.range' (parentsNumber - diff) diff) s).andThen fun s1 =>
              if diff = 0 then ⟨Status.ok, s1⟩ else reconcile parents fuel s1
    else
      -- Close the finished nodes
      (closeWhileAbove parentsNumber fuel s).andThen (reconcile parents fuel)

/-- One iteration of the scene loop of `endDocument`: the parent stack is reconciled
when `use_hierarchy` is set, then the object is added. -/
def writeObject (offset : Fin 3 → ℚ) (use_hierarchy : Bool) (fuel : Nat) (s : Scene)
    (it : DeferredObject) : Outcome :=
  (if use_hierarchy then reconcile it.parents fuel s else ⟨Status.ok, s⟩).andThen fun s1 =>
    add offset s1 it.unique_id it.unique_id it.representation_id it.matrix

/-- The scene loop of `endDocument` over all deferred objects. -/
def writeObjects (offset : Fin 3 → ℚ) (use_hierarchy : Bool) (fuel : Nat) :
    List DeferredObject → Scene → Outcome
  | [], s => ⟨Status.ok, s⟩
  | it :: rest, s =>
    (writeObject offset use_hierarchy fuel s it).andThen (writeObjects offset use_hierarchy fuel rest)

/-- `ColladaScene::write`. -/
def sceneWrite (s : Scene) : Scene :=
  if s.scene_opened then { s with written := s.written ++ [Event.closeVisualScene] } else s

/-- The scene part of `endDocument`: every deferred object is written, the
remaining parent tags are closed and the scene is written. -/
def endDocument (offset : Fin 3 → ℚ) (use_hierarchy : Bool) (fuel : Nat)
    (deferreds : List DeferredObject) (s : Scene) : Outcome :=
  (writeObjects offset use_hierarchy fuel deferreds s).andThen fun s1 =>
    (closeWhileAbove 0 fuel s1).andThen fun s2 => ⟨Status.ok, sceneWrite s2⟩

/-! ### Observations on a state and the vocabulary of the statements -/

/-- The number of `nodeStart` events written so far: one per completed call of `addParent`. -/
def opens (s : Scene) : Nat :=
  s.written.countP fun e => match e with
    | Event.nodeStart _ => true
    | _ => false

/-- The number of `nodeEnd` events written so far: one per node ended by `closeParent`. -/
def closes (s : Scene) : Nat :=
  s.written.countP fun e => match e with
    | Event.nodeEnd _ => true
    | _ => false

/-- The effect of one event on the list of nodes that are open in the document
(bottom first): a `nodeEnd` is only legal for the innermost open node. -/
def replayEvent (e : Event) (openNodes : List Node) : Option (List Node) :=
  match e with
  | Event.nodeStart n => some (openNodes ++ [n])
  | Event.nodeEnd n => if openNodes.getLast? = some n then some openNodes.dropLast else none
  | _ => some openNodes

/-- The nodes left open by a stream of events read from the start of the document,
or `none` when the stream is not well nested. -/
def replay (events : List Event) : Option (List Node) :=
  events.foldl (fun acc e => acc.bind (replayEvent e)) (some [])

/-- The three stacks are parallel: same number of nodes, inverse matrices and ids. -/
def Scene.Aligned (s : Scene) : Prop :=
  s.parentNodes.length = s.parentStackId.length ∧ s.matrixStack.length = s.parentStackId.length

/-- Every parent of the list has an absolute matrix with `det != 0`. -/
def AllInvertible (parents : List Element) : Prop :=
  ∀ p ∈ parents, det (expand p.matrix) ≠ 0

/-- The two id sequences are paths of one tree: where they carry the same id at
some depth, they carry the same ids at every smaller depth. -/
def TreePaths (S P : List Int) : Prop :=
  ∀ i, i < min S.length P.length → S[i]? = P[i]? → S.take i = P.take i

/-- The length of the longest common prefix of two id sequences. -/
def commonPrefixLen : List Int → List Int → Nat
  | a :: S, b :: P => if a = b then commonPrefixLen S P + 1 else 0
  | _, _ => 0

/-- The largest depth `j ≤ d` that is zero or at which the stack `S` and the target
`P` carry the same id as their entry `j - 1`: the depth at which the loop of
`endDocument` stops closing when it starts comparing at depth `d`. -/
def matchDepth (S P : List Int) : Nat → Nat
  | 0 => 0
  | d + 1 => if S[d]? = P[d]? then d + 1 else matchDepth S P d

/-- A call made by the reconciliation loop. -/
inductive Op where
  | closeParent
  | addParent (p : Element)

/-- Runs a list of calls in order, stopping at the first one that does not return. -/
def runOps : List Op → Scene → Outcome
  | [], s => ⟨Status.ok, s⟩
  | Op.closeParent :: ops, s => (closeParent s).andThen (runOps ops)
  | Op.addParent p :: ops, s => (addParent s p).andThen (runOps ops)

/-- The calls that reconciling the id stack `S` with the parents `P` comes down to:
the entries above the match depth are closed, then the parents of `P` from that
depth on are opened. -/
def plan (S : List Int) (P : List Element) : List Op :=
  let j := matchDepth S (P.map Element.id) (min S.length P.length)
  List.replicate (S.length - j) Op.closeParent ++ (P.drop j).map Op.addParent

/-- The matrix attached to the node of `p` when it is opened in the state `s`. -/
def placement (s : Scene) (p : Element) : Mat4 :=
  (relativePlacement (openScene s)
    ("PARENT         : " ++ p.name ++ "_" ++ p.type) (expand p.matrix)).2

instance (s : Scene) : Decidable s.Aligned := by
  unfold Scene.Aligned; infer_instance

instance (parents : List Element) : Decidable (AllInvertible parents) := by
  unfold AllInvertible; infer_instance

instance (S P : List Int) : Decidable (TreePaths S P) := by
  unfold TreePaths; infer_instance

/-- The number of geometry nodes written so far: one per completed call of `add`. -/
def geometries (s : Scene) : Nat :=
  s.written.countP fun e => match e with
    | Event.geometry _ _ => true
    | _ => false

/-- The buffer of the identity placement. -/
def identityBuffer : Buffer := ![1, 0, 0, 0, 1, 0, 0, 0, 1, 0, 0, 0]

/-- An element with the given id and the identity placement. -/
def unitElement (id : Int) : Element :=
  { id := id, name := "", type := "", matrix := identityBuffer }

/-- The state reached from the initial one by opening unit elements with the given
ids, outermost first. -/
def opened (ids : List Int) : Scene :=
  (runOps (ids.map fun i => Op.addParent (unitElement i)) Scene.initial).scene

/-- An element with the given id whose buffer is zero throughout: its expanded
matrix has the rows `0 0 0 0` three times and `0 0 0 1`, and no inverse. -/
def flatElement (id : Int) : Element :=
  { id := id, name := "", type := "", matrix := fun _ => 0 }

/-- An element with the given id that is placed at `(x, y, z)` without rotation. -/
def movedElement (id : Int) (x y z : ℚ) : Element :=
  { id := id, name := "", type := "", matrix := ![1, 0, 0, 0, 1, 0, 0, 0, 1, x, y, z] }

/-- The document written so far is well nested and the nodes it leaves open are
the nodes of `parentNodes`, of which there are as many as ids on `parentStackId`. -/
def Scene.WellNested (s : Scene) : Prop :=
  s.parentNodes.length = s.parentStackId.length ∧ replay s.written = some s.parentNodes

/-- The run returned or stopped at an empty `matrixStack`: no other fault and no
exhausted budget. -/
def Outcome.Benign (o : Outcome) : Prop :=
  o.status = Status.ok ∨ o.status = Status.fault Fault.emptyMatrixStack

/-- The node `n` is one that `addParent` creates for the element `e`, with some
placement matrix. -/
def IsNodeOf (n : Node) (e : Element) : Prop :=
  ∃ m, n = parentNode e m

/-- The elements that are open after the calls `ops`, when `es` were open before:
`addParent` puts its element on top, `closeParent` takes the top one away. -/
def openElements : List Op → List Element → List Element
  | [], es => es
  | Op.closeParent :: ops, es => openElements ops es.dropLast
  | Op.addParent p :: ops, es => openElements ops (es ++ [p])

/-- The three stacks of `s` are those of the open elements `es`, bottom first: the
nodes and ids are theirs and `matrixStack` holds, entry by entry, the inverse that
`addParent` computes of their absolute matrices. -/
def Scene.Tracks (s : Scene) (es : List Element) : Prop :=
  List.Forall₂ IsNodeOf s.parentNodes es ∧
  s.parentStackId = es.map Element.id ∧
  s.matrixStack = es.map fun e => inverse (expand e.matrix)

/-- The `nodeStart` and `nodeEnd` events of a stream, in order. -/
def nodeEvents (events : List Event) : List Event :=
  events.filter fun e => match e with
    | Event.nodeStart _ => true
    | Event.nodeEnd _ => true
    | _ => false

/-- The matrix of the geometry node that was written last, or zero when the last
event is no geometry node. -/
def lastGeometryMatrix (s : Scene) : Mat4 :=
  match s.written.getLast? with
  | some (Event.geometry n _) => n.matrix
  | _ => 0

/-- The state in which the parents 1, placed at `(1, 0, 0)`, and 2, placed at
`(0, 2, 0)`, are open after a third parent with a zero buffer was opened below
them and closed again. -/
def afterFlatSibling : Scene :=
  (runOps [Op.addParent (movedElement 1 1 0 0), Op.addParent (movedElement 2 0 2 0),
    Op.addParent (flatElement 3), Op.closeParent] Scene.initial).scene

/-! ### The triangle groups of `ColladaGeometries::write` -/

/-- A `COLLADASW::Triangles` element as `ColladaGeometries::write` fills it in:
`material_id` is the value of `previous_material_id` with which `materials` is
indexed, `material` the name given to `setMaterial`, `count` the argument of
`setCount` and `indices` the values `*jt` for `jt` from `index_range_start` up to
`it`, each of which is appended once per input of the element. -/
structure Triangles where
  material_id : Int
  material : String
  count : Nat
  indices : List Int
  deriving DecidableEq

/-- How the loop over the faces ended. -/
inductive WriteStatus where
  /-- The loop left through `break` or its condition `!faces.empty()` failed. -/
  | done
  /-- The iterator `it` was moved beyond `faces.end()`. -/
  | pastEnd
  /-- The iteration budget was used up. -/
  | outOfFuel
  deriving DecidableEq

/-- The variables of the loop over the faces: the iterators are positions in
`faces` and in `material_ids`, and `out` holds the elements written so far. -/
structure TriangleLoop where
  it : Nat
  index_range_start : Nat
  material_it : Nat
  previous_material_id : Int
  out : List Triangles

/-- The loop `for (it = faces.begin(); !faces.empty(); it += 3)` of
`ColladaGeometries::write`, run for at most `fuel` iterations. `materialName i`
stands for the name that the code derives from `materials[i]`. -/
def writeTriangles (materialName : Int → String) (faces material_ids : List Int) :
    Nat → TriangleLoop → WriteStatus × List Triangles
  | 0, st => (WriteStatus.outOfFuel, st.out)
  | fuel + 1, st =>
    if faces = [] then (WriteStatus.done, st.out)
    else if st.it > faces.length then (WriteStatus.pastEnd, st.out)
    else
      -- if (material_it != material_ids.end()) current_material_id = *(material_it++);
      let current_material_id : Int := (material_ids[st.material_it]?).getD 0
      let material_it := if st.material_it < material_ids.length then st.material_it + 1
        else st.material_it
      let num_triangles := (st.it - st.index_range_start) / 3
      let emit : Bool := (st.previous_material_id != current_material_id && decide (num_triangles > 0))
        || decide (st.it = faces.length)
      let out := if emit then st.out ++
          [{ material_id := st.previous_material_id
             material := materialName st.previous_material_id
             count := num_triangles
             indices := (faces.drop st.index_range_start).take (st.it - st.index_range_start) }]
        else st.out
      let index_range_start := if emit then st.it else st.index_range_start
      if st.it = faces.length then (WriteStatus.done, out)
      else writeTriangles materialName faces material_ids fuel
        { it := st.it + 3, index_range_start := index_range_start, material_it := material_it,
          previous_material_id := current_material_id, out := out }

/-- The values of the loop variables before the first iteration. -/
def TriangleLoop.initial : TriangleLoop :=
  { it := 0, index_range_start := 0, material_it := 0, previous_material_id := -1, out := [] }

/-- The groups that are still to be written when the triangles from position
`start` on form a run of `c` triangles with the material `prev` and the material
ids `rest` are still to be read. -/
def runsFrom (materialName : Int → String) (faces : List Int) :
    Nat → Int → Nat → List Int → List Triangles
  | start, prev, c, [] =>
    [{ material_id := prev, material := materialName prev, count := c,
       indices := (faces.drop start).take (3 * c) }]
  | start, prev, c, m :: rest =>
    if prev = m then runsFrom materialName faces start prev (c + 1) rest
    else
      { material_id := prev, material := materialName prev, count := c,
        indices := (faces.drop start).take (3 * c) } ::
        runsFrom materialName faces (start + 3 * c) m 1 rest

end ColladaSerializer

/-! Wires of the CGAL kernel

A shallow embedding of two overloads of `IfcGeom::CgalKernel::convert` (file
`src/ifcgeom/kernels/cgal/CgalIfcGeomWires.cpp`). A `cgal_wire_t` is a list of
points. The functions that the file calls but does not define are parameters:
the conversion of one `IfcCartesianPoint`, `remove_duplicate_points_from_loop` and
`convert_wire`.
-/

namespace CgalKernel

/-- A call of `Logger::Message`, without the entity it is given. -/
inductive LogMessage where
  /-- A message with the level `LOG_ERROR`. -/
  | error (text : String)
  /-- A message with the level `LOG_WARNING`. -/
  | warning (text : String)
  deriving DecidableEq

/-- The difference `original_count - count` of two `std::size_t` values. -/
def sizeSub (original_count count : Nat) : Nat :=
  (original_count + 2 ^ 64 - count % 2 ^ 64) % 2 ^ 64

/-- `convert(const IfcSchema::IfcPolyLoop*, cgal_wire_t&)`: the value returned, the
wire `result` after the call and the messages logged. `Polygon` is the point list
`l->Polygon()`, `convertPoint p` the point that the conversion of `p` leaves in
`pnt` (its return value is not read) and `remove_duplicate_points_from_loop polygon
closed` the wire that the function of that name leaves in `polygon`. -/
def convert_IfcPolyLoop {α β : Type} (convertPoint : α → β)
    (remove_duplicate_points_from_loop : List β → Bool → List β)
    (Polygon : List α) (result : List β) : Bool × List β × List LogMessage :=
  -- Parse and store the points in a sequence
  let polygon := Polygon.map convertPoint
  -- A loop should consist of at least three vertices
  let original_count := polygon.length
  if original_count < 3 then
    (false, result, [LogMessage.error "Not enough edges for:"])
  else
    -- Remove points that are too close to one another
    let polygon := remove_duplicate_points_from_loop polygon true
    let count := polygon.length
    let log :=
      if sizeSub original_count count ≠ 0 then
        [LogMessage.warning (toString (sizeSub original_count count) ++ " edges removed for:")]
      else []
    if count < 3 then
      (false, result, log ++ [LogMessage.error "Not enough edges for:"])
    else
      (true, polygon, log)

/-- The loop over the edge list in `convert(const IfcSchema::IfcEdgeLoop*,
cgal_wire_t&)`: `tried` collects the edges that were given to `convert_wire`. -/
def edgeLoop {ε β : Type} (convert_wire : ε → List β → Bool × List β) (result : List β) :
    List ε → List ε → Bool × List β × List ε
  | [], tried => (true, [], tried)
  | e :: rest, tried =>
    if (convert_wire e []).1 then (false, result, tried ++ [e])
    else edgeLoop convert_wire result rest (tried ++ [e])

/-- `convert(const IfcSchema::IfcEdgeLoop*, cgal_wire_t&)`: the value returned, the
wire `result` after the call and the edges that were given to `convert_wire`, in
order. `EdgeList` is `l->EdgeList()`; `convert_wire e w` gives the value that
`convert_wire` returns for the edge `e` and the wire it leaves in `w`, and is
called with an empty `w`. The wire `mw` stays empty. -/
def convert_IfcEdgeLoop {ε β : Type} (convert_wire : ε → List β → Bool × List β)
    (EdgeList : List ε) (result : List β) : Bool × List β × List ε :=
  edgeLoop convert_wire result EdgeList []

end CgalKernel

namespace ColladaSerializer

/-! ### Sequencing -/

@[simp] theorem Outcome.andThen_ok (s : Scene) (f : Scene → Outcome) :
    (Outcome.mk Status.ok s).andThen f = f s := rfl

@[simp] theorem Outcome.andThen_fault (x : Fault) (s : Scene) (f : Scene → Outcome) :
    (Outcome.mk (Status.fault x) s).andThen f = ⟨Status.fault x, s⟩ := rfl

@[simp] theorem Outcome.andThen_outOfFuel (s : Scene) (f : Scene → Outcome) :
    (Outcome.mk Status.outOfFuel s).andThen f = ⟨Status.outOfFuel, s⟩ := rfl

theorem Outcome.andThen_of_ok {o : Outcome} (h : o.status = Status.ok) (f : Scene → Outcome) :
    o.andThen f = f o.scene := by
  cases o with
  | mk st sc => cases h; rfl

theorem Outcome.andThen_of_ne_ok {o : Outcome} (h : o.status ≠ Status.ok) (f : Scene → Outcome) :
    o.andThen f = o := by
  cases o with
  | mk st sc => cases st <;> simp_all

theorem Outcome.andThen_congr (o : Outcome) (f g : Scene → Outcome)
    (h : o.status = Status.ok → f o.scene = g o.scene) : o.andThen f = o.andThen g := by
  by_cases hs : o.status = Status.ok
  · rw [Outcome.andThen_of_ok hs, Outcome.andThen_of_ok hs, h hs]
  · rw [Outcome.andThen_of_ne_ok hs, Outcome.andThen_of_ne_ok hs]

theorem Outcome.andThen_assoc (o : Outcome) (f g : Scene → Outcome) :
    (o.andThen f).andThen g = o.andThen fun s => (f s).andThen g := by
  by_cases hs : o.status = Status.ok
  · rw [Outcome.andThen_of_ok hs, Outcome.andThen_of_ok hs]
  · rw [Outcome.andThen_of_ne_ok hs, Outcome.andThen_of_ne_ok hs, Outcome.andThen_of_ne_ok hs]

theorem Outcome.andThen_return (o : Outcome) :
    (o.andThen fun s => ⟨Status.ok, s⟩) = o := by
  by_cases hs : o.status = Status.ok
  · rw [Outcome.andThen_of_ok hs]
    cases o with
    | mk st sc => cases hs; rfl
  · rw [Outcome.andThen_of_ne_ok hs]

theorem runOps_append (a b : List Op) (s : Scene) :
    runOps (a ++ b) s = (runOps a s).andThen (runOps b) := by
  induction a generalizing s with
  | nil => simp [runOps]
  | cons x a ih =>
    cases x with
    | closeParent =>
      simp only [List.cons_append, runOps, Outcome.andThen_assoc]
      exact Outcome.andThen_congr _ _ _ fun _ => ih _
    | addParent p =>
      simp only [List.cons_append, runOps, Outcome.andThen_assoc]
      exact Outcome.andThen_congr _ _ _ fun _ => ih _

/-! ### The primitive calls -/

@[simp] theorem openScene_parentNodes (s : Scene) : (openScene s).parentNodes = s.parentNodes := by
  unfold openScene; split <;> rfl

@[simp] theorem openScene_matrixStack (s : Scene) : (openScene s).matrixStack = s.matrixStack := by
  unfold openScene; split <;> rfl

@[simp] theorem openScene_parentStackId (s : Scene) :
    (openScene s).parentStackId = s.parentStackId := by
  unfold openScene; split <;> rfl

@[simp] theorem openScene_opens (s : Scene) : opens (openScene s) = opens s := by
  unfold openScene opens; split <;> simp [List.countP_append]

@[simp] theorem openScene_closes (s : Scene) : closes (openScene s) = closes s := by
  unfold openScene closes; split <;> simp [List.countP_append]

theorem closeParent_status_ok_iff (s : Scene) :
    (closeParent s).status = Status.ok ↔
      s.parentNodes ≠ [] ∧ s.matrixStack ≠ [] ∧ s.parentStackId ≠ [] := by
  unfold closeParent
  cases h : s.parentNodes.getLast? with
  | none => simp [List.getLast?_eq_none_iff.mp h]
  | some n =>
    have hn : s.parentNodes ≠ [] := by
      intro h0; simp [h0] at h
    by_cases h2 : s.matrixStack = [] <;> by_cases h3 : s.parentStackId = [] <;> simp [h2, h3, hn]

theorem closeParent_status_ne_outOfFuel (s : Scene) :
    (closeParent s).status ≠ Status.outOfFuel := by
  unfold closeParent
  cases h : s.parentNodes.getLast? with
  | none => simp
  | some n =>
    by_cases h2 : s.matrixStack = [] <;> by_cases h3 : s.parentStackId = [] <;> simp [h2, h3]

theorem closeParent_status_ne_outOfRange (s : Scene) :
    (closeParent s).status ≠ Status.fault Fault.outOfRange := by
  unfold closeParent
  cases h : s.parentNodes.getLast? with
  | none => simp
  | some n =>
    by_cases h2 : s.matrixStack = [] <;> by_cases h3 : s.parentStackId = [] <;> simp [h2, h3]

theorem closeParent_parentStackId (s : Scene) :
    (closeParent s).scene.parentStackId =
      if (closeParent s).status = Status.ok then s.parentStackId.dropLast else s.parentStackId := by
  unfold closeParent
  cases h : s.parentNodes.getLast? with
  | none => simp
  | some n =>
    by_cases h2 : s.matrixStack = [] <;> by_cases h3 : s.parentStackId = [] <;> simp [h2, h3]

theorem closeParent_parentNodes (s : Scene) :
    (closeParent s).scene.parentNodes = s.parentNodes.dropLast := by
  unfold closeParent
  cases h : s.parentNodes.getLast? with
  | none => simp [List.getLast?_eq_none_iff.mp h]
  | some n =>
    by_cases h2 : s.matrixStack = [] <;> by_cases h3 : s.parentStackId = [] <;> simp [h2, h3]

theorem closeParent_matrixStack (s : Scene) :
    (closeParent s).scene.matrixStack = s.matrixStack ∨
      (closeParent s).scene.matrixStack = s.matrixStack.dropLast := by
  unfold closeParent
  cases h : s.parentNodes.getLast? with
  | none => simp
  | some n =>
    by_cases h2 : s.matrixStack = [] <;> by_cases h3 : s.parentStackId = [] <;> simp [h2, h3]

theorem closeParent_matrixStack_of_ok (s : Scene) (h : (closeParent s).status = Status.ok) :
    (closeParent s).scene.matrixStack = s.matrixStack.dropLast := by
  obtain ⟨h1, h2, h3⟩ := (closeParent_status_ok_iff s).mp h
  unfold closeParent
  cases h : s.parentNodes.getLast? with
  | none => simp [List.getLast?_eq_none_iff.mp h] at h1
  | some n => simp [h2, h3]

theorem closeParent_written_of_ok (s : Scene) (h : (closeParent s).status = Status.ok) :
    ∃ n, s.parentNodes.getLast? = some n ∧
      (closeParent s).scene.written = s.written ++ [Event.nodeEnd n] := by
  obtain ⟨h1, h2, h3⟩ := (closeParent_status_ok_iff s).mp h
  unfold closeParent
  cases h : s.parentNodes.getLast? with
  | none => simp [List.getLast?_eq_none_iff.mp h] at h1
  | some n => simp [h2, h3]

theorem closeParent_opens (s : Scene) : opens (closeParent s).scene = opens s := by
  unfold closeParent
  cases h : s.parentNodes.getLast? with
  | none => simp
  | some n =>
    by_cases h2 : s.matrixStack = [] <;> by_cases h3 : s.parentStackId = [] <;>
      simp [h2, h3, opens, List.countP_append]

theorem closeParent_closes_le (s : Scene) :
    closes s ≤ closes (closeParent s).scene ∧ closes (closeParent s).scene ≤ closes s + 1 := by
  unfold closeParent
  cases h : s.parentNodes.getLast? with
  | none => simp
  | some n =>
    by_cases h2 : s.matrixStack = [] <;> by_cases h3 : s.parentStackId = [] <;>
      simp [h2, h3, closes, List.countP_append]

theorem closeParent_closes_of_ok (s : Scene) (h : (closeParent s).status = Status.ok) :
    closes (closeParent s).scene = closes s + 1 := by
  obtain ⟨n, _, hw⟩ := closeParent_written_of_ok s h
  simp [closes, hw, List.countP_append]

theorem relativePlacement_status (s : Scene) (label : String) (m : Mat4) :
    (relativePlacement s label m).1.status =
      if s.parentNodes = [] ∨ s.matrixStack ≠ [] then Status.ok
      else Status.fault Fault.emptyMatrixStack := by
  unfold relativePlacement
  cases h : s.parentNodes.getLast? with
  | none => simp [List.getLast?_eq_none_iff.mp h]
  | some n =>
    have hn : s.parentNodes ≠ [] := by
      intro h0; simp [h0] at h
    cases h2 : s.matrixStack.getLast? with
    | none => simp [List.getLast?_eq_none_iff.mp h2, hn]
    | some inv =>
      have hm : s.matrixStack ≠ [] := by
        intro h0; simp [h0] at h2
      simp [hm]

theorem relativePlacement_stacks (s : Scene) (label : String) (m : Mat4) :
    (relativePlacement s label m).1.scene.parentNodes = s.parentNodes ∧
    (relativePlacement s label m).1.scene.matrixStack = s.matrixStack ∧
    (relativePlacement s label m).1.scene.parentStackId = s.parentStackId ∧
    (relativePlacement s label m).1.scene.written = s.written ∧
    (relativePlacement s label m).1.scene.scene_opened = s.scene_opened := by
  unfold relativePlacement
  cases h : s.parentNodes.getLast? with
  | none => simp
  | some n =>
    cases h2 : s.matrixStack.getLast? with
    | none => simp
    | some inv => simp

theorem relativePlacement_matrix (s : Scene) (label : String) (m : Mat4) :
    (relativePlacement s label m).2 =
      match s.parentNodes.getLast?, s.matrixStack.getLast? with
      | some _, some inv => multiply m inv
      | _, _ => m := by
  unfold relativePlacement
  cases h : s.parentNodes.getLast? with
  | none => simp
  | some n =>
    cases h2 : s.matrixStack.getLast? with
    | none => simp
    | some inv => simp

theorem addParent_status (s : Scene) (p : Element) :
    (addParent s p).status =
      if s.parentNodes = [] ∨ s.matrixStack ≠ [] then Status.ok
      else Status.fault Fault.emptyMatrixStack := by
  have h := relativePlacement_status (openScene s)
    ("PARENT         : " ++ p.name ++ "_" ++ p.type) (expand p.matrix)
  simp only [openScene_parentNodes, openScene_matrixStack] at h
  unfold addParent
  by_cases hc : s.parentNodes = [] ∨ s.matrixStack ≠ []
  · rw [if_pos hc] at h
    rw [if_pos hc]
    simp only [Outcome.andThen_of_ok h]
  · rw [if_neg hc] at h
    rw [if_neg hc]
    have hne : (relativePlacement (openScene s)
      ("PARENT         : " ++ p.name ++ "_" ++ p.type) (expand p.matrix)).1.status ≠ Status.ok := by
      rw [h]; simp
    simp only [Outcome.andThen_of_ne_ok hne, h]

theorem addParent_of_ok (s : Scene) (p : Element) (h : (addParent s p).status = Status.ok) :
    (addParent s p).scene.parentStackId = s.parentStackId ++ [p.id] ∧
    (addParent s p).scene.parentNodes = s.parentNodes ++ [parentNode p (placement s p)] ∧
    (addParent s p).scene.matrixStack =
      (if det (expand p.matrix) ≠ 0 then s.matrixStack ++ [inverse (expand p.matrix)]
       else s.matrixStack) ∧
    (addParent s p).scene.written =
      (openScene s).written ++ [Event.nodeStart (parentNode p (placement s p))] := by
  have hst := addParent_status s p
  rw [h] at hst
  have hc : s.parentNodes = [] ∨ s.matrixStack ≠ [] := by
    by_contra hc
    rw [if_neg hc] at hst
    cases hst
  have h1 := relativePlacement_status (openScene s)
    ("PARENT         : " ++ p.name ++ "_" ++ p.type) (expand p.matrix)
  simp only [openScene_parentNodes, openScene_matrixStack, if_pos hc] at h1
  have h2 := relativePlacement_stacks (openScene s)
    ("PARENT         : " ++ p.name ++ "_" ++ p.type) (expand p.matrix)
  simp only [openScene_parentNodes, openScene_matrixStack, openScene_parentStackId] at h2
  obtain ⟨e1, e2, e3, e4, _⟩ := h2
  unfold addParent
  simp only [Outcome.andThen_of_ok h1, pushParent, e1, e2, e3, e4, placement]
  simp

theorem addParent_of_fault (s : Scene) (p : Element) (h : (addParent s p).status ≠ Status.ok) :
    (addParent s p).scene.parentStackId = s.parentStackId ∧
    (addParent s p).scene.parentNodes = s.parentNodes ∧
    (addParent s p).scene.matrixStack = s.matrixStack ∧
    (addParent s p).scene.written = (openScene s).written := by
  have hst := addParent_status s p
  have hc : ¬ (s.parentNodes = [] ∨ s.matrixStack ≠ []) := by
    intro hc
    rw [if_pos hc] at hst
    exact h hst
  have h1 := relativePlacement_status (openScene s)
    ("PARENT         : " ++ p.name ++ "_" ++ p.type) (expand p.matrix)
  simp only [openScene_parentNodes, openScene_matrixStack, if_neg hc] at h1
  have hne : (relativePlacement (openScene s)
      ("PARENT         : " ++ p.name ++ "_" ++ p.type) (expand p.matrix)).1.status ≠ Status.ok := by
    rw [h1]; simp
  have h2 := relativePlacement_stacks (openScene s)
    ("PARENT         : " ++ p.name ++ "_" ++ p.type) (expand p.matrix)
  simp only [openScene_parentNodes, openScene_matrixStack, openScene_parentStackId] at h2
  obtain ⟨e1, e2, e3, e4, _⟩ := h2
  unfold addParent
  simp only [Outcome.andThen_of_ne_ok hne, e1, e2, e3, e4]
  simp

theorem addParent_status_ne_outOfFuel (s : Scene) (p : Element) :
    (addParent s p).status ≠ Status.outOfFuel := by
  rw [addParent_status]; split <;> simp

theorem addParent_status_ne_outOfRange (s : Scene) (p : Element) :
    (addParent s p).status ≠ Status.fault Fault.outOfRange := by
  rw [addParent_status]; split <;> simp

theorem addParent_closes (s : Scene) (p : Element) : closes (addParent s p).scene = closes s := by
  by_cases h : (addParent s p).status = Status.ok
  · have hw := (addParent_of_ok s p h).2.2.2
    have := openScene_closes s
    simp only [closes] at this ⊢
    simp [hw, List.countP_append, this]
  · have hw := (addParent_of_fault s p h).2.2.2
    have := openScene_closes s
    simp only [closes] at this ⊢
    simp [hw, this]

theorem addParent_opens (s : Scene) (p : Element) :
    opens (addParent s p).scene =
      if (addParent s p).status = Status.ok then opens s + 1 else opens s := by
  by_cases h : (addParent s p).status = Status.ok
  · have hw := (addParent_of_ok s p h).2.2.2
    have := openScene_opens s
    simp only [opens] at this ⊢
    simp [hw, List.countP_append, this, h]
  · have hw := (addParent_of_fault s p h).2.2.2
    have := openScene_opens s
    simp only [opens] at this ⊢
    simp [hw, this, h]

/-! ### The loops as lists of calls -/

theorem closeWhileAbove_eq (parentsNumber : Nat) :
    ∀ (c fuel : Nat) (s : Scene), s.parentStackId.length = parentsNumber + c → c ≤ fuel →
      closeWhileAbove parentsNumber fuel s = runOps (List.replicate c Op.closeParent) s := by
  intro c
  induction c with
  | zero =>
    intro fuel s hlen _
    cases fuel with
    | zero => simp [closeWhileAbove, runOps, hlen]
    | succ f => simp [closeWhileAbove, runOps, hlen]
  | succ c ih =>
    intro fuel s hlen hfuel
    cases fuel with
    | zero => omega
    | succ f =>
      have hgt : s.parentStackId.length > parentsNumber := by omega
      simp only [closeWhileAbove, if_pos hgt, List.replicate_succ, runOps]
      apply Outcome.andThen_congr
      intro hok
      apply ih
      · rw [closeParent_parentStackId, if_pos hok, List.length_dropLast]; omega
      · omega

theorem closeWhileAbove_of_le (parentsNumber fuel : Nat) (s : Scene)
    (h : s.parentStackId.length ≤ parentsNumber) :
    closeWhileAbove parentsNumber fuel s = ⟨Status.ok, s⟩ := by
  cases fuel with
  | zero => simp [closeWhileAbove, Nat.not_lt.mpr h]
  | succ f => simp [closeWhileAbove, Nat.not_lt.mpr h]

theorem addParentsAt_eq (P : List Element) :
    ∀ (b a : Nat) (s : Scene), a + b ≤ P.length →
      addParentsAt P (List.range' a b) s = runOps (((P.drop a).take b).map Op.addParent) s := by
  intro b
  induction b with
  | zero => intro a s _; simp [addParentsAt, runOps]
  | succ b ih =>
    intro a s hab
    have ha : a < P.length := by omega
    have hd : P.drop a = P[a] :: P.drop (a + 1) := List.drop_eq_getElem_cons ha
    simp only [List.range'_succ, addParentsAt, List.getElem?_eq_getElem ha, hd,
      List.take_succ_cons, List.map_cons, runOps]
    apply Outcome.andThen_congr
    intro _
    exact ih (a + 1) _ (by omega)

theorem runOps_addParent_parentStackId (L : List Element) :
    ∀ s : Scene, (runOps (L.map Op.addParent) s).status = Status.ok →
      (runOps (L.map Op.addParent) s).scene.parentStackId =
        s.parentStackId ++ L.map Element.id := by
  induction L with
  | nil => intro s _; simp [runOps]
  | cons p L ih =>
    intro s h
    simp only [List.map_cons, runOps] at h ⊢
    by_cases hp : (addParent s p).status = Status.ok
    · rw [Outcome.andThen_of_ok hp] at h ⊢
      rw [ih _ h, (addParent_of_ok s p hp).1]
      simp
    · rw [Outcome.andThen_of_ne_ok hp] at h
      exact absurd h hp

theorem reconcile_succ_of_le (P : List Element) (s : Scene) (f : Nat) (t : Int) (p : Element)
    (hle : s.parentStackId.length ≤ P.length) (ht : s.parentStackId.getLast? = some t)
    (hp : P[s.parentStackId.length - 1]? = some p) :
    reconcile P (f + 1) s =
      if t ≠ p.id then (closeParent s).andThen (reconcile P f)
      else (addParentsAt P (List.range' s.parentStackId.length
              (P.length - s.parentStackId.length)) s).andThen fun s1 =>
            if P.length - s.parentStackId.length = 0 then ⟨Status.ok, s1⟩ else reconcile P f s1 := by
  have e1 : P.length - (P.length - s.parentStackId.length) = s.parentStackId.length := by omega
  simp only [reconcile, if_pos hle, ht, e1, hp]

theorem reconcile_succ_of_empty (P : List Element) (s : Scene) (f : Nat)
    (h : s.parentStackId = []) :
    reconcile P (f + 1) s =
      match P[0]? with
      | none => ⟨Status.fault Fault.outOfRange, s⟩
      | some p => (addParent s p).andThen (reconcile P f) := by
  simp [reconcile, h]

theorem reconcile_succ_of_gt (P : List Element) (s : Scene) (f : Nat)
    (h : P.length < s.parentStackId.length) :
    reconcile P (f + 1) s = (closeWhileAbove P.length f s).andThen (reconcile P f) := by
  simp [reconcile, Nat.not_le.mpr h]

/-- When the stack has the length of the parent list and the right id on top, the
loop leaves at once. -/
theorem reconcile_done (P : List Element) (s : Scene) (f : Nat) (p : Element)
    (hlen : s.parentStackId.length = P.length)
    (ht : s.parentStackId.getLast? = some p.id)
    (hp : P[s.parentStackId.length - 1]? = some p) :
    reconcile P (f + 1) s = ⟨Status.ok, s⟩ := by
  rw [reconcile_succ_of_le P s f p.id p (by omega) ht hp]
  simp [hlen, addParentsAt]

theorem Outcome.andThen_eq_self (o : Outcome) (g : Scene → Outcome)
    (h : o.status = Status.ok → g o.scene = ⟨Status.ok, o.scene⟩) : o.andThen g = o := by
  rw [Outcome.andThen_congr o g (fun s => ⟨Status.ok, s⟩) h, Outcome.andThen_return]

/-- When the top of the stack is the parent at its depth, the loop opens the
parents that are missing and leaves. -/
theorem reconcile_match (P : List Element) (s : Scene) (f : Nat) (p : Element)
    (hle : s.parentStackId.length ≤ P.length)
    (ht : s.parentStackId.getLast? = some p.id)
    (hp : P[s.parentStackId.length - 1]? = some p) :
    reconcile P (f + 2) s = runOps ((P.drop s.parentStackId.length).map Op.addParent) s := by
  rw [reconcile_succ_of_le P s (f + 1) p.id p hle ht hp]
  simp only [ne_eq, not_true_eq_false, if_false]
  rw [addParentsAt_eq P _ _ s (by omega)]
  have htake : (P.drop s.parentStackId.length).take (P.length - s.parentStackId.length) =
      P.drop s.parentStackId.length := by
    apply List.take_of_length_le
    simp
  rw [htake]
  apply Outcome.andThen_eq_self
  intro hok
  by_cases hd : P.length - s.parentStackId.length = 0
  · simp [hd]
  · rw [if_neg hd]
    have hids := runOps_addParent_parentStackId _ s hok
    have hne : P.drop s.parentStackId.length ≠ [] := by
      intro h0
      have := congrArg List.length h0
      simp at this
      omega
    have hlen : (runOps ((P.drop s.parentStackId.length).map Op.addParent) s).scene.parentStackId.length
        = P.length := by
      rw [hids]; simp; omega
    have hPne : P ≠ [] := by
      intro h0; simp [h0] at hd
    apply reconcile_done P _ f (P.getLast hPne) hlen
    · rw [hids, List.getLast?_append, List.getLast?_map, List.getLast?_drop]
      simp [Nat.not_le.mpr (Nat.pos_of_ne_zero hd |> Nat.lt_of_sub_pos), List.getLast?_eq_getLast _ hPne]
    · rw [hlen, List.getLast_eq_getElem, List.getElem?_eq_getElem]

theorem matchDepth_le (S P : List Int) (d : Nat) : matchDepth S P d ≤ d := by
  induction d with
  | zero => simp [matchDepth]
  | succ d ih =>
    simp only [matchDepth]
    split
    · exact Nat.le_refl _
    · exact Nat.le_succ_of_le ih

theorem matchDepth_congr (S S' P : List Int) (d : Nat) (h : ∀ i, i < d → S[i]? = S'[i]?) :
    matchDepth S P d = matchDepth S' P d := by
  induction d with
  | zero => simp [matchDepth]
  | succ d ih =>
    simp only [matchDepth]
    rw [h d (Nat.lt_succ_self d), ih fun i hi => h i (Nat.lt_succ_of_lt hi)]

theorem runOps_closeParent_parentStackId :
    ∀ (c : Nat) (s : Scene), (runOps (List.replicate c Op.closeParent) s).status = Status.ok →
      c ≤ s.parentStackId.length ∧
      (runOps (List.replicate c Op.closeParent) s).scene.parentStackId =
        s.parentStackId.take (s.parentStackId.length - c) := by
  intro c
  induction c with
  | zero => intro s _; simp [runOps]
  | succ c ih =>
    intro s h
    simp only [List.replicate_succ, runOps] at h ⊢
    by_cases hp : (closeParent s).status = Status.ok
    · rw [Outcome.andThen_of_ok hp] at h ⊢
      obtain ⟨hc, hids⟩ := ih _ h
      have hne := ((closeParent_status_ok_iff s).mp hp).2.2
      have hpos : 0 < s.parentStackId.length := List.length_pos.mpr hne
      rw [closeParent_parentStackId, if_pos hp] at hc hids
      rw [List.length_dropLast] at hc hids
      refine ⟨by omega, ?_⟩
      rw [hids, List.dropLast_eq_take, List.take_take]
      congr 1
      omega
    · rw [Outcome.andThen_of_ne_ok hp] at h
      exact absurd h hp

/-- With at least one parent to reach and a stack no longer than the parent list,
the loop makes the calls of the plan. -/
theorem reconcile_eq_of_le (P : List Element) (hP : P ≠ []) :
    ∀ (l : Nat) (s : Scene) (fuel : Nat), s.parentStackId.length = l → l ≤ P.length →
      l + 3 ≤ fuel →
      reconcile P fuel s =
        runOps (List.replicate (l - matchDepth s.parentStackId (P.map Element.id) l) Op.closeParent
          ++ (P.drop (matchDepth s.parentStackId (P.map Element.id) l)).map Op.addParent) s := by
  intro l
  induction l with
  | zero =>
    intro s fuel hlen _ hfuel
    obtain ⟨f, rfl⟩ : ∃ f, fuel = f + 3 := ⟨fuel - 3, by omega⟩
    have hnil : s.parentStackId = [] := List.length_eq_zero.mp hlen
    obtain ⟨p, P', rfl⟩ := List.exists_cons_of_ne_nil hP
    rw [reconcile_succ_of_empty _ s (f + 2) hnil]
    simp only [List.getElem?_cons_zero, matchDepth, Nat.sub_self, List.replicate_zero,
      List.nil_append, List.drop_zero, List.map_cons, runOps]
    apply Outcome.andThen_congr
    intro hok
    have hids := (addParent_of_ok s p hok).1
    rw [hnil, List.nil_append] at hids
    have := reconcile_match (p :: P') (addParent s p).scene f p (by simp [hids]) (by simp [hids])
      (by simp [hids])
    rw [this, hids]
    simp
  | succ l ih =>
    intro s fuel hlen hle hfuel
    obtain ⟨f, rfl⟩ : ∃ f, fuel = f + 2 := ⟨fuel - 2, by omega⟩
    have hne : s.parentStackId ≠ [] := by
      intro h0; simp [h0] at hlen
    have hlt : l < P.length := by omega
    have ht : s.parentStackId.getLast? = some (s.parentStackId.getLast hne) :=
      List.getLast?_eq_getLast _ hne
    have hp : P[s.parentStackId.length - 1]? = some P[l] := by
      rw [hlen]; simp [List.getElem?_eq_getElem hlt]
    have hSl : s.parentStackId[l]? = some (s.parentStackId.getLast hne) := by
      rw [List.getLast_eq_getElem, List.getElem?_eq_getElem (by omega)]
      simp [hlen]
    have hPl : (P.map Element.id)[l]? = some P[l].id := by
      simp [List.getElem?_eq_getElem hlt]
    by_cases hm : s.parentStackId.getLast hne = P[l].id
    · have hmd : matchDepth s.parentStackId (P.map Element.id) (l + 1) = l + 1 := by
        simp [matchDepth, hSl, hPl, hm]
      rw [hmd, reconcile_match P s f P[l] (by omega) (by rw [ht, hm]) hp, hlen]
      simp
    · have hmd : matchDepth s.parentStackId (P.map Element.id) (l + 1) =
          matchDepth s.parentStackId (P.map Element.id) l := by
        simp [matchDepth, hSl, hPl, hm]
      have hj := matchDepth_le s.parentStackId (P.map Element.id) l
      rw [hmd, reconcile_succ_of_le P s (f + 1) _ _ (by omega) ht hp, if_pos hm]
      have hrep : l + 1 - matchDepth s.parentStackId (P.map Element.id) l =
          (l - matchDepth s.parentStackId (P.map Element.id) l) + 1 := by omega
      rw [hrep, List.replicate_succ, List.cons_append, runOps]
      apply Outcome.andThen_congr
      intro hok
      have hids : (closeParent s).scene.parentStackId = s.parentStackId.dropLast := by
        rw [closeParent_parentStackId, if_pos hok]
      have hlen1 : (closeParent s).scene.parentStackId.length = l := by
        rw [hids, List.length_dropLast]; omega
      rw [ih _ (f + 1) hlen1 (by omega) (by omega)]
      have hcongr : matchDepth (closeParent s).scene.parentStackId (P.map Element.id) l =
          matchDepth s.parentStackId (P.map Element.id) l := by
        apply matchDepth_congr
        intro i hi
        rw [hids, List.dropLast_eq_take, List.getElem?_take_of_lt (by omega)]
      rw [hcongr]

/-- The loop of `endDocument` makes exactly the calls of the plan, in every state
and for every non-empty parent list, faults included. -/
theorem reconcile_eq_runOps (P : List Element) (hP : P ≠ []) (s : Scene) (fuel : Nat)
    (hfuel : s.parentStackId.length + 3 ≤ fuel) :
    reconcile P fuel s = runOps (plan s.parentStackId P) s := by
  by_cases hle : s.parentStackId.length ≤ P.length
  · rw [reconcile_eq_of_le P hP _ s fuel rfl hle hfuel]
    simp [plan, Nat.min_eq_left hle]
  · have hgt : P.length < s.parentStackId.length := Nat.not_le.mp hle
    obtain ⟨f, rfl⟩ : ∃ f, fuel = f + 1 := ⟨fuel - 1, by omega⟩
    have hj := matchDepth_le s.parentStackId (P.map Element.id) P.length
    rw [reconcile_succ_of_gt P s f hgt,
      closeWhileAbove_eq P.length (s.parentStackId.length - P.length) f s (by omega) (by omega)]
    have hsplit : s.parentStackId.length - matchDepth s.parentStackId (P.map Element.id) P.length
        = (s.parentStackId.length - P.length) +
          (P.length - matchDepth s.parentStackId (P.map Element.id) P.length) := by omega
    simp only [plan, Nat.min_eq_right (Nat.le_of_lt hgt), List.length_map]
    rw [hsplit, List.replicate_add, List.append_assoc, runOps_append]
    apply Outcome.andThen_congr
    intro hok
    obtain ⟨_, hids⟩ := runOps_closeParent_parentStackId _ s hok
    have e : s.parentStackId.length - (s.parentStackId.length - P.length) = P.length := by omega
    rw [e] at hids
    have hlen1 : (runOps (List.replicate (s.parentStackId.length - P.length) Op.closeParent)
        s).scene.parentStackId.length = P.length := by
      rw [hids, List.length_take]; omega
    rw [reconcile_eq_of_le P hP _ _ f hlen1 (Nat.le_refl _) (by omega)]
    have hcongr : matchDepth (runOps (List.replicate (s.parentStackId.length - P.length)
        Op.closeParent) s).scene.parentStackId (P.map Element.id) P.length =
          matchDepth s.parentStackId (P.map Element.id) P.length := by
      apply matchDepth_congr
      intro i hi
      rw [hids, List.getElem?_take_of_lt hi]
    rw [hcongr]

/-- With no parent to reach, the loop closes every open parent and then evaluates
`parents.at(0)`, which throws. -/
theorem reconcile_nil (s : Scene) (fuel : Nat) (hfuel : s.parentStackId.length + 2 ≤ fuel) :
    reconcile [] fuel s =
      (runOps (List.replicate s.parentStackId.length Op.closeParent) s).andThen fun s1 =>
        ⟨Status.fault Fault.outOfRange, s1⟩ := by
  obtain ⟨f, rfl⟩ : ∃ f, fuel = f + 2 := ⟨fuel - 2, by omega⟩
  by_cases h0 : s.parentStackId = []
  · rw [reconcile_succ_of_empty [] s (f + 1) h0]
    simp [h0, runOps]
  · have hpos : 0 < s.parentStackId.length := List.length_pos.mpr h0
    rw [reconcile_succ_of_gt [] s (f + 1) hpos, List.length_nil,
      closeWhileAbove_eq 0 s.parentStackId.length (f + 1) s (by simp) (by omega)]
    apply Outcome.andThen_congr
    intro hok
    obtain ⟨_, hids⟩ := runOps_closeParent_parentStackId _ s hok
    rw [Nat.sub_self, List.take_zero] at hids
    rw [reconcile_succ_of_empty [] _ f hids]
    simp

/-! ### Match depth and common prefixes -/

theorem take_succ_eq_of_getElem? (S P : List Int) (i : Nat)
    (ht : S.take i = P.take i) (he : S[i]? = P[i]?) : S.take (i + 1) = P.take (i + 1) := by
  rw [List.take_succ, List.take_succ, ht, he]

theorem getElem?_eq_of_take_succ_eq (S P : List Int) (i : Nat)
    (ht : S.take (i + 1) = P.take (i + 1)) : S[i]? = P[i]? := by
  have h1 : (S.take (i + 1))[i]? = S[i]? := List.getElem?_take_of_lt (Nat.lt_succ_self i)
  have h2 : (P.take (i + 1))[i]? = P[i]? := List.getElem?_take_of_lt (Nat.lt_succ_self i)
  rw [← h1, ← h2, ht]

theorem le_matchDepth_of_take_eq (S P : List Int) (k : Nat) (ht : S.take k = P.take k) :
    ∀ d, k ≤ d → k ≤ matchDepth S P d := by
  intro d
  induction d with
  | zero => intro h; simpa [matchDepth] using h
  | succ d ih =>
    intro hk
    simp only [matchDepth]
    split
    · exact hk
    · rename_i hne
      apply ih
      rcases Nat.lt_or_ge k (d + 1) with h | h
      · omega
      · have : k = d + 1 := by omega
        subst this
        exact absurd (getElem?_eq_of_take_succ_eq S P d ht) hne

theorem matchDepth_spec (S P : List Int) (d : Nat) :
    matchDepth S P d = 0 ∨
      S[matchDepth S P d - 1]? = P[matchDepth S P d - 1]? := by
  induction d with
  | zero => left; simp [matchDepth]
  | succ d ih =>
    simp only [matchDepth]
    split
    · right; simpa using ‹S[d]? = P[d]?›
    · exact ih

theorem take_matchDepth_of_treePaths (S P : List Int) (h : TreePaths S P) (d : Nat)
    (hd : d ≤ min S.length P.length) :
    S.take (matchDepth S P d) = P.take (matchDepth S P d) := by
  have hle := matchDepth_le S P d
  rcases matchDepth_spec S P d with h0 | he
  · rw [h0]; simp
  · rcases Nat.eq_zero_or_pos (matchDepth S P d) with h0 | hpos
    · rw [h0]; simp
    · have hi : matchDepth S P d - 1 < min S.length P.length := by omega
      have := take_succ_eq_of_getElem? S P _ (h _ hi he) he
      rwa [Nat.sub_add_cancel hpos] at this

theorem commonPrefixLen_le (S P : List Int) : commonPrefixLen S P ≤ min S.length P.length := by
  induction S generalizing P with
  | nil => simp [commonPrefixLen]
  | cons a S ih =>
    cases P with
    | nil => simp [commonPrefixLen]
    | cons b P =>
      simp only [commonPrefixLen, List.length_cons]
      split
      · have := ih P; omega
      · omega

theorem take_commonPrefixLen (S P : List Int) :
    S.take (commonPrefixLen S P) = P.take (commonPrefixLen S P) := by
  induction S generalizing P with
  | nil => simp [commonPrefixLen]
  | cons a S ih =>
    cases P with
    | nil => simp [commonPrefixLen]
    | cons b P =>
      simp only [commonPrefixLen]
      split
      · rename_i hab
        simp [hab, ih P]
      · simp

theorem le_commonPrefixLen_of_take_eq (S P : List Int) (k : Nat)
    (hk : k ≤ min S.length P.length) (ht : S.take k = P.take k) : k ≤ commonPrefixLen S P := by
  induction S generalizing P k with
  | nil =>
    have : k = 0 := by simpa using hk
    omega
  | cons a S ih =>
    cases P with
    | nil =>
      have : k = 0 := by simpa using hk
      omega
    | cons b P =>
      cases k with
      | zero => exact Nat.zero_le _
      | succ k =>
        simp only [List.take_succ_cons, List.cons.injEq] at ht
        simp only [List.length_cons] at hk
        simp only [commonPrefixLen, ht.1, if_true]
        have := ih P k (by omega) ht.2
        omega

theorem commonPrefixLen_le_matchDepth (S P : List Int) :
    commonPrefixLen S P ≤ matchDepth S P (min S.length P.length) :=
  le_matchDepth_of_take_eq S P _ (take_commonPrefixLen S P) _ (commonPrefixLen_le S P)

theorem matchDepth_eq_commonPrefixLen (S P : List Int) (h : TreePaths S P) :
    matchDepth S P (min S.length P.length) = commonPrefixLen S P := by
  apply Nat.le_antisymm
  · exact le_commonPrefixLen_of_take_eq S P _ (matchDepth_le S P _)
      (take_matchDepth_of_treePaths S P h _ (Nat.le_refl _))
  · exact commonPrefixLen_le_matchDepth S P

/-! ### What a plan does in an arbitrary state -/

theorem take_dropLast_of_lt {α : Type} (l : List α) (k : Nat) (h : k < l.length) :
    l.dropLast.take k = l.take k := by
  rw [List.dropLast_eq_take, List.take_take]
  congr 1
  omega

theorem closeParent_take_parentStackId (s : Scene) (k : Nat)
    (h : k + 1 ≤ s.parentStackId.length) :
    (closeParent s).scene.parentStackId.take k = s.parentStackId.take k := by
  rw [closeParent_parentStackId]
  split
  · exact take_dropLast_of_lt _ _ (by omega)
  · rfl

theorem closeParent_length_parentStackId (s : Scene) :
    s.parentStackId.length ≤ (closeParent s).scene.parentStackId.length + 1 := by
  rw [closeParent_parentStackId]
  split
  · rw [List.length_dropLast]; omega
  · omega

theorem runOps_closeParent_general (c : Nat) :
    ∀ s : Scene,
      (runOps (List.replicate c Op.closeParent) s).status ≠ Status.outOfFuel ∧
      (runOps (List.replicate c Op.closeParent) s).status ≠ Status.fault Fault.outOfRange ∧
      opens (runOps (List.replicate c Op.closeParent) s).scene = opens s ∧
      closes (runOps (List.replicate c Op.closeParent) s).scene ≤ closes s + c ∧
      ((runOps (List.replicate c Op.closeParent) s).status = Status.ok →
        closes (runOps (List.replicate c Op.closeParent) s).scene = closes s + c) ∧
      s.parentStackId.length ≤
        (runOps (List.replicate c Op.closeParent) s).scene.parentStackId.length + c ∧
      s.parentNodes.length ≤
        (runOps (List.replicate c Op.closeParent) s).scene.parentNodes.length + c ∧
      (∀ k, k + c ≤ s.parentStackId.length →
        (runOps (List.replicate c Op.closeParent) s).scene.parentStackId.take k =
          s.parentStackId.take k) ∧
      (∀ k, k + c ≤ s.parentNodes.length →
        (runOps (List.replicate c Op.closeParent) s).scene.parentNodes.take k =
          s.parentNodes.take k) := by
  induction c with
  | zero => intro s; simp [runOps]
  | succ c ih =>
    intro s
    simp only [List.replicate_succ, runOps]
    by_cases hp : (closeParent s).status = Status.ok
    · rw [Outcome.andThen_of_ok hp]
      obtain ⟨h1, h2, h3, h4, h5, h6, h7, h8, h9⟩ := ih (closeParent s).scene
      have hc := closeParent_closes_of_ok s hp
      have ho := closeParent_opens s
      have hl := closeParent_length_parentStackId s
      have hn := closeParent_parentNodes s
      refine ⟨h1, h2, by omega, by omega, fun h => by rw [h5 h]; omega, by omega, ?_, ?_, ?_⟩
      · rw [hn, List.length_dropLast] at h7; omega
      · intro k hk
        rw [h8 k (by omega), closeParent_take_parentStackId s k (by omega)]
      · intro k hk
        rw [h9 k (by rw [hn, List.length_dropLast]; omega), hn,
          take_dropLast_of_lt _ _ (by omega)]
    · rw [Outcome.andThen_of_ne_ok hp]
      have hc := closeParent_closes_le s
      have hl := closeParent_length_parentStackId s
      have hn := closeParent_parentNodes s
      refine ⟨closeParent_status_ne_outOfFuel s, closeParent_status_ne_outOfRange s,
        closeParent_opens s, by omega, fun h => absurd h hp, by omega, ?_, ?_, ?_⟩
      · rw [hn, List.length_dropLast]; omega
      · intro k hk
        exact closeParent_take_parentStackId s k (by omega)
      · intro k hk
        rw [hn, take_dropLast_of_lt _ _ (by omega)]

theorem addParent_take (s : Scene) (p : Element) (k : Nat) :
    (k ≤ s.parentStackId.length →
      (addParent s p).scene.parentStackId.take k = s.parentStackId.take k) ∧
    (k ≤ s.parentNodes.length →
      (addParent s p).scene.parentNodes.take k = s.parentNodes.take k) ∧
    s.parentStackId.length ≤ (addParent s p).scene.parentStackId.length ∧
    s.parentNodes.length ≤ (addParent s p).scene.parentNodes.length := by
  by_cases h : (addParent s p).status = Status.ok
  · obtain ⟨e1, e2, _, _⟩ := addParent_of_ok s p h
    rw [e1, e2]
    refine ⟨fun hk => List.take_append_of_le_length hk,
      fun hk => List.take_append_of_le_length hk, by simp, by simp⟩
  · obtain ⟨e1, e2, _, _⟩ := addParent_of_fault s p h
    rw [e1, e2]
    simp

theorem runOps_addParent_general (L : List Element) :
    ∀ s : Scene,
      (runOps (L.map Op.addParent) s).status ≠ Status.outOfFuel ∧
      (runOps (L.map Op.addParent) s).status ≠ Status.fault Fault.outOfRange ∧
      closes (runOps (L.map Op.addParent) s).scene = closes s ∧
      opens (runOps (L.map Op.addParent) s).scene ≤ opens s + L.length ∧
      ((runOps (L.map Op.addParent) s).status = Status.ok →
        opens (runOps (L.map Op.addParent) s).scene = opens s + L.length) ∧
      (∀ k, k ≤ s.parentStackId.length →
        (runOps (L.map Op.addParent) s).scene.parentStackId.take k = s.parentStackId.take k) ∧
      (∀ k, k ≤ s.parentNodes.length →
        (runOps (L.map Op.addParent) s).scene.parentNodes.take k = s.parentNodes.take k) := by
  induction L with
  | nil => intro s; simp [runOps]
  | cons p L ih =>
    intro s
    simp only [List.map_cons, runOps, List.length_cons]
    obtain ⟨t1, t2, t3, t4⟩ := addParent_take s p 0
    by_cases hp : (addParent s p).status = Status.ok
    · rw [Outcome.andThen_of_ok hp]
      obtain ⟨h1, h2, h3, h4, h5, h6, h7⟩ := ih (addParent s p).scene
      have hc := addParent_closes s p
      have ho := addParent_opens s p
      rw [if_pos hp] at ho
      refine ⟨h1, h2, by omega, by omega, fun h => by rw [h5 h]; omega, ?_, ?_⟩
      · intro k hk
        rw [h6 k (by omega), (addParent_take s p k).1 hk]
      · intro k hk
        rw [h7 k (by omega), (addParent_take s p k).2.1 hk]
    · rw [Outcome.andThen_of_ne_ok hp]
      have ho := addParent_opens s p
      rw [if_neg hp] at ho
      refine ⟨addParent_status_ne_outOfFuel s p, addParent_status_ne_outOfRange s p,
        addParent_closes s p, by omega, fun h => absurd h hp, ?_, ?_⟩
      · intro k hk
        exact (addParent_take s p k).1 hk
      · intro k hk
        exact (addParent_take s p k).2.1 hk

/-- What holds of `c` calls of `closeParent` followed by the opening of the parents
`L`, in every state: the run ends, it writes at most `c` node ends and `L.length`
node starts (exactly so when it returns), and it leaves alone every stack entry
that lies more than `c` below the top. -/
theorem runOps_general (c : Nat) (L : List Element) (s : Scene) :
    (runOps (List.replicate c Op.closeParent ++ L.map Op.addParent) s).status
      ≠ Status.outOfFuel ∧
    (runOps (List.replicate c Op.closeParent ++ L.map Op.addParent) s).status
      ≠ Status.fault Fault.outOfRange ∧
    closes (runOps (List.replicate c Op.closeParent ++ L.map Op.addParent) s).scene
      ≤ closes s + c ∧
    opens (runOps (List.replicate c Op.closeParent ++ L.map Op.addParent) s).scene
      ≤ opens s + L.length ∧
    ((runOps (List.replicate c Op.closeParent ++ L.map Op.addParent) s).status = Status.ok →
      closes (runOps (List.replicate c Op.closeParent ++ L.map Op.addParent) s).scene
        = closes s + c ∧
      opens (runOps (List.replicate c Op.closeParent ++ L.map Op.addParent) s).scene
        = opens s + L.length ∧
      c ≤ s.parentStackId.length ∧
      (runOps (List.replicate c Op.closeParent ++ L.map Op.addParent) s).scene.parentStackId
        = s.parentStackId.take (s.parentStackId.length - c) ++ L.map Element.id) ∧
    (∀ k, k + c ≤ s.parentStackId.length →
      (runOps (List.replicate c Op.closeParent ++ L.map Op.addParent) s).scene.parentStackId.take k
        = s.parentStackId.take k) ∧
    (∀ k, k + c ≤ s.parentNodes.length →
      (runOps (List.replicate c Op.closeParent ++ L.map Op.addParent) s).scene.parentNodes.take k
        = s.parentNodes.take k) := by
  rw [runOps_append]
  obtain ⟨h1, h2, h3, h4, h5, h6, h7, h8, h9⟩ := runOps_closeParent_general c s
  by_cases hok : (runOps (List.replicate c Op.closeParent) s).status = Status.ok
  · rw [Outcome.andThen_of_ok hok]
    obtain ⟨g1, g2, g3, g4, g5, g6, g7⟩ :=
      runOps_addParent_general L (runOps (List.replicate c Op.closeParent) s).scene
    obtain ⟨hc, hids⟩ := runOps_closeParent_parentStackId c s hok
    refine ⟨g1, g2, by omega, by omega, ?_, ?_, ?_⟩
    · intro h
      refine ⟨by rw [g3, h5 hok], by rw [g5 h]; omega, hc, ?_⟩
      rw [runOps_addParent_parentStackId L _ h, hids]
    · intro k hk
      rw [g6 k (by omega), h8 k hk]
    · intro k hk
      rw [g7 k (by omega), h9 k hk]
  · rw [Outcome.andThen_of_ne_ok hok]
    exact ⟨h1, h2, h4, by omega, fun h => absurd h hok, h8, h9⟩

/-! ### Plans in states with parallel stacks -/

theorem closeParent_of_aligned (s : Scene) (h : s.Aligned) (hne : s.parentStackId ≠ []) :
    (closeParent s).status = Status.ok ∧ (closeParent s).scene.Aligned := by
  have hpos : 0 < s.parentStackId.length := List.length_pos.mpr hne
  have hok : (closeParent s).status = Status.ok := by
    rw [closeParent_status_ok_iff]
    refine ⟨?_, ?_, hne⟩
    · apply List.ne_nil_of_length_pos; rw [h.1]; exact hpos
    · apply List.ne_nil_of_length_pos; rw [h.2]; exact hpos
  refine ⟨hok, ?_, ?_⟩
  · rw [closeParent_parentNodes, closeParent_parentStackId, if_pos hok, List.length_dropLast,
      List.length_dropLast, h.1]
  · rw [closeParent_matrixStack_of_ok s hok, closeParent_parentStackId, if_pos hok,
      List.length_dropLast, List.length_dropLast, h.2]

theorem runOps_closeParent_aligned (c : Nat) :
    ∀ s : Scene, s.Aligned → c ≤ s.parentStackId.length →
      (runOps (List.replicate c Op.closeParent) s).status = Status.ok ∧
      (runOps (List.replicate c Op.closeParent) s).scene.Aligned := by
  induction c with
  | zero => intro s h _; exact ⟨rfl, h⟩
  | succ c ih =>
    intro s h hc
    have hne : s.parentStackId ≠ [] := by
      apply List.ne_nil_of_length_pos; omega
    obtain ⟨hok, hal⟩ := closeParent_of_aligned s h hne
    simp only [List.replicate_succ, runOps]
    rw [Outcome.andThen_of_ok hok]
    apply ih _ hal
    rw [closeParent_parentStackId, if_pos hok, List.length_dropLast]
    omega

theorem addParent_status_of_aligned (s : Scene) (p : Element) (h : s.Aligned) :
    (addParent s p).status = Status.ok := by
  rw [addParent_status, if_pos]
  by_cases hn : s.parentNodes = []
  · exact Or.inl hn
  · right
    apply List.ne_nil_of_length_pos
    rw [h.2, ← h.1]
    exact List.length_pos.mpr hn

theorem addParent_of_aligned (s : Scene) (p : Element) (h : s.Aligned)
    (hp : det (expand p.matrix) ≠ 0) :
    (addParent s p).status = Status.ok ∧ (addParent s p).scene.Aligned := by
  have hok := addParent_status_of_aligned s p h
  obtain ⟨e1, e2, e3, _⟩ := addParent_of_ok s p hok
  refine ⟨hok, ?_, ?_⟩
  · rw [e1, e2]; simp [h.1]
  · rw [e1, e3, if_pos hp]; simp [h.2]

theorem runOps_addParent_aligned (L : List Element) :
    ∀ s : Scene, s.Aligned → AllInvertible L →
      (runOps (L.map Op.addParent) s).status = Status.ok ∧
      (runOps (L.map Op.addParent) s).scene.Aligned := by
  induction L with
  | nil => intro s h _; exact ⟨rfl, h⟩
  | cons p L ih =>
    intro s h hL
    obtain ⟨hok, hal⟩ := addParent_of_aligned s p h (hL p (List.mem_cons_self _ _))
    simp only [List.map_cons, runOps]
    rw [Outcome.andThen_of_ok hok]
    exact ih _ hal fun q hq => hL q (List.mem_cons_of_mem _ hq)

theorem runOps_aligned (c : Nat) (L : List Element) (s : Scene) (h : s.Aligned)
    (hL : AllInvertible L) (hc : c ≤ s.parentStackId.length) :
    (runOps (List.replicate c Op.closeParent ++ L.map Op.addParent) s).status = Status.ok ∧
    (runOps (List.replicate c Op.closeParent ++ L.map Op.addParent) s).scene.Aligned := by
  obtain ⟨hok, hal⟩ := runOps_closeParent_aligned c s h hc
  rw [runOps_append, Outcome.andThen_of_ok hok]
  exact runOps_addParent_aligned L _ hal hL

theorem allInvertible_drop (P : List Element) (h : AllInvertible P) (j : Nat) :
    AllInvertible (P.drop j) :=
  fun p hp => h p (List.mem_of_mem_drop hp)

/-- In a state with parallel stacks and for parents with invertible matrices, the
loop of `endDocument` returns and leaves the stacks parallel. -/
theorem reconcile_of_aligned (P : List Element) (hP : P ≠ []) (s : Scene) (fuel : Nat)
    (hfuel : s.parentStackId.length + 3 ≤ fuel) (h : s.Aligned) (hI : AllInvertible P) :
    (reconcile P fuel s).status = Status.ok ∧ (reconcile P fuel s).scene.Aligned := by
  rw [reconcile_eq_runOps P hP s fuel hfuel]
  exact runOps_aligned _ _ s h (allInvertible_drop P hI _) (Nat.sub_le _ _)

/-! ### The reconciliation loop: results -/

/-- C1 (counterexample): with the parents 1 and 2 open and an object whose parents
have the ids 3 and 2, the loop returns with the ids 1 and 2 on the stack, which
is not the id sequence of the object's parents: only the top of the stack is
compared. -/
theorem reconcile_top_only_counterexample :
    (reconcile [unitElement 3, unitElement 2] 5 (opened [1, 2])).status = Status.ok ∧
    (reconcile [unitElement 3, unitElement 2] 5 (opened [1, 2])).scene.parentStackId = [1, 2] ∧
    (reconcile [unitElement 3, unitElement 2] 5 (opened [1, 2])).scene.parentStackId
      ≠ [unitElement 3, unitElement 2].map Element.id := by
  decide!

/-- C1 (amended): for a stack `S` and a non-empty parent list `P` that are paths of
one tree, the loop of `endDocument` ends within `S.length + 3` iterations, and when
it returns the ids on the stack are the ids of `P`, outermost first; it does
return when the three stacks are parallel and the matrices of `P` are invertible. -/
theorem reconcile_parentStackId_of_treePaths (s : Scene) (P : List Element) (fuel : Nat)
    (hP : P ≠ []) (htree : TreePaths s.parentStackId (P.map Element.id))
    (hfuel : s.parentStackId.length + 3 ≤ fuel) :
    (reconcile P fuel s).status ≠ Status.outOfFuel ∧
    ((reconcile P fuel s).status = Status.ok →
      (reconcile P fuel s).scene.parentStackId = P.map Element.id) ∧
    (s.Aligned → AllInvertible P → (reconcile P fuel s).status = Status.ok) := by
  refine ⟨?_, ?_, fun h hI => (reconcile_of_aligned P hP s fuel hfuel h hI).1⟩
  · rw [reconcile_eq_runOps P hP s fuel hfuel]
    exact (runOps_general _ _ s).1
  · rw [reconcile_eq_runOps P hP s fuel hfuel]
    intro hok
    obtain ⟨_, _, _, hids⟩ := (runOps_general _ _ s).2.2.2.2.1 hok
    simp only [plan] at hids ⊢
    rw [hids]
    have hj := matchDepth_le s.parentStackId (P.map Element.id)
      (min s.parentStackId.length P.length)
    have hmin : min s.parentStackId.length P.length =
        min s.parentStackId.length (P.map Element.id).length := by simp
    have ht := take_matchDepth_of_treePaths _ _ htree
      (min s.parentStackId.length P.length) (by rw [hmin])
    have e : s.parentStackId.length - (s.parentStackId.length -
        matchDepth s.parentStackId (P.map Element.id) (min s.parentStackId.length P.length)) =
        matchDepth s.parentStackId (P.map Element.id) (min s.parentStackId.length P.length) := by
      have := Nat.min_le_left s.parentStackId.length P.length
      omega
    rw [e, ht, List.map_drop, List.take_append_drop]

/-- C1 (witness): the parents 1, 2, 3 are open and the next object has the parents
1 and 4. -/
theorem reconcile_parentStackId_of_treePaths_witness :
    ([unitElement 1, unitElement 4] ≠ [] ∧
      TreePaths (opened [1, 2, 3]).parentStackId ([unitElement 1, unitElement 4].map Element.id) ∧
      (opened [1, 2, 3]).parentStackId.length + 3 ≤ 6) ∧
    ((reconcile [unitElement 1, unitElement 4] 6 (opened [1, 2, 3])).status ≠ Status.outOfFuel ∧
    ((reconcile [unitElement 1, unitElement 4] 6 (opened [1, 2, 3])).status = Status.ok →
      (reconcile [unitElement 1, unitElement 4] 6 (opened [1, 2, 3])).scene.parentStackId =
        [unitElement 1, unitElement 4].map Element.id) ∧
    ((opened [1, 2, 3]).Aligned → AllInvertible [unitElement 1, unitElement 4] →
      (reconcile [unitElement 1, unitElement 4] 6 (opened [1, 2, 3])).status = Status.ok)) :=
  ⟨⟨by simp, by decide!, by decide!⟩,
    reconcile_parentStackId_of_treePaths (opened [1, 2, 3]) [unitElement 1, unitElement 4] 6
      (by simp) (by decide!) (by decide!)⟩

/-- C9: for every state and every parent list, with no relation assumed between the
ids, the loop of `endDocument` ends within `m + 3` iterations of each of its
loops, where `m` is the length of the id stack, and it has then ended at most `m`
nodes and started at most `n` nodes, where `n` is the number of parents. -/
theorem reconcile_terminates (s : Scene) (P : List Element) (fuel : Nat)
    (hfuel : s.parentStackId.length + 3 ≤ fuel) :
    (reconcile P fuel s).status ≠ Status.outOfFuel ∧
    closes (reconcile P fuel s).scene ≤ closes s + s.parentStackId.length ∧
    opens (reconcile P fuel s).scene ≤ opens s + P.length := by
  by_cases hP : P = []
  · subst hP
    rw [reconcile_nil s fuel (by omega)]
    obtain ⟨h1, _, h3, h4, _⟩ := runOps_closeParent_general s.parentStackId.length s
    by_cases hok : (runOps (List.replicate s.parentStackId.length Op.closeParent) s).status
        = Status.ok
    · rw [Outcome.andThen_of_ok hok]
      exact ⟨by simp, h4, by simp [h3]⟩
    · rw [Outcome.andThen_of_ne_ok hok]
      exact ⟨h1, h4, by simp [h3]⟩
  · rw [reconcile_eq_runOps P hP s fuel hfuel]
    obtain ⟨h1, _, h3, h4, _⟩ := runOps_general
      (s.parentStackId.length - matchDepth s.parentStackId (P.map Element.id)
        (min s.parentStackId.length P.length))
      (P.drop (matchDepth s.parentStackId (P.map Element.id)
        (min s.parentStackId.length P.length))) s
    simp only [plan]
    refine ⟨h1, ?_, ?_⟩
    · have := Nat.sub_le s.parentStackId.length (matchDepth s.parentStackId (P.map Element.id)
        (min s.parentStackId.length P.length))
      omega
    · rw [List.length_drop] at h4
      have := Nat.sub_le P.length (matchDepth s.parentStackId (P.map Element.id)
        (min s.parentStackId.length P.length))
      omega

/-- C9 (witness): the parents 1 and 2 are open and the next object has the parents
3 and 2. -/
theorem reconcile_terminates_witness :
    (opened [1, 2]).parentStackId.length + 3 ≤ 5 ∧
    ((reconcile [unitElement 3, unitElement 2] 5 (opened [1, 2])).status ≠ Status.outOfFuel ∧
    closes (reconcile [unitElement 3, unitElement 2] 5 (opened [1, 2])).scene
      ≤ closes (opened [1, 2]) + (opened [1, 2]).parentStackId.length ∧
    opens (reconcile [unitElement 3, unitElement 2] 5 (opened [1, 2])).scene
      ≤ opens (opened [1, 2]) + [unitElement 3, unitElement 2].length) :=
  ⟨by decide!, reconcile_terminates (opened [1, 2]) [unitElement 3, unitElement 2] 5 (by decide!)⟩

/-- C7 (counterexample): the stack holds the parents 5 and 7 of one object and
the next object has the parents 6 and 7, so `m = n = 2` and the longest common
prefix has length `k = 0`; the loop returns without ending or starting any node,
not after `(m - k) + (n - k) = 4` calls. -/
theorem reconcile_calls_counterexample :
    commonPrefixLen (opened [5, 7]).parentStackId
      ([unitElement 6, unitElement 7].map Element.id) = 0 ∧
    (reconcile [unitElement 6, unitElement 7] 5 (opened [5, 7])).status = Status.ok ∧
    closes (reconcile [unitElement 6, unitElement 7] 5 (opened [5, 7])).scene
      = closes (opened [5, 7]) ∧
    opens (reconcile [unitElement 6, unitElement 7] 5 (opened [5, 7])).scene
      = opens (opened [5, 7]) ∧
    (closes (reconcile [unitElement 6, unitElement 7] 5 (opened [5, 7])).scene
        - closes (opened [5, 7])) +
      (opens (reconcile [unitElement 6, unitElement 7] 5 (opened [5, 7])).scene
        - opens (opened [5, 7]))
      ≠ ((opened [5, 7]).parentStackId.length - 0) + ([unitElement 6, unitElement 7].length - 0) := by
  decide!

/-- C7 (amended): let the stack hold `m` ids, the next object have `n ≥ 1` parents
and `k` be the length of the longest common prefix of the two id sequences. The
loop of `endDocument` never ends more than `m - k` nodes nor starts more than
`n - k`; when the two sequences are paths of one tree and the loop returns, it
has ended exactly `m - k` nodes and started exactly `n - k`; and it returns when
the three stacks are parallel and the parents' matrices are invertible. -/
theorem reconcile_calls (s : Scene) (P : List Element) (fuel : Nat) (hP : P ≠ [])
    (hfuel : s.parentStackId.length + 3 ≤ fuel) :
    closes (reconcile P fuel s).scene ≤ closes s +
      (s.parentStackId.length - commonPrefixLen s.parentStackId (P.map Element.id)) ∧
    opens (reconcile P fuel s).scene ≤ opens s +
      (P.length - commonPrefixLen s.parentStackId (P.map Element.id)) ∧
    (TreePaths s.parentStackId (P.map Element.id) → (reconcile P fuel s).status = Status.ok →
      closes (reconcile P fuel s).scene = closes s +
        (s.parentStackId.length - commonPrefixLen s.parentStackId (P.map Element.id)) ∧
      opens (reconcile P fuel s).scene = opens s +
        (P.length - commonPrefixLen s.parentStackId (P.map Element.id))) ∧
    (s.Aligned → AllInvertible P → (reconcile P fuel s).status = Status.ok) := by
  have hmin : min s.parentStackId.length P.length =
      min s.parentStackId.length (P.map Element.id).length := by simp
  have hk := commonPrefixLen_le_matchDepth s.parentStackId (P.map Element.id)
  rw [← hmin] at hk
  have haligned := fun (h : s.Aligned) (hI : AllInvertible P) =>
    (reconcile_of_aligned P hP s fuel hfuel h hI).1
  rw [reconcile_eq_runOps P hP s fuel hfuel] at haligned ⊢
  obtain ⟨_, _, h3, h4, h5, _, _⟩ := runOps_general
    (s.parentStackId.length - matchDepth s.parentStackId (P.map Element.id)
      (min s.parentStackId.length P.length))
    (P.drop (matchDepth s.parentStackId (P.map Element.id)
      (min s.parentStackId.length P.length))) s
  rw [List.length_drop] at h4 h5
  simp only [plan] at haligned ⊢
  refine ⟨Nat.le_trans h3 (by omega), Nat.le_trans h4 (by omega), ?_, haligned⟩
  intro htree hok
  obtain ⟨hc, ho, _, _⟩ := h5 hok
  have hj := matchDepth_eq_commonPrefixLen _ _ htree
  rw [← hmin] at hj
  rw [hc, ho, hj]
  exact ⟨rfl, rfl⟩

/-- C7 (witness): the parents 1, 2, 3 are open and the next object has the parents
1 and 4. -/
theorem reconcile_calls_witness :
    ([unitElement 1, unitElement 4] ≠ [] ∧ (opened [1, 2, 3]).parentStackId.length + 3 ≤ 6) ∧
    (closes (reconcile [unitElement 1, unitElement 4] 6 (opened [1, 2, 3])).scene
      ≤ closes (opened [1, 2, 3]) + ((opened [1, 2, 3]).parentStackId.length -
        commonPrefixLen (opened [1, 2, 3]).parentStackId
          ([unitElement 1, unitElement 4].map Element.id)) ∧
    opens (reconcile [unitElement 1, unitElement 4] 6 (opened [1, 2, 3])).scene
      ≤ opens (opened [1, 2, 3]) + ([unitElement 1, unitElement 4].length -
        commonPrefixLen (opened [1, 2, 3]).parentStackId
          ([unitElement 1, unitElement 4].map Element.id)) ∧
    (TreePaths (opened [1, 2, 3]).parentStackId ([unitElement 1, unitElement 4].map Element.id) →
      (reconcile [unitElement 1, unitElement 4] 6 (opened [1, 2, 3])).status = Status.ok →
      closes (reconcile [unitElement 1, unitElement 4] 6 (opened [1, 2, 3])).scene
        = closes (opened [1, 2, 3]) + ((opened [1, 2, 3]).parentStackId.length -
          commonPrefixLen (opened [1, 2, 3]).parentStackId
            ([unitElement 1, unitElement 4].map Element.id)) ∧
      opens (reconcile [unitElement 1, unitElement 4] 6 (opened [1, 2, 3])).scene
        = opens (opened [1, 2, 3]) + ([unitElement 1, unitElement 4].length -
          commonPrefixLen (opened [1, 2, 3]).parentStackId
            ([unitElement 1, unitElement 4].map Element.id))) ∧
    ((opened [1, 2, 3]).Aligned → AllInvertible [unitElement 1, unitElement 4] →
      (reconcile [unitElement 1, unitElement 4] 6 (opened [1, 2, 3])).status = Status.ok)) :=
  ⟨⟨by simp, by decide!⟩,
    reconcile_calls (opened [1, 2, 3]) [unitElement 1, unitElement 4] 6 (by simp) (by decide!)⟩

/-- C8: when the id stack and the ids of a non-empty parent list agree on their
first `k` entries, the loop of `endDocument` ends within `m + 3` iterations, ends
at most `m - k` nodes and starts at most `n - k`, so that none of the first `k`
entries is closed or opened again: they are still the first `k` entries of the id
stack, and of the node stack when it is as long as the id stack, in the state the
loop ends in; the loop returns when the three stacks are parallel and the parents'
matrices are invertible. -/
theorem reconcile_keeps_common_entries (s : Scene) (P : List Element) (fuel k : Nat)
    (hP : P ≠ []) (hkm : k ≤ s.parentStackId.length) (hkn : k ≤ P.length)
    (hk : s.parentStackId.take k = (P.map Element.id).take k)
    (hfuel : s.parentStackId.length + 3 ≤ fuel) :
    (reconcile P fuel s).status ≠ Status.outOfFuel ∧
    closes (reconcile P fuel s).scene ≤ closes s + (s.parentStackId.length - k) ∧
    opens (reconcile P fuel s).scene ≤ opens s + (P.length - k) ∧
    (reconcile P fuel s).scene.parentStackId.take k = s.parentStackId.take k ∧
    (s.parentNodes.length = s.parentStackId.length →
      (reconcile P fuel s).scene.parentNodes.take k = s.parentNodes.take k) ∧
    (s.Aligned → AllInvertible P → (reconcile P fuel s).status = Status.ok) := by
  have hj := le_matchDepth_of_take_eq s.parentStackId (P.map Element.id) k hk
    (min s.parentStackId.length P.length) (Nat.le_min.mpr ⟨hkm, hkn⟩)
  have hjm := matchDepth_le s.parentStackId (P.map Element.id)
    (min s.parentStackId.length P.length)
  have hml := Nat.min_le_left s.parentStackId.length P.length
  rw [reconcile_eq_runOps P hP s fuel hfuel]
  obtain ⟨h1, _, h3, h4, _, h6, h7⟩ := runOps_general
    (s.parentStackId.length - matchDepth s.parentStackId (P.map Element.id)
      (min s.parentStackId.length P.length))
    (P.drop (matchDepth s.parentStackId (P.map Element.id)
      (min s.parentStackId.length P.length))) s
  rw [List.length_drop] at h4
  have haligned := fun (h : s.Aligned) (hI : AllInvertible P) =>
    (reconcile_of_aligned P hP s fuel hfuel h hI).1
  rw [reconcile_eq_runOps P hP s fuel hfuel] at haligned
  simp only [plan]
  refine ⟨h1, Nat.le_trans h3 (by omega), Nat.le_trans h4 (by omega), h6 k (by omega),
    fun hn => h7 k (by omega), ?_⟩
  simpa only [plan] using haligned

/-- C8 (witness): reconciling the stack 1, 2, 3 with the parents 1 and 2 ends the
node of 3 and nothing else, starts no node and leaves the ids 1 and 2 in place. -/
theorem reconcile_keeps_common_entries_witness :
    ([unitElement 1, unitElement 2] ≠ [] ∧
      2 ≤ (opened [1, 2, 3]).parentStackId.length ∧ 2 ≤ [unitElement 1, unitElement 2].length ∧
      (opened [1, 2, 3]).parentStackId.take 2 = ([unitElement 1, unitElement 2].map Element.id).take 2 ∧
      (opened [1, 2, 3]).parentStackId.length + 3 ≤ 6) ∧
    ((reconcile [unitElement 1, unitElement 2] 6 (opened [1, 2, 3])).status ≠ Status.outOfFuel ∧
      closes (reconcile [unitElement 1, unitElement 2] 6 (opened [1, 2, 3])).scene
        ≤ closes (opened [1, 2, 3]) + ((opened [1, 2, 3]).parentStackId.length - 2) ∧
      opens (reconcile [unitElement 1, unitElement 2] 6 (opened [1, 2, 3])).scene
        ≤ opens (opened [1, 2, 3]) + ([unitElement 1, unitElement 2].length - 2) ∧
      (reconcile [unitElement 1, unitElement 2] 6 (opened [1, 2, 3])).scene.parentStackId.take 2
        = (opened [1, 2, 3]).parentStackId.take 2 ∧
      ((opened [1, 2, 3]).parentNodes.length = (opened [1, 2, 3]).parentStackId.length →
        (reconcile [unitElement 1, unitElement 2] 6 (opened [1, 2, 3])).scene.parentNodes.take 2
          = (opened [1, 2, 3]).parentNodes.take 2) ∧
      ((opened [1, 2, 3]).Aligned → AllInvertible [unitElement 1, unitElement 2] →
        (reconcile [unitElement 1, unitElement 2] 6 (opened [1, 2, 3])).status = Status.ok)) ∧
    ((reconcile [unitElement 1, unitElement 2] 6 (opened [1, 2, 3])).status = Status.ok ∧
      (reconcile [unitElement 1, unitElement 2] 6 (opened [1, 2, 3])).scene.parentStackId = [1, 2] ∧
      (reconcile [unitElement 1, unitElement 2] 6 (opened [1, 2, 3])).scene.written =
        (opened [1, 2, 3]).written ++
          [Event.nodeEnd (parentNode (unitElement 3) (placement (opened [1, 2]) (unitElement 3)))]) :=
  ⟨⟨by simp, by decide!, by decide!, by decide!, by decide!⟩,
    reconcile_keeps_common_entries (opened [1, 2, 3]) [unitElement 1, unitElement 2] 6 2
      (by simp) (by decide!) (by decide!) (by decide!) (by decide!),
    by decide!⟩

/-! ### The closed-form inverse -/

theorem multiply_eq_mul (a b : Mat4) : multiply a b = a * b := by
  ext i j
  simp [multiply, Matrix.mul_apply, Fin.sum_univ_four]

theorem mul_cofactors (m : Mat4) : m * cofactors m = det m • (1 : Mat4) := by
  ext i j
  fin_cases i <;> fin_cases j <;>
    simp [cofactors, det, Matrix.mul_apply, Fin.sum_univ_four, Matrix.one_apply] <;> ring

theorem cofactors_mul (m : Mat4) : cofactors m * m = det m • (1 : Mat4) := by
  ext i j
  fin_cases i <;> fin_cases j <;>
    simp [cofactors, det, Matrix.mul_apply, Fin.sum_univ_four, Matrix.one_apply] <;> ring

/-- The expression assigned to `det` is the determinant of the matrix. -/
theorem det_eq_det (m : Mat4) : det m = Matrix.det m := by
  have h3 : Fin.succ (2 : Fin 3) = (3 : Fin 4) := rfl
  have c2 : Fin.castSucc (2 : Fin 3) = (2 : Fin 4) := rfl
  rw [Matrix.det_succ_row_zero]
  simp [Fin.sum_univ_four, Matrix.det_fin_three, Matrix.submatrix, Fin.succAbove, det, h3, c2]
  have e1 : ((-1 : ℚ)) ^ ((3 : Fin 4) : ℕ) = -1 := by
    norm_num [show ((3 : Fin 4) : ℕ) = 3 from rfl]
  have l1 : ((2 : Fin 4) < 3) = True := eq_true (by decide)
  simp only [e1, l1, if_true, lt_self_iff_false, if_false]
  ring

theorem inverse_eq_smul (m : Mat4) : inverse m = (det m)⁻¹ • cofactors m := by
  ext i j
  simp [inverse, div_eq_inv_mul]

theorem mul_inverse (m : Mat4) (h : det m ≠ 0) : m * inverse m = 1 := by
  rw [inverse_eq_smul, Matrix.mul_smul, mul_cofactors, smul_smul, inv_mul_cancel₀ h, one_smul]

theorem inverse_mul (m : Mat4) (h : det m ≠ 0) : inverse m * m = 1 := by
  rw [inverse_eq_smul, Matrix.smul_mul, cofactors_mul, smul_smul, inv_mul_cancel₀ h, one_smul]

theorem inverse_eq_inv (m : Mat4) (h : det m ≠ 0) : inverse m = m⁻¹ :=
  (Matrix.inv_eq_right_inv (mul_inverse m h)).symm

/-- C4: for every 12-value buffer whose expanded matrix `M` has a non-zero
determinant, the matrix computed by the cofactor expressions divided by `det`
is a two-sided inverse of `M` in exact arithmetic, also for the product as
the triple loop computes it, and it is the matrix that `addParent` pushes on
`matrixStack` whenever it returns. -/
theorem addParent_pushes_inverse (parent : Element)
    (h : Matrix.det (expand parent.matrix) ≠ 0) :
    expand parent.matrix * inverse (expand parent.matrix) = 1 ∧
    inverse (expand parent.matrix) * expand parent.matrix = 1 ∧
    multiply (expand parent.matrix) (inverse (expand parent.matrix)) = 1 ∧
    ∀ s : Scene, (addParent s parent).status = Status.ok →
      (addParent s parent).scene.matrixStack =
        s.matrixStack ++ [inverse (expand parent.matrix)] := by
  rw [← det_eq_det] at h
  refine ⟨mul_inverse _ h, inverse_mul _ h, ?_, ?_⟩
  · rw [multiply_eq_mul, mul_inverse _ h]
  · intro s hok
    rw [(addParent_of_ok s parent hok).2.2.1, if_pos h]

/-- C4 (witness): a parent placed at `(1, 2, 3)` without rotation, opened in the
initial state. -/
theorem addParent_pushes_inverse_witness :
    Matrix.det (expand (movedElement 1 1 2 3).matrix) ≠ 0 ∧
    (expand (movedElement 1 1 2 3).matrix * inverse (expand (movedElement 1 1 2 3).matrix) = 1 ∧
    inverse (expand (movedElement 1 1 2 3).matrix) * expand (movedElement 1 1 2 3).matrix = 1 ∧
    multiply (expand (movedElement 1 1 2 3).matrix)
      (inverse (expand (movedElement 1 1 2 3).matrix)) = 1 ∧
    ∀ s : Scene, (addParent s (movedElement 1 1 2 3)).status = Status.ok →
      (addParent s (movedElement 1 1 2 3)).scene.matrixStack =
        s.matrixStack ++ [inverse (expand (movedElement 1 1 2 3).matrix)]) :=
  ⟨by rw [← det_eq_det]; decide!,
    addParent_pushes_inverse (movedElement 1 1 2 3) (by rw [← det_eq_det]; decide!)⟩

/-! ### Opening a parent, and the placement of a leaf -/

theorem addParent_cout_of_singular (s : Scene) (p : Element)
    (hok : (addParent s p).status = Status.ok) (hdet : det (expand p.matrix) = 0) :
    (addParent s p).scene.cout.getLast? = some noInverseMessage := by
  have hst := addParent_status s p
  rw [hok] at hst
  have hc : s.parentNodes = [] ∨ s.matrixStack ≠ [] := by
    by_contra hc
    rw [if_neg hc] at hst
    cases hst
  have h1 := relativePlacement_status (openScene s)
    ("PARENT         : " ++ p.name ++ "_" ++ p.type) (expand p.matrix)
  simp only [openScene_parentNodes, openScene_matrixStack, if_pos hc] at h1
  unfold addParent
  simp only [Outcome.andThen_of_ok h1, pushParent, hdet]
  simp

/-- C5: in every state whose node stack and inverse matrix stack have the same
length, `addParent` for a parent whose expanded matrix has determinant zero
returns: it pushes the node and the id, leaves `matrixStack` as it was, which is
then one entry shorter than the node stack, and prints the diagnostic. -/
theorem addParent_singular (s : Scene) (parent : Element)
    (hlen : s.parentNodes.length = s.matrixStack.length)
    (hdet : Matrix.det (expand parent.matrix) = 0) :
    (addParent s parent).status = Status.ok ∧
    (addParent s parent).scene.parentNodes =
      s.parentNodes ++ [parentNode parent (placement s parent)] ∧
    (addParent s parent).scene.parentStackId = s.parentStackId ++ [parent.id] ∧
    (addParent s parent).scene.matrixStack = s.matrixStack ∧
    (addParent s parent).scene.matrixStack.length + 1 =
      (addParent s parent).scene.parentNodes.length ∧
    (addParent s parent).scene.cout.getLast? = some noInverseMessage := by
  rw [← det_eq_det] at hdet
  have hok : (addParent s parent).status = Status.ok := by
    rw [addParent_status, if_pos]
    by_cases hn : s.parentNodes = []
    · exact Or.inl hn
    · right
      apply List.ne_nil_of_length_pos
      rw [← hlen]
      exact List.length_pos.mpr hn
  obtain ⟨e1, e2, e3, _⟩ := addParent_of_ok s parent hok
  have hm : (addParent s parent).scene.matrixStack = s.matrixStack := by
    rw [e3]; simp [hdet]
  refine ⟨hok, e2, e1, hm, ?_, addParent_cout_of_singular s parent hok hdet⟩
  rw [hm, e2]
  simp [hlen]

/-- C5 (witness): a parent with a zero buffer is opened below the parent 1. -/
theorem addParent_singular_witness :
    ((opened [1]).parentNodes.length = (opened [1]).matrixStack.length ∧
      Matrix.det (expand (flatElement 2).matrix) = 0) ∧
    ((addParent (opened [1]) (flatElement 2)).status = Status.ok ∧
    (addParent (opened [1]) (flatElement 2)).scene.parentNodes =
      (opened [1]).parentNodes ++ [parentNode (flatElement 2) (placement (opened [1]) (flatElement 2))] ∧
    (addParent (opened [1]) (flatElement 2)).scene.parentStackId =
      (opened [1]).parentStackId ++ [(flatElement 2).id] ∧
    (addParent (opened [1]) (flatElement 2)).scene.matrixStack = (opened [1]).matrixStack ∧
    (addParent (opened [1]) (flatElement 2)).scene.matrixStack.length + 1 =
      (addParent (opened [1]) (flatElement 2)).scene.parentNodes.length ∧
    (addParent (opened [1]) (flatElement 2)).scene.cout.getLast? = some noInverseMessage) :=
  ⟨⟨by decide!, by rw [← det_eq_det]; decide!⟩,
    addParent_singular (opened [1]) (flatElement 2) (by decide!) (by rw [← det_eq_det]; decide!)⟩

theorem openScene_scene_opened (s : Scene) : (openScene s).scene_opened = true := by
  unfold openScene
  by_cases h : s.scene_opened = true
  · rw [if_pos h]; exact h
  · rw [if_neg h]

theorem addParent_scene_opened (s : Scene) (p : Element)
    (hok : (addParent s p).status = Status.ok) : (addParent s p).scene.scene_opened = true := by
  have hst := addParent_status s p
  rw [hok] at hst
  have hc : s.parentNodes = [] ∨ s.matrixStack ≠ [] := by
    by_contra hc
    rw [if_neg hc] at hst
    cases hst
  have h1 := relativePlacement_status (openScene s)
    ("PARENT         : " ++ p.name ++ "_" ++ p.type) (expand p.matrix)
  simp only [openScene_parentNodes, openScene_matrixStack, if_pos hc] at h1
  have h2 := (relativePlacement_stacks (openScene s)
    ("PARENT         : " ++ p.name ++ "_" ++ p.type) (expand p.matrix)).2.2.2.2
  unfold addParent
  simp only [Outcome.andThen_of_ok h1, pushParent, h2]
  exact openScene_scene_opened s

theorem openScene_of_opened (s : Scene) (h : s.scene_opened = true) : openScene s = s := by
  simp [openScene, h]

/-- With a parent open and `inv` on top of `matrixStack`, `add` writes one geometry
node whose matrix is the expanded buffer times `inv`, plus the offset. -/
theorem add_of_top (offset : Fin 3 → ℚ) (s : Scene) (node_id node_name geom_name : String)
    (posmatrix : Buffer) (inv : Mat4) (hn : s.parentNodes ≠ [])
    (hm : s.matrixStack.getLast? = some inv) :
    (add offset s node_id node_name geom_name posmatrix).status = Status.ok ∧
    (add offset s node_id node_name geom_name posmatrix).scene.written =
      (openScene s).written ++ [Event.geometry
        { nodeId := node_id, nodeName := node_name,
          matrix := addOffset offset (expand posmatrix * inv) } ("#" ++ geom_name)] := by
  obtain ⟨top, htop⟩ : ∃ top, s.parentNodes.getLast? = some top :=
    ⟨s.parentNodes.getLast hn, List.getLast?_eq_getLast _ hn⟩
  simp only [add, relativePlacement, openScene_parentNodes, openScene_matrixStack, htop, hm,
    Outcome.andThen_ok, multiply_eq_mul]
  simp

theorem addOffset_zero (m : Mat4) : addOffset (fun _ => 0) m = m := by
  ext i j
  simp [addOffset]

/-- C3: let the parents `A` and then `B`, both with invertible matrices, be opened
from a state with empty stacks. The matrix that `add` then writes for a leaf with
the buffer `L` is `expand L` times the inverse of `expand B`, with the offset
added to the first three entries of column 3; the inverse of `A` does not enter,
and with a zero offset the matrix is the product itself. -/
theorem add_relative_to_innermost (offset : Fin 3 → ℚ) (s : Scene) (A B : Element)
    (node_id node_name geom_name : String) (L : Buffer)
    (hn : s.parentNodes = []) (hA : Matrix.det (expand A.matrix) ≠ 0)
    (hB : Matrix.det (expand B.matrix) ≠ 0) :
    (addParent s A).status = Status.ok ∧
    (addParent (addParent s A).scene B).status = Status.ok ∧
    (addParent (addParent s A).scene B).scene.parentStackId = s.parentStackId ++ [A.id, B.id] ∧
    (add offset (addParent (addParent s A).scene B).scene node_id node_name geom_name L).status
      = Status.ok ∧
    (add offset (addParent (addParent s A).scene B).scene node_id node_name geom_name L).scene.written
      = (addParent (addParent s A).scene B).scene.written ++ [Event.geometry
        { nodeId := node_id, nodeName := node_name,
          matrix := addOffset offset (expand L * (expand B.matrix)⁻¹) } ("#" ++ geom_name)] ∧
    addOffset offset (expand L * (expand B.matrix)⁻¹) 0 3 =
      (expand L * (expand B.matrix)⁻¹) 0 3 + offset 0 ∧
    addOffset offset (expand L * (expand B.matrix)⁻¹) 1 3 =
      (expand L * (expand B.matrix)⁻¹) 1 3 + offset 1 ∧
    addOffset offset (expand L * (expand B.matrix)⁻¹) 2 3 =
      (expand L * (expand B.matrix)⁻¹) 2 3 + offset 2 ∧
    (∀ i j, ¬ (j = 3 ∧ i ≠ 3) → addOffset offset (expand L * (expand B.matrix)⁻¹) i j =
      (expand L * (expand B.matrix)⁻¹) i j) ∧
    addOffset (fun _ => 0) (expand L * (expand B.matrix)⁻¹) = expand L * (expand B.matrix)⁻¹ := by
  rw [← det_eq_det] at hA hB
  have okA : (addParent s A).status = Status.ok := by
    rw [addParent_status, if_pos (Or.inl hn)]
  obtain ⟨a1, a2, a3, _⟩ := addParent_of_ok s A okA
  rw [if_pos hA] at a3
  have okB : (addParent (addParent s A).scene B).status = Status.ok := by
    rw [addParent_status, if_pos]
    right
    rw [a3]
    simp
  obtain ⟨b1, b2, b3, _⟩ := addParent_of_ok _ B okB
  rw [if_pos hB] at b3
  have hnodes : (addParent (addParent s A).scene B).scene.parentNodes ≠ [] := by
    rw [b2]; simp
  have htop : (addParent (addParent s A).scene B).scene.matrixStack.getLast?
      = some (expand B.matrix)⁻¹ := by
    rw [b3, ← inverse_eq_inv _ hB]; simp
  obtain ⟨c1, c2⟩ := add_of_top offset _ node_id node_name geom_name L _ hnodes htop
  rw [openScene_of_opened _ (addParent_scene_opened _ B okB)] at c2
  refine ⟨okA, okB, ?_, c1, c2, ?_, ?_, ?_, ?_, addOffset_zero _⟩
  · rw [b1, a1]; simp
  · simp [addOffset]
  · simp [addOffset]
  · simp [addOffset]
  · intro i j hij
    simp only [addOffset, Matrix.of_apply]
    by_cases hj : j = 3
    · have hi : i = 3 := by
        by_contra hi
        exact hij ⟨hj, hi⟩
      subst hj hi
      simp
    · simp [hj]

/-- C3 (witness): `A` is placed at `(1, 0, 0)`, `B` at `(0, 2, 0)` and the leaf at
`(5, 5, 5)`, with the offset `(10, 20, 30)`; the matrix written for the leaf has
the translation `(5, 3, 5) + (10, 20, 30)`, relative to `B`, and is not the one
relative to `A`. -/
theorem add_relative_to_innermost_witness :
    (Scene.initial.parentNodes = [] ∧
      Matrix.det (expand (movedElement 1 1 0 0).matrix) ≠ 0 ∧
      Matrix.det (expand (movedElement 2 0 2 0).matrix) ≠ 0) ∧
    ((add ![10, 20, 30] (addParent (addParent Scene.initial (movedElement 1 1 0 0)).scene
        (movedElement 2 0 2 0)).scene "L" "L" "G" ![1, 0, 0, 0, 1, 0, 0, 0, 1, 5, 5, 5]).status
      = Status.ok ∧
    (add ![10, 20, 30] (addParent (addParent Scene.initial (movedElement 1 1 0 0)).scene
        (movedElement 2 0 2 0)).scene "L" "L" "G" ![1, 0, 0, 0, 1, 0, 0, 0, 1, 5, 5, 5]).scene.written
      = (addParent (addParent Scene.initial (movedElement 1 1 0 0)).scene
          (movedElement 2 0 2 0)).scene.written ++ [Event.geometry
        { nodeId := "L", nodeName := "L",
          matrix := addOffset ![10, 20, 30] (expand ![1, 0, 0, 0, 1, 0, 0, 0, 1, 5, 5, 5] *
            (expand (movedElement 2 0 2 0).matrix)⁻¹) } ("#" ++ "G")]) ∧
    addOffset ![10, 20, 30] (expand ![1, 0, 0, 0, 1, 0, 0, 0, 1, 5, 5, 5] *
        (expand (movedElement 2 0 2 0).matrix)⁻¹)
      = expand ![1, 0, 0, 0, 1, 0, 0, 0, 1, 15, 23, 35] ∧
    addOffset ![10, 20, 30] (expand ![1, 0, 0, 0, 1, 0, 0, 0, 1, 5, 5, 5] *
        (expand (movedElement 2 0 2 0).matrix)⁻¹)
      ≠ addOffset ![10, 20, 30] (expand ![1, 0, 0, 0, 1, 0, 0, 0, 1, 5, 5, 5] *
        (expand (movedElement 1 1 0 0).matrix)⁻¹) :=
  ⟨⟨rfl, by rw [← det_eq_det]; decide!, by rw [← det_eq_det]; decide!⟩,
    ⟨(add_relative_to_innermost ![10, 20, 30] Scene.initial (movedElement 1 1 0 0)
        (movedElement 2 0 2 0) "L" "L" "G" ![1, 0, 0, 0, 1, 0, 0, 0, 1, 5, 5, 5] rfl
        (by rw [← det_eq_det]; decide!) (by rw [← det_eq_det]; decide!)).2.2.2.1,
      (add_relative_to_innermost ![10, 20, 30] Scene.initial (movedElement 1 1 0 0)
        (movedElement 2 0 2 0) "L" "L" "G" ![1, 0, 0, 0, 1, 0, 0, 0, 1, 5, 5, 5] rfl
        (by rw [← det_eq_det]; decide!) (by rw [← det_eq_det]; decide!)).2.2.2.2.1⟩,
    by rw [← inverse_eq_inv _ (by decide!), ← multiply_eq_mul]; decide!,
    by rw [← inverse_eq_inv _ (by decide!), ← inverse_eq_inv _ (by decide!), ← multiply_eq_mul,
        ← multiply_eq_mul]; decide!⟩

/-! ### Push followed by pop, and objects without parents -/

/-- Where `addParent` is defined and the matrix of the parent is invertible, the call
followed by `closeParent` restores the three stacks. -/
theorem addParent_closeParent_restores (s : Scene) (p : Element)
    (hdet : det (expand p.matrix) ≠ 0) (hdef : s.parentNodes = [] ∨ s.matrixStack ≠ []) :
    ((addParent s p).andThen closeParent).status = Status.ok ∧
    ((addParent s p).andThen closeParent).scene.parentNodes = s.parentNodes ∧
    ((addParent s p).andThen closeParent).scene.matrixStack = s.matrixStack ∧
    ((addParent s p).andThen closeParent).scene.parentStackId = s.parentStackId := by
  have hok : (addParent s p).status = Status.ok := by
    rw [addParent_status, if_pos hdef]
  obtain ⟨e1, e2, e3, _⟩ := addParent_of_ok s p hok
  rw [if_pos hdet] at e3
  rw [Outcome.andThen_of_ok hok]
  have hc : (closeParent (addParent s p).scene).status = Status.ok := by
    rw [closeParent_status_ok_iff, e1, e2, e3]
    simp
  refine ⟨hc, ?_, ?_, ?_⟩
  · rw [closeParent_parentNodes, e2]; simp
  · rw [closeParent_matrixStack_of_ok _ hc, e3]; simp
  · rw [closeParent_parentStackId, if_pos hc, e1]; simp

/-- C6 (the code at the failing input): after a parent with a zero buffer was
opened from the initial state, the node stack holds one node and `matrixStack`
is empty; `addParent` for a parent with the identity placement, whose matrix is
invertible, then reads `matrixStack.top()` of the empty stack, so that the call
followed by `closeParent` does not return and restores nothing. -/
theorem addParent_closeParent_after_singular :
    (addParent Scene.initial (flatElement 1)).status = Status.ok ∧
    (addParent Scene.initial (flatElement 1)).scene.parentNodes.length = 1 ∧
    (addParent Scene.initial (flatElement 1)).scene.parentStackId = [1] ∧
    (addParent Scene.initial (flatElement 1)).scene.matrixStack = [] ∧
    det (expand (unitElement 2).matrix) ≠ 0 ∧
    (addParent (addParent Scene.initial (flatElement 1)).scene (unitElement 2)).status
      = Status.fault Fault.emptyMatrixStack ∧
    ((addParent (addParent Scene.initial (flatElement 1)).scene (unitElement 2)).andThen
      closeParent).status = Status.fault Fault.emptyMatrixStack := by
  decide!

theorem closeParent_geometries (s : Scene) : geometries (closeParent s).scene = geometries s := by
  unfold closeParent
  cases h : s.parentNodes.getLast? with
  | none => simp
  | some n =>
    by_cases h2 : s.matrixStack = [] <;> by_cases h3 : s.parentStackId = [] <;>
      simp [h2, h3, geometries, List.countP_append]

theorem runOps_closeParent_geometries (c : Nat) :
    ∀ s : Scene, geometries (runOps (List.replicate c Op.closeParent) s).scene = geometries s := by
  induction c with
  | zero => intro s; simp [runOps]
  | succ c ih =>
    intro s
    simp only [List.replicate_succ, runOps]
    by_cases hp : (closeParent s).status = Status.ok
    · rw [Outcome.andThen_of_ok hp, ih, closeParent_geometries]
    · rw [Outcome.andThen_of_ne_ok hp, closeParent_geometries]

/-- C2 (the code at the failing input): for an object without parents the scene
loop of `endDocument` never returns from the reconciliation and writes no
geometry node, in any state; when the three stacks are parallel it closes every
open parent, leaves the id stack empty and then stops at `parents.at(0)`, which
is out of range. -/
theorem writeObject_without_parents (offset : Fin 3 → ℚ) (s : Scene) (it : DeferredObject)
    (fuel : Nat) (hp : it.parents = []) (hfuel : s.parentStackId.length + 2 ≤ fuel) :
    (writeObject offset true fuel s it).status ≠ Status.ok ∧
    (writeObject offset true fuel s it).status ≠ Status.outOfFuel ∧
    geometries (writeObject offset true fuel s it).scene = geometries s ∧
    (s.Aligned →
      (writeObject offset true fuel s it).status = Status.fault Fault.outOfRange ∧
      (writeObject offset true fuel s it).scene.parentStackId = [] ∧
      closes (writeObject offset true fuel s it).scene = closes s + s.parentStackId.length) := by
  have hrec : reconcile it.parents fuel s =
      (runOps (List.replicate s.parentStackId.length Op.closeParent) s).andThen fun s1 =>
        ⟨Status.fault Fault.outOfRange, s1⟩ := by
    rw [hp]; exact reconcile_nil s fuel hfuel
  obtain ⟨h1, _, _, _, h5, _⟩ := runOps_closeParent_general s.parentStackId.length s
  have hg := runOps_closeParent_geometries s.parentStackId.length s
  have hne : (reconcile it.parents fuel s).status ≠ Status.ok := by
    rw [hrec]
    by_cases hok : (runOps (List.replicate s.parentStackId.length Op.closeParent) s).status
        = Status.ok
    · rw [Outcome.andThen_of_ok hok]; simp
    · rw [Outcome.andThen_of_ne_ok hok]; exact hok
  have hw : writeObject offset true fuel s it = reconcile it.parents fuel s := by
    unfold writeObject
    simp only [if_true]
    exact Outcome.andThen_of_ne_ok hne _
  rw [hw, hrec]
  by_cases hok : (runOps (List.replicate s.parentStackId.length Op.closeParent) s).status
      = Status.ok
  · have hids := (runOps_closeParent_parentStackId _ s hok).2
    rw [Nat.sub_self, List.take_zero] at hids
    rw [Outcome.andThen_of_ok hok]
    exact ⟨by simp, by simp, hg, fun _ => ⟨rfl, hids, h5 hok⟩⟩
  · rw [Outcome.andThen_of_ne_ok hok]
    refine ⟨hok, h1, hg, fun hal => ?_⟩
    exact absurd (runOps_closeParent_aligned _ s hal (Nat.le_refl _)).1 hok

/-- C2 (witness): the parents 1, 2, 3 are open and the next object has no parent. -/
theorem writeObject_without_parents_witness :
    ((⟨"leaf", "geometry", identityBuffer, []⟩ : DeferredObject).parents = [] ∧
      (opened [1, 2, 3]).parentStackId.length + 2 ≤ 5) ∧
    ((writeObject (fun _ => 0) true 5 (opened [1, 2, 3])
        ⟨"leaf", "geometry", identityBuffer, []⟩).status ≠ Status.ok ∧
    (writeObject (fun _ => 0) true 5 (opened [1, 2, 3])
        ⟨"leaf", "geometry", identityBuffer, []⟩).status ≠ Status.outOfFuel ∧
    geometries (writeObject (fun _ => 0) true 5 (opened [1, 2, 3])
        ⟨"leaf", "geometry", identityBuffer, []⟩).scene = geometries (opened [1, 2, 3]) ∧
    ((opened [1, 2, 3]).Aligned →
      (writeObject (fun _ => 0) true 5 (opened [1, 2, 3])
        ⟨"leaf", "geometry", identityBuffer, []⟩).status = Status.fault Fault.outOfRange ∧
      (writeObject (fun _ => 0) true 5 (opened [1, 2, 3])
        ⟨"leaf", "geometry", identityBuffer, []⟩).scene.parentStackId = [] ∧
      closes (writeObject (fun _ => 0) true 5 (opened [1, 2, 3])
        ⟨"leaf", "geometry", identityBuffer, []⟩).scene
        = closes (opened [1, 2, 3]) + (opened [1, 2, 3]).parentStackId.length)) ∧
    (opened [1, 2, 3]).Aligned :=
  ⟨⟨rfl, by decide!⟩,
    writeObject_without_parents (fun _ => 0) (opened [1, 2, 3])
      ⟨"leaf", "geometry", identityBuffer, []⟩ 5 rfl (by decide!),
    by decide!⟩

/-! ### The scene loop of `endDocument` -/

theorem replay_append_singleton (w : List Event) (e : Event) :
    replay (w ++ [e]) = (replay w).bind (replayEvent e) := by
  simp [replay, List.foldl_append]

theorem openScene_replay (s : Scene) : replay (openScene s).written = replay s.written := by
  unfold openScene
  split
  · rfl
  · show replay (s.written ++ [Event.openVisualScene]) = replay s.written
    rw [replay_append_singleton]
    cases replay s.written <;> rfl

theorem replay_counts (w : List Event) :
    ∀ st, replay w = some st →
      (w.countP fun e => match e with
        | Event.nodeStart _ => true
        | _ => false) =
      (w.countP fun e => match e with
        | Event.nodeEnd _ => true
        | _ => false) + st.length := by
  induction w using List.reverseRecOn with
  | nil =>
    intro st h
    simp [replay] at h
    simp [h]
  | append_singleton w e ih =>
    intro st h
    rw [replay_append_singleton] at h
    cases hw : replay w with
    | none => rw [hw] at h; simp at h
    | some st0 =>
      rw [hw] at h
      have ih0 := ih st0 hw
      simp only [Option.some_bind] at h
      cases e with
      | openVisualScene =>
        simp only [replayEvent, Option.some.injEq] at h
        subst h
        simp [List.countP_append, ih0]
      | closeVisualScene =>
        simp only [replayEvent, Option.some.injEq] at h
        subst h
        simp [List.countP_append, ih0]
      | geometry n u =>
        simp only [replayEvent, Option.some.injEq] at h
        subst h
        simp [List.countP_append, ih0]
      | nodeStart n =>
        simp only [replayEvent, Option.some.injEq] at h
        subst h
        simp [List.countP_append, ih0]
        omega
      | nodeEnd n =>
        simp only [replayEvent] at h
        split at h
        · rename_i hlast
          simp only [Option.some.injEq] at h
          subst h
          have hne : st0 ≠ [] := by
            intro h0; simp [h0] at hlast
          have hpos : 0 < st0.length := List.length_pos.mpr hne
          simp [List.countP_append, ih0]
          omega
        · simp at h

theorem closeParent_wellNested (s : Scene) (h : s.WellNested) (hne : s.parentStackId ≠ []) :
    (closeParent s).Benign ∧
    ((closeParent s).status = Status.ok → (closeParent s).scene.WellNested) := by
  have hpos : 0 < s.parentStackId.length := List.length_pos.mpr hne
  have hn : s.parentNodes ≠ [] := by
    apply List.ne_nil_of_length_pos; rw [h.1]; exact hpos
  constructor
  · by_cases hm : s.matrixStack = []
    · right
      unfold closeParent
      rw [List.getLast?_eq_getLast _ hn]
      simp [hm]
    · left
      rw [closeParent_status_ok_iff]
      exact ⟨hn, hm, hne⟩
  · intro hok
    obtain ⟨n, hlast, hw⟩ := closeParent_written_of_ok s hok
    refine ⟨?_, ?_⟩
    · rw [closeParent_parentNodes, closeParent_parentStackId, if_pos hok, List.length_dropLast,
        List.length_dropLast, h.1]
    · rw [hw, replay_append_singleton, h.2, closeParent_parentNodes]
      simp [replayEvent, hlast]

theorem addParent_wellNested (s : Scene) (p : Element) (h : s.WellNested) :
    (addParent s p).Benign ∧
    ((addParent s p).status = Status.ok → (addParent s p).scene.WellNested) := by
  constructor
  · unfold Outcome.Benign
    rw [addParent_status]
    split
    · exact Or.inl rfl
    · exact Or.inr rfl
  · intro hok
    obtain ⟨e1, e2, _, e4⟩ := addParent_of_ok s p hok
    refine ⟨?_, ?_⟩
    · rw [e1, e2]; simp [h.1]
    · rw [e4, replay_append_singleton, openScene_replay, h.2, e2]
      simp [replayEvent]

theorem add_spec (offset : Fin 3 → ℚ) (s : Scene) (node_id node_name geom_name : String)
    (posmatrix : Buffer) :
    (add offset s node_id node_name geom_name posmatrix).status =
      (if s.parentNodes = [] ∨ s.matrixStack ≠ [] then Status.ok
       else Status.fault Fault.emptyMatrixStack) ∧
    (add offset s node_id node_name geom_name posmatrix).scene.parentNodes = s.parentNodes ∧
    (add offset s node_id node_name geom_name posmatrix).scene.matrixStack = s.matrixStack ∧
    (add offset s node_id node_name geom_name posmatrix).scene.parentStackId = s.parentStackId ∧
    ((add offset s node_id node_name geom_name posmatrix).status = Status.ok →
      ∃ n u, (add offset s node_id node_name geom_name posmatrix).scene.written =
        (openScene s).written ++ [Event.geometry n u]) := by
  have h1 := relativePlacement_status (openScene s) ("REPRESENTATION : " ++ node_name)
    (expand posmatrix)
  simp only [openScene_parentNodes, openScene_matrixStack] at h1
  obtain ⟨e1, e2, e3, e4, _⟩ := relativePlacement_stacks (openScene s)
    ("REPRESENTATION : " ++ node_name) (expand posmatrix)
  simp only [openScene_parentNodes, openScene_matrixStack, openScene_parentStackId] at e1 e2 e3
  by_cases hc : s.parentNodes = [] ∨ s.matrixStack ≠ []
  · rw [if_pos hc] at h1
    rw [if_pos hc]
    unfold add
    simp only [Outcome.andThen_of_ok h1, e1, e2, e3, e4]
    exact ⟨trivial, trivial, trivial, trivial, fun _ => ⟨_, _, rfl⟩⟩
  · rw [if_neg hc] at h1
    rw [if_neg hc]
    have hne : (relativePlacement (openScene s) ("REPRESENTATION : " ++ node_name)
        (expand posmatrix)).1.status ≠ Status.ok := by
      rw [h1]; simp
    unfold add
    simp only [Outcome.andThen_of_ne_ok hne, e1, e2, e3, h1]
    simp

theorem add_wellNested (offset : Fin 3 → ℚ) (s : Scene) (node_id node_name geom_name : String)
    (posmatrix : Buffer) (h : s.WellNested) :
    (add offset s node_id node_name geom_name posmatrix).Benign ∧
    ((add offset s node_id node_name geom_name posmatrix).status = Status.ok →
      (add offset s node_id node_name geom_name posmatrix).scene.WellNested) := by
  obtain ⟨h1, h2, _, h4, h5⟩ := add_spec offset s node_id node_name geom_name posmatrix
  constructor
  · unfold Outcome.Benign
    rw [h1]
    split
    · exact Or.inl rfl
    · exact Or.inr rfl
  · intro hok
    obtain ⟨n, u, hw⟩ := h5 hok
    refine ⟨by rw [h2, h4, h.1], ?_⟩
    rw [hw, replay_append_singleton, openScene_replay, h.2, h2]
    simp [replayEvent]

theorem add_of_aligned (offset : Fin 3 → ℚ) (s : Scene) (node_id node_name geom_name : String)
    (posmatrix : Buffer) (h : s.Aligned) :
    (add offset s node_id node_name geom_name posmatrix).status = Status.ok ∧
    (add offset s node_id node_name geom_name posmatrix).scene.Aligned := by
  obtain ⟨h1, h2, h3, h4, _⟩ := add_spec offset s node_id node_name geom_name posmatrix
  refine ⟨?_, by rw [h2, h4, h.1], by rw [h3, h4, h.2]⟩
  rw [h1, if_pos]
  by_cases hn : s.parentNodes = []
  · exact Or.inl hn
  · right
    apply List.ne_nil_of_length_pos
    rw [h.2, ← h.1]
    exact List.length_pos.mpr hn

theorem runOps_closeParent_wellNested (c : Nat) :
    ∀ s : Scene, s.WellNested → c ≤ s.parentStackId.length →
      (runOps (List.replicate c Op.closeParent) s).Benign ∧
      ((runOps (List.replicate c Op.closeParent) s).status = Status.ok →
        (runOps (List.replicate c Op.closeParent) s).scene.WellNested) := by
  induction c with
  | zero => intro s h _; exact ⟨Or.inl rfl, fun _ => h⟩
  | succ c ih =>
    intro s h hc
    have hne : s.parentStackId ≠ [] := by
      apply List.ne_nil_of_length_pos; omega
    obtain ⟨hb, hw⟩ := closeParent_wellNested s h hne
    simp only [List.replicate_succ, runOps]
    by_cases hok : (closeParent s).status = Status.ok
    · rw [Outcome.andThen_of_ok hok]
      apply ih _ (hw hok)
      rw [closeParent_parentStackId, if_pos hok, List.length_dropLast]
      omega
    · rw [Outcome.andThen_of_ne_ok hok]
      exact ⟨hb, fun h' => absurd h' hok⟩

theorem runOps_addParent_wellNested (L : List Element) :
    ∀ s : Scene, s.WellNested →
      (runOps (L.map Op.addParent) s).Benign ∧
      ((runOps (L.map Op.addParent) s).status = Status.ok →
        (runOps (L.map Op.addParent) s).scene.WellNested) := by
  induction L with
  | nil => intro s h; exact ⟨Or.inl rfl, fun _ => h⟩
  | cons p L ih =>
    intro s h
    obtain ⟨hb, hw⟩ := addParent_wellNested s p h
    simp only [List.map_cons, runOps]
    by_cases hok : (addParent s p).status = Status.ok
    · rw [Outcome.andThen_of_ok hok]
      exact ih _ (hw hok)
    · rw [Outcome.andThen_of_ne_ok hok]
      exact ⟨hb, fun h' => absurd h' hok⟩

theorem runOps_wellNested (c : Nat) (L : List Element) (s : Scene) (h : s.WellNested)
    (hc : c ≤ s.parentStackId.length) :
    (runOps (List.replicate c Op.closeParent ++ L.map Op.addParent) s).Benign ∧
    ((runOps (List.replicate c Op.closeParent ++ L.map Op.addParent) s).status = Status.ok →
      (runOps (List.replicate c Op.closeParent ++ L.map Op.addParent) s).scene.WellNested) := by
  obtain ⟨hb, hw⟩ := runOps_closeParent_wellNested c s h hc
  rw [runOps_append]
  by_cases hok : (runOps (List.replicate c Op.closeParent) s).status = Status.ok
  · rw [Outcome.andThen_of_ok hok]
    exact runOps_addParent_wellNested L _ (hw hok)
  · rw [Outcome.andThen_of_ne_ok hok]
    exact ⟨hb, fun h' => absurd h' hok⟩

/-- From a well-nested state and for a non-empty parent list, the loop of
`endDocument` returns or stops at an empty `matrixStack`; when it returns, the
state is well nested and the id stack has the length of the parent list. -/
theorem reconcile_wellNested (P : List Element) (hP : P ≠ []) (s : Scene) (fuel : Nat)
    (hfuel : s.parentStackId.length + 3 ≤ fuel) (h : s.WellNested) :
    (reconcile P fuel s).Benign ∧
    ((reconcile P fuel s).status = Status.ok →
      (reconcile P fuel s).scene.WellNested ∧
      (reconcile P fuel s).scene.parentStackId.length = P.length) := by
  rw [reconcile_eq_runOps P hP s fuel hfuel]
  have hj := matchDepth_le s.parentStackId (P.map Element.id)
    (min s.parentStackId.length P.length)
  have hl := Nat.min_le_left s.parentStackId.length P.length
  have hr := Nat.min_le_right s.parentStackId.length P.length
  obtain ⟨hb, hw⟩ := runOps_wellNested
    (s.parentStackId.length - matchDepth s.parentStackId (P.map Element.id)
      (min s.parentStackId.length P.length))
    (P.drop (matchDepth s.parentStackId (P.map Element.id)
      (min s.parentStackId.length P.length))) s h (Nat.sub_le _ _)
  obtain ⟨_, _, _, _, h5, _, _⟩ := runOps_general
    (s.parentStackId.length - matchDepth s.parentStackId (P.map Element.id)
      (min s.parentStackId.length P.length))
    (P.drop (matchDepth s.parentStackId (P.map Element.id)
      (min s.parentStackId.length P.length))) s
  simp only [plan]
  refine ⟨hb, fun hok => ⟨hw hok, ?_⟩⟩
  rw [(h5 hok).2.2.2]
  simp only [List.length_append, List.length_take, List.length_map, List.length_drop]
  omega

theorem writeObject_wellNested (offset : Fin 3 → ℚ) (fuel : Nat) (s : Scene)
    (it : DeferredObject) (hp : it.parents ≠ [])
    (hfuel : s.parentStackId.length + 3 ≤ fuel) (h : s.WellNested) :
    (writeObject offset true fuel s it).Benign ∧
    ((writeObject offset true fuel s it).status = Status.ok →
      (writeObject offset true fuel s it).scene.WellNested ∧
      (writeObject offset true fuel s it).scene.parentStackId.length = it.parents.length) ∧
    (s.Aligned → AllInvertible it.parents →
      (writeObject offset true fuel s it).status = Status.ok ∧
      (writeObject offset true fuel s it).scene.Aligned) := by
  obtain ⟨hb, hw⟩ := reconcile_wellNested it.parents hp s fuel hfuel h
  unfold writeObject
  simp only [if_true]
  by_cases hok : (reconcile it.parents fuel s).status = Status.ok
  · rw [Outcome.andThen_of_ok hok]
    obtain ⟨hw1, hlen⟩ := hw hok
    obtain ⟨ab, aw⟩ := add_wellNested offset (reconcile it.parents fuel s).scene it.unique_id
      it.unique_id it.representation_id it.matrix hw1
    refine ⟨ab, fun h' => ⟨aw h', ?_⟩, fun hal hI => ?_⟩
    · rw [(add_spec offset _ it.unique_id it.unique_id it.representation_id it.matrix).2.2.2.1,
        hlen]
    · exact add_of_aligned offset _ _ _ _ _ (reconcile_of_aligned it.parents hp s fuel hfuel hal hI).2
  · rw [Outcome.andThen_of_ne_ok hok]
    refine ⟨hb, fun h' => absurd h' hok, fun hal hI => ?_⟩
    exact absurd (reconcile_of_aligned it.parents hp s fuel hfuel hal hI).1 hok

theorem writeObjects_wellNested (offset : Fin 3 → ℚ) (fuel : Nat) :
    ∀ (deferreds : List DeferredObject) (s : Scene),
      (∀ d ∈ deferreds, d.parents ≠ []) → (∀ d ∈ deferreds, d.parents.length + 3 ≤ fuel) →
      s.parentStackId.length + 3 ≤ fuel → s.WellNested →
      (writeObjects offset true fuel deferreds s).Benign ∧
      ((writeObjects offset true fuel deferreds s).status = Status.ok →
        (writeObjects offset true fuel deferreds s).scene.WellNested ∧
        (writeObjects offset true fuel deferreds s).scene.parentStackId.length + 3 ≤ fuel) ∧
      (s.Aligned → (∀ d ∈ deferreds, AllInvertible d.parents) →
        (writeObjects offset true fuel deferreds s).status = Status.ok ∧
        (writeObjects offset true fuel deferreds s).scene.Aligned) := by
  intro deferreds
  induction deferreds with
  | nil =>
    intro s _ _ hfuel h
    exact ⟨Or.inl rfl, fun _ => ⟨h, hfuel⟩, fun hal _ => ⟨rfl, hal⟩⟩
  | cons it rest ih =>
    intro s hpar hfu hfuel h
    obtain ⟨hb, hw, ha⟩ := writeObject_wellNested offset fuel s it
      (hpar it (List.mem_cons_self _ _)) hfuel h
    simp only [writeObjects]
    by_cases hok : (writeObject offset true fuel s it).status = Status.ok
    · rw [Outcome.andThen_of_ok hok]
      obtain ⟨hw1, hlen⟩ := hw hok
      have hf1 : (writeObject offset true fuel s it).scene.parentStackId.length + 3 ≤ fuel := by
        rw [hlen]; exact hfu it (List.mem_cons_self _ _)
      obtain ⟨ib, iw, ia⟩ := ih _ (fun d hd => hpar d (List.mem_cons_of_mem _ hd))
        (fun d hd => hfu d (List.mem_cons_of_mem _ hd)) hf1 hw1
      refine ⟨ib, iw, fun hal hI => ?_⟩
      exact ia (ha hal (hI it (List.mem_cons_self _ _))).2
        (fun d hd => hI d (List.mem_cons_of_mem _ hd))
    · rw [Outcome.andThen_of_ne_ok hok]
      refine ⟨hb, fun h' => absurd h' hok, fun hal hI => ?_⟩
      exact absurd (ha hal (hI it (List.mem_cons_self _ _))).1 hok

theorem sceneWrite_spec (s : Scene) :
    (sceneWrite s).parentNodes = s.parentNodes ∧
    (sceneWrite s).parentStackId = s.parentStackId ∧
    replay (sceneWrite s).written = replay s.written := by
  unfold sceneWrite
  split
  · refine ⟨rfl, rfl, ?_⟩
    show replay (s.written ++ [Event.closeVisualScene]) = replay s.written
    rw [replay_append_singleton]
    cases replay s.written <;> rfl
  · exact ⟨rfl, rfl, rfl⟩

theorem Outcome.Benign.status_ne {o : Outcome} (h : o.Benign) :
    o.status ≠ Status.fault Fault.emptyParentNodes ∧
    o.status ≠ Status.fault Fault.emptyParentStackId ∧
    o.status ≠ Status.fault Fault.outOfRange ∧
    o.status ≠ Status.outOfFuel := by
  rcases h with h | h <;> rw [h] <;> simp

/-- The scene part of `endDocument`, from a well-nested state with enough budget. -/
theorem endDocument_of_wellNested (offset : Fin 3 → ℚ) (deferreds : List DeferredObject)
    (fuel : Nat) (s : Scene)
    (hpar : ∀ d ∈ deferreds, d.parents ≠ [])
    (hfu : ∀ d ∈ deferreds, d.parents.length + 3 ≤ fuel)
    (hfuel : s.parentStackId.length + 3 ≤ fuel) (h : s.WellNested) :
    (endDocument offset true fuel deferreds s).Benign ∧
    ((endDocument offset true fuel deferreds s).status = Status.ok →
      (endDocument offset true fuel deferreds s).scene.parentStackId = [] ∧
      (endDocument offset true fuel deferreds s).scene.parentNodes = [] ∧
      replay (endDocument offset true fuel deferreds s).scene.written = some []) ∧
    (s.Aligned → (∀ d ∈ deferreds, AllInvertible d.parents) →
      (endDocument offset true fuel deferreds s).status = Status.ok) := by
  obtain ⟨hb, hw, ha⟩ := writeObjects_wellNested offset fuel deferreds s hpar hfu hfuel h
  unfold endDocument
  by_cases hok : (writeObjects offset true fuel deferreds s).status = Status.ok
  · rw [Outcome.andThen_of_ok hok]
    obtain ⟨hw1, hf1⟩ := hw hok
    have hcw := closeWhileAbove_eq 0
      (writeObjects offset true fuel deferreds s).scene.parentStackId.length fuel
      (writeObjects offset true fuel deferreds s).scene (by simp) (by omega)
    rw [hcw]
    obtain ⟨cb, cw⟩ := runOps_closeParent_wellNested
      (writeObjects offset true fuel deferreds s).scene.parentStackId.length _ hw1 (Nat.le_refl _)
    by_cases hok2 : (runOps (List.replicate
        (writeObjects offset true fuel deferreds s).scene.parentStackId.length Op.closeParent)
        (writeObjects offset true fuel deferreds s).scene).status = Status.ok
    · rw [Outcome.andThen_of_ok hok2]
      obtain ⟨wl, wr⟩ := cw hok2
      have hids := (runOps_closeParent_parentStackId _ _ hok2).2
      rw [Nat.sub_self, List.take_zero] at hids
      have hnodes : (runOps (List.replicate
          (writeObjects offset true fuel deferreds s).scene.parentStackId.length Op.closeParent)
          (writeObjects offset true fuel deferreds s).scene).scene.parentNodes = [] := by
        apply List.length_eq_zero.mp
        rw [wl, hids]; rfl
      obtain ⟨s1, s2, s3⟩ := sceneWrite_spec (runOps (List.replicate
          (writeObjects offset true fuel deferreds s).scene.parentStackId.length Op.closeParent)
          (writeObjects offset true fuel deferreds s).scene).scene
      refine ⟨Or.inl rfl, fun _ => ⟨by rw [s2, hids], by rw [s1, hnodes], ?_⟩, fun _ _ => rfl⟩
      rw [s3, wr, hnodes]
    · rw [Outcome.andThen_of_ne_ok hok2]
      refine ⟨cb, fun h' => absurd h' hok2, fun hal hI => ?_⟩
      exact absurd (runOps_closeParent_aligned _ _ (ha hal hI).2 (Nat.le_refl _)).1 hok2
  · rw [Outcome.andThen_of_ne_ok hok]
    refine ⟨hb, fun h' => absurd h' hok, fun hal hI => ?_⟩
    exact absurd (ha hal hI).1 hok

/-- C10: for every list of deferred objects that each have at least one parent, the
scene part of `endDocument`, run from the initial state with a budget of three
iterations more than the longest parent list, either returns or stops at an empty
`matrixStack`: `closeParent` is never called with an empty node or id stack, no
`parents.at(i)` is out of range and no loop runs on. When it returns, the id stack
and the node stack are empty and the `nodeStart` and `nodeEnd` events written are
well nested, each started node being ended once; it returns when every parent
has an invertible matrix. -/
theorem endDocument_well_nested (offset : Fin 3 → ℚ) (deferreds : List DeferredObject)
    (fuel : Nat) (hpar : ∀ d ∈ deferreds, d.parents ≠ [])
    (hfuel : ∀ d ∈ deferreds, d.parents.length + 3 ≤ fuel) :
    ((endDocument offset true fuel deferreds Scene.initial).status = Status.ok ∨
      (endDocument offset true fuel deferreds Scene.initial).status
        = Status.fault Fault.emptyMatrixStack) ∧
    (endDocument offset true fuel deferreds Scene.initial).status
      ≠ Status.fault Fault.emptyParentNodes ∧
    (endDocument offset true fuel deferreds Scene.initial).status
      ≠ Status.fault Fault.emptyParentStackId ∧
    (endDocument offset true fuel deferreds Scene.initial).status
      ≠ Status.fault Fault.outOfRange ∧
    (endDocument offset true fuel deferreds Scene.initial).status ≠ Status.outOfFuel ∧
    ((endDocument offset true fuel deferreds Scene.initial).status = Status.ok →
      (endDocument offset true fuel deferreds Scene.initial).scene.parentStackId = [] ∧
      (endDocument offset true fuel deferreds Scene.initial).scene.parentNodes = [] ∧
      replay (endDocument offset true fuel deferreds Scene.initial).scene.written = some [] ∧
      opens (endDocument offset true fuel deferreds Scene.initial).scene
        = closes (endDocument offset true fuel deferreds Scene.initial).scene) ∧
    ((∀ d ∈ deferreds, AllInvertible d.parents) →
      (endDocument offset true fuel deferreds Scene.initial).status = Status.ok) := by
  have hinit : Scene.initial.WellNested := ⟨rfl, rfl⟩
  have hal : Scene.initial.Aligned := ⟨rfl, rfl⟩
  cases deferreds with
  | nil =>
    have e : endDocument offset true fuel [] Scene.initial = ⟨Status.ok, Scene.initial⟩ := by
      cases fuel <;> rfl
    rw [e]
    simp [Scene.initial, replay, opens, closes]
  | cons it rest =>
    have h3 : Scene.initial.parentStackId.length + 3 ≤ fuel := by
      have := hfuel it (List.mem_cons_self _ _)
      have h0 : Scene.initial.parentStackId.length = 0 := rfl
      omega
    obtain ⟨hb, hw, ha⟩ := endDocument_of_wellNested offset (it :: rest) fuel Scene.initial
      hpar hfuel h3 hinit
    obtain ⟨n1, n2, n3, n4⟩ := hb.status_ne
    refine ⟨hb, n1, n2, n3, n4, fun hok => ?_, fun hI => ha hal hI⟩
    obtain ⟨w1, w2, w3⟩ := hw hok
    refine ⟨w1, w2, w3, ?_⟩
    have := replay_counts _ _ w3
    simpa [opens, closes] using this

/-- C10 (witness): two objects, the first below the parents 1 and 2, the second
below the parents 1 and 3. -/
theorem endDocument_well_nested_witness :
    ((∀ d ∈ [(⟨"a", "ga", identityBuffer, [unitElement 1, unitElement 2]⟩ : DeferredObject),
        ⟨"b", "gb", identityBuffer, [unitElement 1, unitElement 3]⟩], d.parents ≠ []) ∧
      (∀ d ∈ [(⟨"a", "ga", identityBuffer, [unitElement 1, unitElement 2]⟩ : DeferredObject),
        ⟨"b", "gb", identityBuffer, [unitElement 1, unitElement 3]⟩],
        d.parents.length + 3 ≤ 5)) ∧
    (endDocument (fun _ => 0) true 5
      [⟨"a", "ga", identityBuffer, [unitElement 1, unitElement 2]⟩,
        ⟨"b", "gb", identityBuffer, [unitElement 1, unitElement 3]⟩] Scene.initial).status
      = Status.ok ∧
    (endDocument (fun _ => 0) true 5
      [⟨"a", "ga", identityBuffer, [unitElement 1, unitElement 2]⟩,
        ⟨"b", "gb", identityBuffer, [unitElement 1, unitElement 3]⟩] Scene.initial).scene.parentStackId
      = [] ∧
    opens (endDocument (fun _ => 0) true 5
      [⟨"a", "ga", identityBuffer, [unitElement 1, unitElement 2]⟩,
        ⟨"b", "gb", identityBuffer, [unitElement 1, unitElement 3]⟩] Scene.initial).scene = 3 ∧
    closes (endDocument (fun _ => 0) true 5
      [⟨"a", "ga", identityBuffer, [unitElement 1, unitElement 2]⟩,
        ⟨"b", "gb", identityBuffer, [unitElement 1, unitElement 3]⟩] Scene.initial).scene = 3 :=
  ⟨⟨by simp, by simp [unitElement]⟩,
    (endDocument_well_nested (fun _ => 0)
      [⟨"a", "ga", identityBuffer, [unitElement 1, unitElement 2]⟩,
        ⟨"b", "gb", identityBuffer, [unitElement 1, unitElement 3]⟩] 5
      (by simp) (by simp)).2.2.2.2.2.2 (by simp [AllInvertible]; decide!),
    by decide!, by decide!, by decide!⟩

/-! ### States that track the open elements -/

theorem Scene.Tracks.lengths {s : Scene} {es : List Element} (h : s.Tracks es) :
    s.parentNodes.length = es.length ∧ s.parentStackId.length = es.length ∧
    s.matrixStack.length = es.length := by
  obtain ⟨h1, h2, h3⟩ := h
  exact ⟨h1.length_eq, by rw [h2]; simp, by rw [h3]; simp⟩

theorem Scene.Tracks.aligned {s : Scene} {es : List Element} (h : s.Tracks es) : s.Aligned := by
  obtain ⟨l1, l2, l3⟩ := h.lengths
  exact ⟨by rw [l1, l2], by rw [l3, l2]⟩

theorem forall₂_dropLast {α β : Type} {R : α → β → Prop} {l₁ : List α} {l₂ : List β}
    (h : List.Forall₂ R l₁ l₂) : List.Forall₂ R l₁.dropLast l₂.dropLast := by
  rw [List.dropLast_eq_take, List.dropLast_eq_take, h.length_eq]
  exact List.forall₂_take _ h

theorem closeParent_tracks (s : Scene) (es : List Element) (h : s.Tracks es)
    (hok : (closeParent s).status = Status.ok) : (closeParent s).scene.Tracks es.dropLast := by
  obtain ⟨h1, h2, h3⟩ := h
  refine ⟨?_, ?_, ?_⟩
  · rw [closeParent_parentNodes]; exact forall₂_dropLast h1
  · rw [closeParent_parentStackId, if_pos hok, h2, List.map_dropLast]
  · rw [closeParent_matrixStack_of_ok s hok, h3, List.map_dropLast]

theorem addParent_tracks (s : Scene) (es : List Element) (p : Element) (h : s.Tracks es)
    (hp : det (expand p.matrix) ≠ 0) :
    (addParent s p).status = Status.ok ∧ (addParent s p).scene.Tracks (es ++ [p]) := by
  have hok := addParent_status_of_aligned s p h.aligned
  obtain ⟨h1, h2, h3⟩ := h
  obtain ⟨e1, e2, e3, _⟩ := addParent_of_ok s p hok
  rw [if_pos hp] at e3
  refine ⟨hok, ?_, ?_, ?_⟩
  · rw [e2]
    exact List.rel_append h1 (List.Forall₂.cons ⟨_, rfl⟩ List.Forall₂.nil)
  · rw [e1, h2]; simp
  · rw [e3, h3]; simp

/-- Calls that return keep track of the open elements, as long as every parent that
is opened has `det != 0`. -/
theorem runOps_tracks (ops : List Op) :
    ∀ (s : Scene) (es : List Element), s.Tracks es →
      (∀ p, Op.addParent p ∈ ops → det (expand p.matrix) ≠ 0) →
      (runOps ops s).status = Status.ok → (runOps ops s).scene.Tracks (openElements ops es) := by
  induction ops with
  | nil => intro s es h _ _; exact h
  | cons op ops ih =>
    intro s es h hinv hok
    cases op with
    | closeParent =>
      simp only [runOps, openElements] at hok ⊢
      by_cases hc : (closeParent s).status = Status.ok
      · rw [Outcome.andThen_of_ok hc] at hok ⊢
        exact ih _ _ (closeParent_tracks s es h hc)
          (fun p hp => hinv p (List.mem_cons_of_mem _ hp)) hok
      · rw [Outcome.andThen_of_ne_ok hc] at hok
        exact absurd hok hc
    | addParent p =>
      simp only [runOps, openElements] at hok ⊢
      obtain ⟨hc, ht⟩ := addParent_tracks s es p h (hinv p (List.mem_cons_self _ _))
      rw [Outcome.andThen_of_ok hc] at hok ⊢
      exact ih _ _ ht (fun q hq => hinv q (List.mem_cons_of_mem _ hq)) hok

theorem tracks_nil_of_empty (s : Scene) (h1 : s.parentNodes = []) (h2 : s.matrixStack = [])
    (h3 : s.parentStackId = []) : s.Tracks [] := by
  refine ⟨?_, ?_, ?_⟩
  · rw [h1]; exact List.Forall₂.nil
  · rw [h3]; rfl
  · rw [h2]; rfl

theorem mem_openElements (ops : List Op) :
    ∀ (es : List Element) (e : Element), e ∈ openElements ops es →
      e ∈ es ∨ Op.addParent e ∈ ops := by
  induction ops with
  | nil => intro es e h; exact Or.inl h
  | cons op ops ih =>
    intro es e h
    cases op with
    | closeParent =>
      rcases ih _ e h with h1 | h1
      · exact Or.inl (List.mem_of_mem_dropLast h1)
      · exact Or.inr (List.mem_cons_of_mem _ h1)
    | addParent p =>
      rcases ih _ e h with h1 | h1
      · rcases List.mem_append.mp h1 with h2 | h2
        · exact Or.inl h2
        · rw [List.mem_singleton] at h2
          subst h2
          exact Or.inr (List.mem_cons_self _ _)
      · exact Or.inr (List.mem_cons_of_mem _ h1)

/-- C14 (counterexample): one `addParent` from the initial state, for a parent with
a zero buffer, returns with one node on the node stack and none on `matrixStack`. -/
theorem addParent_flat_not_parallel :
    (runOps [Op.addParent (flatElement 1)] Scene.initial).status = Status.ok ∧
    (runOps [Op.addParent (flatElement 1)] Scene.initial).scene.parentNodes.length = 1 ∧
    (runOps [Op.addParent (flatElement 1)] Scene.initial).scene.parentStackId = [1] ∧
    (runOps [Op.addParent (flatElement 1)] Scene.initial).scene.matrixStack.length = 0 := by
  decide!

/-- C14 (amended): in every state reached from empty stacks by calls of `closeParent`
and of `addParent` for parents whose matrices are invertible, all of which
returned, `matrixStack` is parallel to the node stack and the id stack: the three
have the same length, node `i` and id `i` are those of the `i`-th open element, and
entry `i` of `matrixStack` is the inverse of the matrix of that element. -/
theorem runOps_stacks_parallel (ops : List Op) (s : Scene)
    (h1 : s.parentNodes = []) (h2 : s.matrixStack = []) (h3 : s.parentStackId = [])
    (hinv : ∀ p, Op.addParent p ∈ ops → Matrix.det (expand p.matrix) ≠ 0)
    (hok : (runOps ops s).status = Status.ok) :
    (runOps ops s).scene.matrixStack.length = (runOps ops s).scene.parentNodes.length ∧
    (runOps ops s).scene.parentStackId.length = (runOps ops s).scene.parentNodes.length ∧
    List.Forall₂ IsNodeOf (runOps ops s).scene.parentNodes (openElements ops []) ∧
    (runOps ops s).scene.parentStackId = (openElements ops []).map Element.id ∧
    (runOps ops s).scene.matrixStack =
      (openElements ops []).map fun e => (expand e.matrix)⁻¹ := by
  have hinv' : ∀ p, Op.addParent p ∈ ops → det (expand p.matrix) ≠ 0 := by
    intro p hp
    rw [det_eq_det]
    exact hinv p hp
  have ht := runOps_tracks ops s [] (tracks_nil_of_empty s h1 h2 h3) hinv' hok
  obtain ⟨l1, l2, l3⟩ := ht.lengths
  obtain ⟨t1, t2, t3⟩ := ht
  refine ⟨by rw [l3, l1], by rw [l2, l1], t1, t2, ?_⟩
  rw [t3]
  apply List.map_congr_left
  intro e he
  rcases mem_openElements ops [] e he with h | h
  · simp at h
  · exact inverse_eq_inv _ (hinv' e h)

/-- C14 (witness): the parents 1 and 2 are opened, 2 is closed and 3 is opened. -/
theorem runOps_stacks_parallel_witness :
    (Scene.initial.parentNodes = [] ∧ Scene.initial.matrixStack = [] ∧
      Scene.initial.parentStackId = [] ∧
      (∀ p, Op.addParent p ∈ [Op.addParent (unitElement 1), Op.addParent (movedElement 2 0 2 0),
          Op.closeParent, Op.addParent (unitElement 3)] →
        Matrix.det (expand p.matrix) ≠ 0) ∧
      (runOps [Op.addParent (unitElement 1), Op.addParent (movedElement 2 0 2 0),
        Op.closeParent, Op.addParent (unitElement 3)] Scene.initial).status = Status.ok) ∧
    (runOps [Op.addParent (unitElement 1), Op.addParent (movedElement 2 0 2 0),
      Op.closeParent, Op.addParent (unitElement 3)] Scene.initial).scene.matrixStack =
      (openElements [Op.addParent (unitElement 1), Op.addParent (movedElement 2 0 2 0),
        Op.closeParent, Op.addParent (unitElement 3)] []).map fun e => (expand e.matrix)⁻¹ :=
  have hinv : ∀ p, Op.addParent p ∈ [Op.addParent (unitElement 1),
      Op.addParent (movedElement 2 0 2 0), Op.closeParent, Op.addParent (unitElement 3)] →
      Matrix.det (expand p.matrix) ≠ 0 := by
    intro p hp
    simp only [List.mem_cons, Op.addParent.injEq, List.mem_singleton, reduceCtorEq, false_or,
      List.not_mem_nil, or_false] at hp
    rw [← det_eq_det]
    rcases hp with rfl | rfl | rfl <;> decide!
  ⟨⟨rfl, rfl, rfl, hinv, by decide!⟩,
    (runOps_stacks_parallel _ Scene.initial rfl rfl rfl hinv (by decide!)).2.2.2.2⟩

/-- In a state that tracks the open elements, the matrix attached to a new parent
is its own expanded matrix when nothing is open, and otherwise that matrix times
the inverse of the innermost open element's matrix. -/
theorem placement_of_tracks (s : Scene) (es : List Element) (p : Element) (h : s.Tracks es) :
    placement s p =
      match es.getLast? with
      | none => expand p.matrix
      | some B => expand p.matrix * inverse (expand B.matrix) := by
  obtain ⟨l1, _, _⟩ := h.lengths
  obtain ⟨_, _, h3⟩ := h
  unfold placement
  rw [relativePlacement_matrix]
  simp only [openScene_parentNodes, openScene_matrixStack]
  rcases List.eq_nil_or_concat es with rfl | ⟨es', B, rfl⟩
  · have hn : s.parentNodes = [] := List.length_eq_zero.mp (by rw [l1]; rfl)
    simp [hn]
  · have hn : s.parentNodes ≠ [] := by
      apply List.ne_nil_of_length_pos
      rw [l1]; simp
    rw [List.getLast?_eq_getLast _ hn, h3]
    simp [multiply_eq_mul]

/-- C13 (the code at the failing input): the parents 1 and 2, both with invertible
matrices, are open after a parent with a zero buffer was opened below them and
closed again; `closeParent` popped the inverse of 2 for it, so that the matrix
attached to the next parent opened below 2 is its expanded matrix times the
inverse of the matrix of 1, not of 2, the innermost open parent. -/
theorem addParent_after_flat_sibling :
    (runOps [Op.addParent (movedElement 1 1 0 0), Op.addParent (movedElement 2 0 2 0),
      Op.addParent (flatElement 3), Op.closeParent] Scene.initial).status = Status.ok ∧
    afterFlatSibling.parentStackId = [1, 2] ∧
    afterFlatSibling.parentNodes.length = 2 ∧
    afterFlatSibling.matrixStack.length = 1 ∧
    det (expand (movedElement 2 0 2 0).matrix) ≠ 0 ∧
    (addParent afterFlatSibling (movedElement 4 0 0 3)).status = Status.ok ∧
    (addParent afterFlatSibling (movedElement 4 0 0 3)).scene.parentNodes.getLast? =
      some (parentNode (movedElement 4 0 0 3) (placement afterFlatSibling (movedElement 4 0 0 3))) ∧
    placement afterFlatSibling (movedElement 4 0 0 3) =
      multiply (expand (movedElement 4 0 0 3).matrix) (inverse (expand (movedElement 1 1 0 0).matrix)) ∧
    placement afterFlatSibling (movedElement 4 0 0 3) ≠
      multiply (expand (movedElement 4 0 0 3).matrix) (inverse (expand (movedElement 2 0 2 0).matrix)) := by
  decide!

/-- C11 (counterexample): the parent 1, placed at `(1, 0, 0)`, is opened from the
initial state, so the matrix recorded on its node is its expanded matrix; for a
leaf placed at `(5, 5, 5)` and a zero offset, `add` writes the leaf's matrix times
the inverse of that matrix, with the translation `(4, 5, 5)`, and not the product
with the recorded matrix, whose translation is `(6, 5, 5)`. -/
theorem add_not_relative_to_recorded :
    (addParent Scene.initial (movedElement 1 1 0 0)).status = Status.ok ∧
    (addParent Scene.initial (movedElement 1 1 0 0)).scene.parentNodes =
      [parentNode (movedElement 1 1 0 0) (placement Scene.initial (movedElement 1 1 0 0))] ∧
    placement Scene.initial (movedElement 1 1 0 0) = expand (movedElement 1 1 0 0).matrix ∧
    (add (fun _ => 0) (addParent Scene.initial (movedElement 1 1 0 0)).scene "L" "L" "G"
      ![1, 0, 0, 0, 1, 0, 0, 0, 1, 5, 5, 5]).status = Status.ok ∧
    lastGeometryMatrix (add (fun _ => 0) (addParent Scene.initial (movedElement 1 1 0 0)).scene
      "L" "L" "G" ![1, 0, 0, 0, 1, 0, 0, 0, 1, 5, 5, 5]).scene
      = expand ![1, 0, 0, 0, 1, 0, 0, 0, 1, 4, 5, 5] ∧
    multiply (expand ![1, 0, 0, 0, 1, 0, 0, 0, 1, 5, 5, 5])
        (placement Scene.initial (movedElement 1 1 0 0))
      = expand ![1, 0, 0, 0, 1, 0, 0, 0, 1, 6, 5, 5] ∧
    lastGeometryMatrix (add (fun _ => 0) (addParent Scene.initial (movedElement 1 1 0 0)).scene
      "L" "L" "G" ![1, 0, 0, 0, 1, 0, 0, 0, 1, 5, 5, 5]).scene
      ≠ multiply (expand ![1, 0, 0, 0, 1, 0, 0, 0, 1, 5, 5, 5])
        (placement Scene.initial (movedElement 1 1 0 0)) := by
  decide!

/-- C11 (amended): in a state reached from empty stacks by calls of `closeParent` and
of `addParent` for parents with invertible matrices, all of which returned, and in
which the element `B` is the innermost open one, `add` returns and the matrix of the
geometry node it writes is the leaf's expanded matrix times the inverse of the
absolute matrix of `B`, which is the top of `matrixStack`, with the offset added to
the first three entries of column 3. -/
theorem add_relative_to_inverse (offset : Fin 3 → ℚ) (ops : List Op) (s : Scene) (B : Element)
    (node_id node_name geom_name : String) (L : Buffer)
    (h1 : s.parentNodes = []) (h2 : s.matrixStack = []) (h3 : s.parentStackId = [])
    (hinv : ∀ p, Op.addParent p ∈ ops → Matrix.det (expand p.matrix) ≠ 0)
    (hok : (runOps ops s).status = Status.ok)
    (hB : (openElements ops []).getLast? = some B) :
    (runOps ops s).scene.matrixStack.getLast? = some (expand B.matrix)⁻¹ ∧
    (add offset (runOps ops s).scene node_id node_name geom_name L).status = Status.ok ∧
    (add offset (runOps ops s).scene node_id node_name geom_name L).scene.written.getLast? =
      some (Event.geometry
        { nodeId := node_id, nodeName := node_name,
          matrix := addOffset offset (expand L * (expand B.matrix)⁻¹) } ("#" ++ geom_name)) ∧
    addOffset offset (expand L * (expand B.matrix)⁻¹) 0 3 =
      (expand L * (expand B.matrix)⁻¹) 0 3 + offset 0 ∧
    addOffset offset (expand L * (expand B.matrix)⁻¹) 1 3 =
      (expand L * (expand B.matrix)⁻¹) 1 3 + offset 1 ∧
    addOffset offset (expand L * (expand B.matrix)⁻¹) 2 3 =
      (expand L * (expand B.matrix)⁻¹) 2 3 + offset 2 ∧
    (∀ i j, ¬ (j = 3 ∧ i ≠ 3) → addOffset offset (expand L * (expand B.matrix)⁻¹) i j =
      (expand L * (expand B.matrix)⁻¹) i j) := by
  obtain ⟨_, _, t1, _, t3⟩ := runOps_stacks_parallel ops s h1 h2 h3 hinv hok
  have hne : openElements ops [] ≠ [] := by
    intro h0; rw [h0] at hB; simp at hB
  have hnodes : (runOps ops s).scene.parentNodes ≠ [] := by
    apply List.ne_nil_of_length_pos
    rw [t1.length_eq]
    exact List.length_pos.mpr hne
  have htop : (runOps ops s).scene.matrixStack.getLast? = some (expand B.matrix)⁻¹ := by
    rw [t3, List.getLast?_map, hB]; rfl
  obtain ⟨c1, c2⟩ := add_of_top offset _ node_id node_name geom_name L _ hnodes htop
  refine ⟨htop, c1, by rw [c2]; simp, ?_, ?_, ?_, ?_⟩
  · simp [addOffset]
  · simp [addOffset]
  · simp [addOffset]
  · intro i j hij
    simp only [addOffset, Matrix.of_apply]
    by_cases hj : j = 3
    · have hi : i = 3 := by
        by_contra hi
        exact hij ⟨hj, hi⟩
      subst hj hi
      simp
    · simp [hj]

/-- C11 (witness): the parents 1, placed at `(1, 0, 0)`, and 2, placed at `(0, 2, 0)`,
are opened from the initial state. -/
theorem add_relative_to_inverse_witness :
    (Scene.initial.parentNodes = [] ∧ Scene.initial.matrixStack = [] ∧
      Scene.initial.parentStackId = [] ∧
      (∀ p, Op.addParent p ∈ [Op.addParent (movedElement 1 1 0 0),
          Op.addParent (movedElement 2 0 2 0)] → Matrix.det (expand p.matrix) ≠ 0) ∧
      (runOps [Op.addParent (movedElement 1 1 0 0), Op.addParent (movedElement 2 0 2 0)]
        Scene.initial).status = Status.ok ∧
      (openElements [Op.addParent (movedElement 1 1 0 0), Op.addParent (movedElement 2 0 2 0)]
        []).getLast? = some (movedElement 2 0 2 0)) ∧
    (add ![10, 20, 30] (runOps [Op.addParent (movedElement 1 1 0 0),
        Op.addParent (movedElement 2 0 2 0)] Scene.initial).scene "L" "L" "G"
        ![1, 0, 0, 0, 1, 0, 0, 0, 1, 5, 5, 5]).scene.written.getLast? =
      some (Event.geometry
        { nodeId := "L", nodeName := "L",
          matrix := addOffset ![10, 20, 30] (expand ![1, 0, 0, 0, 1, 0, 0, 0, 1, 5, 5, 5] *
            (expand (movedElement 2 0 2 0).matrix)⁻¹) } ("#" ++ "G")) :=
  have hinv : ∀ p, Op.addParent p ∈ [Op.addParent (movedElement 1 1 0 0),
      Op.addParent (movedElement 2 0 2 0)] → Matrix.det (expand p.matrix) ≠ 0 := by
    intro p hp
    simp only [List.mem_cons, Op.addParent.injEq, List.mem_singleton, List.not_mem_nil,
      or_false] at hp
    rw [← det_eq_det]
    rcases hp with rfl | rfl <;> decide!
  ⟨⟨rfl, rfl, rfl, hinv, by decide!, rfl⟩,
    (add_relative_to_inverse ![10, 20, 30] _ Scene.initial (movedElement 2 0 2 0) "L" "L" "G"
      ![1, 0, 0, 0, 1, 0, 0, 0, 1, 5, 5, 5] rfl rfl rfl hinv (by decide!) rfl).2.2.1⟩

/-! ### The exact trace of the reconciliation loop -/

theorem openScene_nodeEvents (s : Scene) :
    nodeEvents (openScene s).written = nodeEvents s.written := by
  unfold openScene
  split
  · rfl
  · simp [nodeEvents, List.filter_append]

theorem nodeEvents_append (a b : List Event) :
    nodeEvents (a ++ b) = nodeEvents a ++ nodeEvents b := by
  simp [nodeEvents, List.filter_append]

theorem nodeEvents_map_nodeEnd (l : List Node) :
    nodeEvents (l.map Event.nodeEnd) = l.map Event.nodeEnd := by
  induction l with
  | nil => rfl
  | cons n l ih =>
    simp only [nodeEvents, List.map_cons] at ih ⊢
    rw [List.filter_cons_of_pos (by rfl), ih]

theorem runOps_closeParent_trace (c : Nat) :
    ∀ s : Scene, (runOps (List.replicate c Op.closeParent) s).status = Status.ok →
      c ≤ s.parentNodes.length ∧
      (runOps (List.replicate c Op.closeParent) s).scene.parentNodes =
        s.parentNodes.take (s.parentNodes.length - c) ∧
      (runOps (List.replicate c Op.closeParent) s).scene.written =
        s.written ++ ((s.parentNodes.drop (s.parentNodes.length - c)).reverse.map Event.nodeEnd) := by
  induction c with
  | zero => intro s _; simp [runOps]
  | succ c ih =>
    intro s h
    simp only [List.replicate_succ, runOps] at h ⊢
    by_cases hp : (closeParent s).status = Status.ok
    · rw [Outcome.andThen_of_ok hp] at h ⊢
      obtain ⟨hc, hn, hw⟩ := ih _ h
      obtain ⟨n, hlast, hw1⟩ := closeParent_written_of_ok s hp
      have hnodes := closeParent_parentNodes s
      have hne : s.parentNodes ≠ [] := ((closeParent_status_ok_iff s).mp hp).1
      have hpos : 0 < s.parentNodes.length := List.length_pos.mpr hne
      have hsplit : s.parentNodes = s.parentNodes.dropLast ++ [n] :=
        (List.dropLast_append_getLast? n hlast).symm
      rw [hnodes, List.length_dropLast] at hc hn hw
      refine ⟨by omega, ?_, ?_⟩
      · rw [hn, take_dropLast_of_lt _ _ (by omega)]
        congr 1
        omega
      · rw [hw, hw1]
        have e : s.parentNodes.length - (c + 1) = s.parentNodes.length - 1 - c := by omega
        rw [e]
        have hd : s.parentNodes.drop (s.parentNodes.length - 1 - c) =
            s.parentNodes.dropLast.drop (s.parentNodes.length - 1 - c) ++ [n] := by
          have hgen : (s.parentNodes.dropLast ++ [n]).drop (s.parentNodes.length - 1 - c) =
              s.parentNodes.dropLast.drop (s.parentNodes.length - 1 - c) ++ [n] :=
            List.drop_append_of_le_length (by rw [List.length_dropLast]; omega)
          rw [← hsplit] at hgen
          exact hgen
        rw [hd]
        simp
    · rw [Outcome.andThen_of_ne_ok hp] at h
      exact absurd h hp

theorem runOps_addParent_trace (L : List Element) :
    ∀ s : Scene, (runOps (L.map Op.addParent) s).status = Status.ok →
      ∃ new : List Node,
        (runOps (L.map Op.addParent) s).scene.parentNodes = s.parentNodes ++ new ∧
        List.Forall₂ IsNodeOf new L ∧
        nodeEvents (runOps (L.map Op.addParent) s).scene.written =
          nodeEvents s.written ++ new.map Event.nodeStart := by
  induction L with
  | nil =>
    intro s _
    exact ⟨[], by simp [runOps], List.Forall₂.nil, by simp [runOps]⟩
  | cons p L ih =>
    intro s h
    simp only [List.map_cons, runOps] at h ⊢
    by_cases hp : (addParent s p).status = Status.ok
    · rw [Outcome.andThen_of_ok hp] at h ⊢
      obtain ⟨new, hn, hf, hw⟩ := ih _ h
      obtain ⟨_, e2, _, e4⟩ := addParent_of_ok s p hp
      refine ⟨parentNode p (placement s p) :: new, ?_, List.Forall₂.cons ⟨_, rfl⟩ hf, ?_⟩
      · rw [hn, e2]; simp
      · rw [hw, e4]
        have := openScene_nodeEvents s
        simp only [nodeEvents, List.filter_append, List.map_cons] at this ⊢
        rw [this]
        simp
    · rw [Outcome.andThen_of_ne_ok hp] at h
      exact absurd h hp

theorem plan_parentStackId_of_treePaths (s : Scene) (P : List Element)
    (htree : TreePaths s.parentStackId (P.map Element.id))
    (hok : (runOps (plan s.parentStackId P) s).status = Status.ok) :
    (runOps (plan s.parentStackId P) s).scene.parentStackId = P.map Element.id := by
  simp only [plan] at hok ⊢
  obtain ⟨_, _, _, hids⟩ := (runOps_general _ _ s).2.2.2.2.1 hok
  rw [hids]
  have hj := matchDepth_le s.parentStackId (P.map Element.id)
    (min s.parentStackId.length P.length)
  have hmin : min s.parentStackId.length P.length =
      min s.parentStackId.length (P.map Element.id).length := by simp
  have ht := take_matchDepth_of_treePaths _ _ htree
    (min s.parentStackId.length P.length) (by rw [hmin])
  have e : s.parentStackId.length - (s.parentStackId.length -
      matchDepth s.parentStackId (P.map Element.id) (min s.parentStackId.length P.length)) =
      matchDepth s.parentStackId (P.map Element.id) (min s.parentStackId.length P.length) := by
    have := Nat.min_le_left s.parentStackId.length P.length
    omega
  rw [e, ht, List.map_drop, List.take_append_drop]

/-- C16: for an id stack `S` of length `m` and a non-empty parent list `P` that are
paths of one tree, with `k` the length of their longest common prefix, the loop of
`endDocument` ends within `m + 3` iterations, and when it returns the id stack is
the id sequence of `P`, the `m - k` topmost nodes have been ended, innermost first,
and after that one node has been started for each parent of `P` from depth `k` on,
in order, on top of the nodes that were kept; no other node was ended or started.
The loop returns when the three stacks are parallel and the matrices of `P` are
invertible. -/
theorem reconcile_trace_of_treePaths (s : Scene) (P : List Element) (fuel : Nat)
    (hP : P ≠ []) (htree : TreePaths s.parentStackId (P.map Element.id))
    (hfuel : s.parentStackId.length + 3 ≤ fuel) :
    (reconcile P fuel s).status ≠ Status.outOfFuel ∧
    ((reconcile P fuel s).status = Status.ok →
      (reconcile P fuel s).scene.parentStackId = P.map Element.id ∧
      ∃ new : List Node,
        List.Forall₂ IsNodeOf new
          (P.drop (commonPrefixLen s.parentStackId (P.map Element.id))) ∧
        (reconcile P fuel s).scene.parentNodes =
          s.parentNodes.take (s.parentNodes.length -
            (s.parentStackId.length - commonPrefixLen s.parentStackId (P.map Element.id)))
          ++ new ∧
        nodeEvents (reconcile P fuel s).scene.written =
          nodeEvents s.written ++
          ((s.parentNodes.drop (s.parentNodes.length -
            (s.parentStackId.length - commonPrefixLen s.parentStackId (P.map Element.id)))
            ).reverse.map Event.nodeEnd) ++
          new.map Event.nodeStart) ∧
    (s.Aligned → AllInvertible P → (reconcile P fuel s).status = Status.ok) := by
  have hmin : min s.parentStackId.length P.length =
      min s.parentStackId.length (P.map Element.id).length := by simp
  have hj := matchDepth_eq_commonPrefixLen _ _ htree
  rw [← hmin] at hj
  have haligned := fun (h : s.Aligned) (hI : AllInvertible P) =>
    (reconcile_of_aligned P hP s fuel hfuel h hI).1
  have hids := plan_parentStackId_of_treePaths s P htree
  rw [reconcile_eq_runOps P hP s fuel hfuel] at haligned ⊢
  simp only [plan, hj] at haligned hids ⊢
  refine ⟨(runOps_general _ _ s).1, fun hok => ⟨hids hok, ?_⟩, haligned⟩
  rw [runOps_append] at hok ⊢
  by_cases hc : (runOps (List.replicate (s.parentStackId.length -
      commonPrefixLen s.parentStackId (P.map Element.id)) Op.closeParent) s).status = Status.ok
  · rw [Outcome.andThen_of_ok hc] at hok ⊢
    obtain ⟨_, cn, cw⟩ := runOps_closeParent_trace _ s hc
    obtain ⟨new, an, af, aw⟩ := runOps_addParent_trace _ _ hok
    refine ⟨new, af, by rw [an, cn], ?_⟩
    rw [aw, cw, nodeEvents_append, nodeEvents_map_nodeEnd]
  · rw [Outcome.andThen_of_ne_ok hc] at hok
    exact absurd hok hc

/-- C16 (witness): the parents 1, 2, 3 are open and the next object has the parents
1 and 4: the nodes of 3 and 2 are ended, then a node for 4 is started. -/
theorem reconcile_trace_of_treePaths_witness :
    ([unitElement 1, unitElement 4] ≠ [] ∧
      TreePaths (opened [1, 2, 3]).parentStackId ([unitElement 1, unitElement 4].map Element.id) ∧
      (opened [1, 2, 3]).parentStackId.length + 3 ≤ 6) ∧
    ((reconcile [unitElement 1, unitElement 4] 6 (opened [1, 2, 3])).scene.parentStackId =
        [unitElement 1, unitElement 4].map Element.id ∧
      ∃ new : List Node,
        List.Forall₂ IsNodeOf new
          ([unitElement 1, unitElement 4].drop (commonPrefixLen (opened [1, 2, 3]).parentStackId
            ([unitElement 1, unitElement 4].map Element.id))) ∧
        (reconcile [unitElement 1, unitElement 4] 6 (opened [1, 2, 3])).scene.parentNodes =
          (opened [1, 2, 3]).parentNodes.take ((opened [1, 2, 3]).parentNodes.length -
            ((opened [1, 2, 3]).parentStackId.length -
              commonPrefixLen (opened [1, 2, 3]).parentStackId
                ([unitElement 1, unitElement 4].map Element.id)))
          ++ new ∧
        nodeEvents (reconcile [unitElement 1, unitElement 4] 6 (opened [1, 2, 3])).scene.written =
          nodeEvents (opened [1, 2, 3]).written ++
          (((opened [1, 2, 3]).parentNodes.drop ((opened [1, 2, 3]).parentNodes.length -
            ((opened [1, 2, 3]).parentStackId.length -
              commonPrefixLen (opened [1, 2, 3]).parentStackId
                ([unitElement 1, unitElement 4].map Element.id)))
            ).reverse.map Event.nodeEnd) ++
          new.map Event.nodeStart) ∧
    (commonPrefixLen (opened [1, 2, 3]).parentStackId
        ([unitElement 1, unitElement 4].map Element.id) = 1 ∧
      closes (reconcile [unitElement 1, unitElement 4] 6 (opened [1, 2, 3])).scene
        = closes (opened [1, 2, 3]) + 2 ∧
      opens (reconcile [unitElement 1, unitElement 4] 6 (opened [1, 2, 3])).scene
        = opens (opened [1, 2, 3]) + 1) :=
  ⟨⟨by simp, by decide!, by decide!⟩,
    (reconcile_trace_of_treePaths (opened [1, 2, 3]) [unitElement 1, unitElement 4] 6
      (by simp) (by decide!) (by decide!)).2.1 (by decide!),
    by decide!⟩

/-! ### The triangle groups of `ColladaGeometries::write` -/

/-- Once a run of `c ≥ 1` triangles with the material `prev` is pending, the loop
writes the groups of `runsFrom` and leaves through `break`. -/
theorem writeTriangles_eq_runsFrom (materialName : Int → String) (faces material_ids : List Int)
    (hf : faces ≠ []) :
    ∀ (rest : List Int) (fuel it start material_it : Nat) (prev : Int) (c : Nat)
      (out : List Triangles),
      0 < c → it = start + 3 * c → material_ids.drop material_it = rest →
      faces.length = it + 3 * rest.length → rest.length + 1 ≤ fuel →
      writeTriangles materialName faces material_ids fuel
        { it := it, index_range_start := start, material_it := material_it,
          previous_material_id := prev, out := out } =
        (WriteStatus.done, out ++ runsFrom materialName faces start prev c rest) := by
  intro rest
  induction rest with
  | nil =>
    intro fuel it start material_it prev c out hc hit hdrop hlen hfuel
    obtain ⟨f, rfl⟩ : ∃ f, fuel = f + 1 := ⟨fuel - 1, by omega⟩
    have hend : it = faces.length := by simpa using hlen.symm
    have h3 : 3 * c / 3 = c := by omega
    have hsub : it - start = 3 * c := by omega
    simp only [writeTriangles, if_neg hf, hend.symm, Nat.lt_irrefl, if_false, hsub, h3,
      decide_True, Bool.or_true, if_true, runsFrom]
  | cons m rest ih =>
    intro fuel it start material_it prev c out hc hit hdrop hlen hfuel
    obtain ⟨f, rfl⟩ : ∃ f, fuel = f + 1 := ⟨fuel - 1, by omega⟩
    simp only [List.length_cons] at hlen hfuel
    have hlt : it < faces.length := by omega
    have hne : it ≠ faces.length := by omega
    have hnotgt : ¬ it > faces.length := by omega
    have h3 : 3 * c / 3 = c := by omega
    have hsub : it - start = 3 * c := by omega
    have hmlt : material_it < material_ids.length := by
      by_contra hcon
      rw [List.drop_eq_nil_of_le (Nat.le_of_not_lt hcon)] at hdrop
      cases hdrop
    have hget : material_ids[material_it]? = some m := by
      have := List.drop_eq_getElem_cons hmlt
      rw [hdrop] at this
      rw [List.getElem?_eq_getElem hmlt]
      simp only [List.cons.injEq] at this
      rw [this.1]
    have hdrop' : material_ids.drop (material_it + 1) = rest := by
      have := List.drop_eq_getElem_cons hmlt
      rw [hdrop] at this
      simp only [List.cons.injEq] at this
      exact this.2.symm
    by_cases hpm : prev = m
    · subst hpm
      simp only [writeTriangles, if_neg hf, if_neg hnotgt, hget, Option.getD_some, if_pos hmlt,
        hsub, h3, if_neg hne, bne_self_eq_false, Bool.false_and, decide_eq_false hne, Bool.or_false,
        Bool.false_eq_true, if_false, runsFrom, if_true]
      exact ih f (it + 3) start (material_it + 1) prev (c + 1) out (by omega) (by omega) hdrop'
        (by omega) (by omega)
    · have hbne : (prev != m) = true := by simpa using hpm
      simp only [writeTriangles, if_neg hf, if_neg hnotgt, hget, Option.getD_some, if_pos hmlt,
        hsub, h3, if_neg hne, hbne, gt_iff_lt, decide_eq_true hc, Bool.and_self, Bool.true_or, if_true,
        runsFrom, if_neg hpm]
      rw [ih f (it + 3) it (material_it + 1) m 1 _ (by omega) (by omega) hdrop'
        (by omega) (by omega), ← hit]
      simp

/-- For a non-empty face list with one material id per triangle, the loop leaves
through `break` within one iteration more than there are triangles. -/
theorem writeTriangles_initial (materialName : Int → String) (faces : List Int)
    (m : Int) (rest : List Int) (fuel : Nat)
    (hlen : faces.length = 3 * (rest.length + 1)) (hfuel : rest.length + 2 ≤ fuel) :
    writeTriangles materialName faces (m :: rest) fuel TriangleLoop.initial =
      (WriteStatus.done, runsFrom materialName faces 0 m 1 rest) := by
  obtain ⟨f, rfl⟩ : ∃ f, fuel = f + 1 := ⟨fuel - 1, by omega⟩
  have hf : faces ≠ [] := by
    intro h0; rw [h0] at hlen; simp at hlen
  have hne : ¬ (0 = faces.length) := by omega
  simp only [writeTriangles, TriangleLoop.initial, if_neg hf, Nat.not_lt_zero, gt_iff_lt,
    if_false, List.getElem?_cons_zero, Option.getD_some, List.length_cons, Nat.zero_lt_succ,
    if_true, Nat.sub_self, Nat.zero_div, Nat.lt_irrefl, decide_False, Bool.and_false,
    decide_eq_false hne, Bool.or_false, Bool.false_eq_true, if_neg hne]
  have := writeTriangles_eq_runsFrom materialName faces (m :: rest) hf rest f 3 0 1 m 1 []
    (by omega) (by omega) (by simp) (by omega) (by omega)
  simpa using this

theorem runsFrom_flatten (materialName : Int → String) (faces : List Int) :
    ∀ (rest : List Int) (start : Nat) (prev : Int) (c : Nat),
      ((runsFrom materialName faces start prev c rest).map Triangles.indices).flatten =
        (faces.drop start).take (3 * (c + rest.length)) := by
  intro rest
  induction rest with
  | nil => intro start prev c; simp [runsFrom]
  | cons m rest ih =>
    intro start prev c
    simp only [runsFrom, List.length_cons]
    split
    · rw [ih]
      congr 1
      omega
    · simp only [List.map_cons, List.flatten_cons]
      rw [ih, ← List.drop_drop, ← List.take_add]
      congr 1
      omega

theorem runsFrom_flatMap (materialName : Int → String) (faces : List Int) :
    ∀ (rest : List Int) (start : Nat) (prev : Int) (c : Nat),
      ((runsFrom materialName faces start prev c rest).flatMap fun g =>
        List.replicate g.count g.material_id) = List.replicate c prev ++ rest := by
  intro rest
  induction rest with
  | nil => intro start prev c; simp [runsFrom]
  | cons m rest ih =>
    intro start prev c
    simp only [runsFrom]
    split
    · rename_i hpm
      subst hpm
      rw [ih, List.replicate_succ']
      simp
    · simp only [List.flatMap_cons]
      rw [ih]
      simp

theorem runsFrom_mem (materialName : Int → String) (faces : List Int) :
    ∀ (rest : List Int) (start : Nat) (prev : Int) (c : Nat),
      0 < c → start + 3 * (c + rest.length) ≤ faces.length →
      ∀ g ∈ runsFrom materialName faces start prev c rest,
        0 < g.count ∧ g.indices.length = 3 * g.count ∧
        (g.material_id = prev ∨ g.material_id ∈ rest) ∧
        g.material = materialName g.material_id := by
  intro rest
  induction rest with
  | nil =>
    intro start prev c hc hlen g hg
    simp only [runsFrom, List.mem_singleton] at hg
    subst hg
    simp only [List.length_nil, Nat.add_zero] at hlen
    refine ⟨hc, ?_, Or.inl rfl, rfl⟩
    simp only [List.length_take, List.length_drop]
    omega
  | cons m rest ih =>
    intro start prev c hc hlen g hg
    simp only [List.length_cons] at hlen
    simp only [runsFrom] at hg
    split at hg
    · obtain ⟨h1, h2, h3, h4⟩ := ih start prev (c + 1) (by omega) (by omega) g hg
      refine ⟨h1, h2, ?_, h4⟩
      rcases h3 with h3 | h3
      · exact Or.inl h3
      · exact Or.inr (List.mem_cons_of_mem _ h3)
    · rcases List.mem_cons.mp hg with hg | hg
      · subst hg
        refine ⟨hc, ?_, Or.inl rfl, rfl⟩
        simp only [List.length_take, List.length_drop]
        omega
      · obtain ⟨h1, h2, h3, h4⟩ := ih (start + 3 * c) m 1 (by omega) (by omega) g hg
        refine ⟨h1, h2, ?_, h4⟩
        rcases h3 with h3 | h3
        · exact Or.inr (by rw [h3]; exact List.mem_cons_self _ _)
        · exact Or.inr (List.mem_cons_of_mem _ h3)

theorem runsFrom_chain (materialName : Int → String) (faces : List Int) :
    ∀ (rest : List Int) (start : Nat) (prev : Int) (c : Nat),
      List.Chain' (fun a b : Triangles => a.material_id ≠ b.material_id)
        (runsFrom materialName faces start prev c rest) ∧
      ((runsFrom materialName faces start prev c rest).head?).map Triangles.material_id
        = some prev := by
  intro rest
  induction rest with
  | nil => intro start prev c; simp [runsFrom]
  | cons m rest ih =>
    intro start prev c
    simp only [runsFrom]
    split
    · exact ih start prev (c + 1)
    · rename_i hpm
      obtain ⟨h1, h2⟩ := ih (start + 3 * c) m 1
      refine ⟨?_, rfl⟩
      rw [List.chain'_cons']
      refine ⟨?_, h1⟩
      intro y hy
      rw [hy] at h2
      simp only [Option.map_some', Option.some.injEq] at h2
      rw [h2]
      exact hpm

/-- C15: for every non-empty face list whose length is three times the number of
material ids, the loop of `ColladaGeometries::write` leaves through `break` after at
most one iteration more than there are triangles, and the groups it has written
are the maximal runs of triangles with equal material id, in order: their indices
put together are the face list, every group holds at least one triangle and three
indices per triangle, it is tagged with one of the given material ids and named
after it, the tags repeated once per triangle are the material ids, so that every
triangle lies in a group tagged with its own id, the last run included, and
neighbouring groups have different tags. -/
theorem writeTriangles_groups (materialName : Int → String) (faces material_ids : List Int)
    (fuel : Nat) (hf : faces ≠ []) (hlen : faces.length = 3 * material_ids.length)
    (hfuel : material_ids.length + 1 ≤ fuel) :
    (writeTriangles materialName faces material_ids fuel TriangleLoop.initial).1
      = WriteStatus.done ∧
    ((writeTriangles materialName faces material_ids fuel TriangleLoop.initial).2.map
      Triangles.indices).flatten = faces ∧
    (∀ g ∈ (writeTriangles materialName faces material_ids fuel TriangleLoop.initial).2,
      0 < g.count ∧ g.indices.length = 3 * g.count ∧ g.material_id ∈ material_ids ∧
      g.material = materialName g.material_id) ∧
    ((writeTriangles materialName faces material_ids fuel TriangleLoop.initial).2.flatMap fun g =>
      List.replicate g.count g.material_id) = material_ids ∧
    List.Chain' (fun a b : Triangles => a.material_id ≠ b.material_id)
      (writeTriangles materialName faces material_ids fuel TriangleLoop.initial).2 := by
  cases material_ids with
  | nil =>
    simp only [List.length_nil, Nat.mul_zero] at hlen
    exact absurd (List.length_eq_zero.mp hlen) hf
  | cons m rest =>
    simp only [List.length_cons] at hlen hfuel
    rw [writeTriangles_initial materialName faces m rest fuel hlen (by omega)]
    refine ⟨rfl, ?_, ?_, ?_, (runsFrom_chain materialName faces rest 0 m 1).1⟩
    · rw [runsFrom_flatten]
      simp only [List.drop_zero]
      apply List.take_of_length_le
      omega
    · intro g hg
      obtain ⟨h1, h2, h3, h4⟩ := runsFrom_mem materialName faces rest 0 m 1 (by omega)
        (by omega) g hg
      refine ⟨h1, h2, ?_, h4⟩
      rcases h3 with h3 | h3
      · rw [h3]; exact List.mem_cons_self _ _
      · exact List.mem_cons_of_mem _ h3
    · rw [runsFrom_flatMap]
      simp

/-- C15 (witness): four triangles with the material ids 5, 5, 7, 5 are written as
three groups, of two triangles with the material 5, one with 7 and one with 5. -/
theorem writeTriangles_groups_witness :
    (([1, 2, 3, 4, 5, 6, 7, 8, 9, 10, 11, 12] : List Int) ≠ [] ∧
      ([1, 2, 3, 4, 5, 6, 7, 8, 9, 10, 11, 12] : List Int).length
        = 3 * ([5, 5, 7, 5] : List Int).length ∧
      ([5, 5, 7, 5] : List Int).length + 1 ≤ 5) ∧
    ((writeTriangles (fun i => toString i) [1, 2, 3, 4, 5, 6, 7, 8, 9, 10, 11, 12] [5, 5, 7, 5]
        5 TriangleLoop.initial).1 = WriteStatus.done ∧
      ((writeTriangles (fun i => toString i) [1, 2, 3, 4, 5, 6, 7, 8, 9, 10, 11, 12] [5, 5, 7, 5]
        5 TriangleLoop.initial).2.map Triangles.indices).flatten
        = [1, 2, 3, 4, 5, 6, 7, 8, 9, 10, 11, 12]) ∧
    writeTriangles (fun i => toString i) [1, 2, 3, 4, 5, 6, 7, 8, 9, 10, 11, 12] [5, 5, 7, 5]
        5 TriangleLoop.initial =
      (WriteStatus.done, [⟨5, "5", 2, [1, 2, 3, 4, 5, 6]⟩, ⟨7, "7", 1, [7, 8, 9]⟩,
        ⟨5, "5", 1, [10, 11, 12]⟩]) :=
  ⟨⟨by decide, by decide, by decide⟩,
    ⟨(writeTriangles_groups (fun i => toString i) [1, 2, 3, 4, 5, 6, 7, 8, 9, 10, 11, 12]
        [5, 5, 7, 5] 5 (by decide) (by decide) (by decide)).1,
      (writeTriangles_groups (fun i => toString i) [1, 2, 3, 4, 5, 6, 7, 8, 9, 10, 11, 12]
        [5, 5, 7, 5] 5 (by decide) (by decide) (by decide)).2.1⟩,
    by decide!⟩

end ColladaSerializer

namespace CgalKernel

/-! ### Wires from loops -/

/-- C12: `convert` for an `IfcPolyLoop` returns false and leaves `result` as it was
when the loop has fewer than 3 points or fewer than 3 points are left by
`remove_duplicate_points_from_loop`; otherwise it returns true and `result` is the
wire that `remove_duplicate_points_from_loop` leaves for the converted points,
taken in input order and with the flag for a closed loop set, which has at least 3
points. -/
theorem convert_IfcPolyLoop_result {α β : Type} (convertPoint : α → β)
    (remove_duplicate_points_from_loop : List β → Bool → List β)
    (Polygon : List α) (result : List β) :
    ((Polygon.length < 3 ∨
        (remove_duplicate_points_from_loop (Polygon.map convertPoint) true).length < 3) →
      (convert_IfcPolyLoop convertPoint remove_duplicate_points_from_loop Polygon result).1
        = false ∧
      (convert_IfcPolyLoop convertPoint remove_duplicate_points_from_loop Polygon result).2.1
        = result) ∧
    (¬ (Polygon.length < 3 ∨
        (remove_duplicate_points_from_loop (Polygon.map convertPoint) true).length < 3) →
      (convert_IfcPolyLoop convertPoint remove_duplicate_points_from_loop Polygon result).1
        = true ∧
      (convert_IfcPolyLoop convertPoint remove_duplicate_points_from_loop Polygon result).2.1
        = remove_duplicate_points_from_loop (Polygon.map convertPoint) true ∧
      3 ≤ (convert_IfcPolyLoop convertPoint remove_duplicate_points_from_loop Polygon
        result).2.1.length) := by
  unfold convert_IfcPolyLoop
  simp only [List.length_map]
  by_cases h1 : Polygon.length < 3
  · simp [h1]
  · by_cases h2 : (remove_duplicate_points_from_loop (Polygon.map convertPoint) true).length < 3
    · simp [h1, h2]
    · have h3 : 3 ≤ (remove_duplicate_points_from_loop (Polygon.map convertPoint) true).length :=
        Nat.le_of_not_lt h2
      refine ⟨fun h => ?_, fun _ => ?_⟩
      · rcases h with h | h
        · exact absurd h h1
        · exact absurd h h2
      · rw [if_neg h1, if_neg h2]
        exact ⟨rfl, rfl, h3⟩

/-- C12 (witness): of the points 1, 2, 2, 3 the duplicate is removed and three points
are left, which become the result; of the points 1, 1, 2, 2 only two are left and
the result stays as it was. -/
theorem convert_IfcPolyLoop_result_witness :
    (¬ (([1, 2, 2, 3] : List Nat).length < 3 ∨
        ((fun (l : List Nat) (_ : Bool) => l.dedup) (([1, 2, 2, 3] : List Nat).map id) true).length
          < 3) ∧
      (([1, 1, 2, 2] : List Nat).length < 3 ∨
        ((fun (l : List Nat) (_ : Bool) => l.dedup) (([1, 1, 2, 2] : List Nat).map id) true).length
          < 3)) ∧
    ((convert_IfcPolyLoop id (fun (l : List Nat) (_ : Bool) => l.dedup) [1, 2, 2, 3] [9]).1 = true ∧
      (convert_IfcPolyLoop id (fun (l : List Nat) (_ : Bool) => l.dedup) [1, 2, 2, 3] [9]).2.1
        = (fun (l : List Nat) (_ : Bool) => l.dedup) (([1, 2, 2, 3] : List Nat).map id) true ∧
      3 ≤ (convert_IfcPolyLoop id (fun (l : List Nat) (_ : Bool) => l.dedup) [1, 2, 2, 3]
        [9]).2.1.length) ∧
    ((convert_IfcPolyLoop id (fun (l : List Nat) (_ : Bool) => l.dedup) [1, 1, 2, 2] [9]).1 = false ∧
      (convert_IfcPolyLoop id (fun (l : List Nat) (_ : Bool) => l.dedup) [1, 1, 2, 2] [9]).2.1
        = [9]) ∧
    convert_IfcPolyLoop id (fun (l : List Nat) (_ : Bool) => l.dedup) [1, 2, 2, 3] [9] =
      (true, [1, 2, 3], [LogMessage.warning "1 edges removed for:"]) :=
  ⟨⟨by decide, by decide⟩,
    (convert_IfcPolyLoop_result id (fun (l : List Nat) (_ : Bool) => l.dedup) [1, 2, 2, 3] [9]).2
      (by decide),
    (convert_IfcPolyLoop_result id (fun (l : List Nat) (_ : Bool) => l.dedup) [1, 1, 2, 2] [9]).1
      (by decide),
    by decide⟩

theorem edgeLoop_spec {ε β : Type} (convert_wire : ε → List β → Bool × List β)
    (result : List β) :
    ∀ (edges tried : List ε),
      (edgeLoop convert_wire result edges tried).1
        = edges.all (fun e => !(convert_wire e []).1) ∧
      (edgeLoop convert_wire result edges tried).2.1
        = (if edges.all (fun e => !(convert_wire e []).1) then [] else result) ∧
      (edgeLoop convert_wire result edges tried).2.2
        = tried ++ edges.takeWhile (fun e => !(convert_wire e []).1) ++
          (edges.dropWhile (fun e => !(convert_wire e []).1)).take 1 := by
  intro edges
  induction edges with
  | nil => intro tried; simp [edgeLoop]
  | cons e rest ih =>
    intro tried
    by_cases h : (convert_wire e []).1 = true
    · simp [edgeLoop, h, List.takeWhile, List.dropWhile]
    · have hf : (convert_wire e []).1 = false := by simpa using h
      obtain ⟨i1, i2, i3⟩ := ih (tried ++ [e])
      simp only [edgeLoop, hf, Bool.false_eq_true, if_false, List.all_cons, Bool.not_false,
        Bool.true_and, List.takeWhile, List.dropWhile]
      refine ⟨i1, i2, ?_⟩
      rw [i3]
      simp

/-- C17: `convert` for an `IfcEdgeLoop` gives its edges to `convert_wire` in order
and stops at the first one for which `convert_wire` returns true: it then returns
false and leaves `result` as it was. It returns true exactly when `convert_wire`
returns false for every edge of the list, the empty list included, and `result` is
then the empty wire. -/
theorem convert_IfcEdgeLoop_result {ε β : Type} (convert_wire : ε → List β → Bool × List β)
    (EdgeList : List ε) (result : List β) :
    ((convert_IfcEdgeLoop convert_wire EdgeList result).1 = true ↔
      ∀ e ∈ EdgeList, (convert_wire e []).1 = false) ∧
    ((∃ e ∈ EdgeList, (convert_wire e []).1 = true) →
      (convert_IfcEdgeLoop convert_wire EdgeList result).1 = false ∧
      (convert_IfcEdgeLoop convert_wire EdgeList result).2.1 = result) ∧
    ((∀ e ∈ EdgeList, (convert_wire e []).1 = false) →
      (convert_IfcEdgeLoop convert_wire EdgeList result).1 = true ∧
      (convert_IfcEdgeLoop convert_wire EdgeList result).2.1 = []) ∧
    (convert_IfcEdgeLoop convert_wire EdgeList result).2.2 =
      EdgeList.takeWhile (fun e => !(convert_wire e []).1) ++
        (EdgeList.dropWhile (fun e => !(convert_wire e []).1)).take 1 := by
  obtain ⟨h1, h2, h3⟩ := edgeLoop_spec convert_wire result EdgeList []
  unfold convert_IfcEdgeLoop
  have hall : (EdgeList.all fun e => !(convert_wire e []).1) = true ↔
      ∀ e ∈ EdgeList, (convert_wire e []).1 = false := by
    simp [List.all_eq_true]
  refine ⟨by rw [h1]; exact hall, ?_, ?_, by rw [h3]; simp⟩
  · rintro ⟨e, he, hc⟩
    have hn : ¬ (EdgeList.all fun e => !(convert_wire e []).1) = true := by
      rw [hall]
      intro hall'
      rw [hall' e he] at hc
      cases hc
    rw [h1, h2, if_neg hn]
    exact ⟨by simpa using hn, rfl⟩
  · intro hall'
    rw [h1, h2, if_pos (hall.mpr hall')]
    exact ⟨hall.mpr hall', rfl⟩

/-- C17 (witness): of the edges 1, 2, 3, 4 the third is the first that converts: the
call returns false, leaves the result as it was and has tried the edges 1, 2, 3;
when no edge converts the call returns true with the empty wire. -/
theorem convert_IfcEdgeLoop_result_witness :
    ((∃ e ∈ ([1, 2, 3, 4] : List Nat),
        ((fun (e : Nat) (_ : List Nat) => (decide (3 ≤ e), [e])) e []).1 = true) ∧
      (∀ e ∈ ([1, 2] : List Nat),
        ((fun (e : Nat) (_ : List Nat) => (decide (3 ≤ e), [e])) e []).1 = false)) ∧
    ((convert_IfcEdgeLoop (fun (e : Nat) (_ : List Nat) => (decide (3 ≤ e), [e])) [1, 2, 3, 4]
        [7]).1 = false ∧
      (convert_IfcEdgeLoop (fun (e : Nat) (_ : List Nat) => (decide (3 ≤ e), [e])) [1, 2, 3, 4]
        [7]).2.1 = [7]) ∧
    ((convert_IfcEdgeLoop (fun (e : Nat) (_ : List Nat) => (decide (3 ≤ e), [e])) [1, 2]
        [7]).1 = true ∧
      (convert_IfcEdgeLoop (fun (e : Nat) (_ : List Nat) => (decide (3 ≤ e), [e])) [1, 2]
        [7]).2.1 = []) ∧
    (convert_IfcEdgeLoop (fun (e : Nat) (_ : List Nat) => (decide (3 ≤ e), [e])) [1, 2, 3, 4]
        [7]).2.2 = [1, 2, 3] ∧
    convert_IfcEdgeLoop (fun (e : Nat) (_ : List Nat) => (decide (3 ≤ e), [e])) [] [7]
      = (true, [], []) :=
  ⟨⟨⟨3, by decide, by decide⟩, by decide⟩,
    (convert_IfcEdgeLoop_result (fun (e : Nat) (_ : List Nat) => (decide (3 ≤ e), [e]))
      [1, 2, 3, 4] [7]).2.1 ⟨3, by decide, by decide⟩,
    (convert_IfcEdgeLoop_result (fun (e : Nat) (_ : List Nat) => (decide (3 ≤ e), [e]))
      [1, 2] [7]).2.2.1 (by decide),
    by decide, by decide⟩

end CgalKernel
